import Mathlib

/-!
# Crossy Roads: the simulation core of `Game.cpp`

A shallow embedding of the `Game` class of `src/Game.cpp` (path generation,
obstacle spawning, tile decay, obstacle animation, the roll/jump state
machine, collision tests, score) together with theorems about it.

Conventions of the embedding

* `float` values are rationals (`ℚ`) and `int` values are unbounded integers;
  infinities and NaN are not modelled.  The type `float` is IEEE binary32 and
  `double` is binary64: `roundFloat` and `roundDouble` round a rational to the
  nearest value of the type, ties to even.  The collision test
  (`checkObstacleCollision`), the score update (`updateScore`) and the
  definitions whose name ends in `Float` (the decay of a tile, the jump branch
  and the roll branch of `updateGame` with the path-extension test that ends
  them) round the result of every floating-point
  operation once, to the type of the operation (no wider intermediate
  precision, no fused multiply-add).  The other definitions compute the same
  expressions without rounding.
* The C library is a parameter (`Platform`): the sequence of values returned by
  successive calls of `rand()`, the constant `RAND_MAX`, and the functions
  `sin`, `cos` and `sqrt`.  The number of calls of `rand()` made so far is the
  field `randPos` of the game state.
* The `do … while` loop of `extendPath` need not terminate for every sequence
  of draws; it is run with a bound (`fuel`) on its number of iterations and the
  functions that reach it return an `Option`.
* The `try … catch` wrappers are left out: the modelled code throws nothing
  (memory exhaustion apart).
-/

namespace CrossyRoads

/-! ## C library -/

/-- The part of the C library the game calls. `rand n` is the value returned by
the `n`-th call of `rand()` (counting from 0). -/
structure Platform where
  rand : Nat → Nat
  RAND_MAX : Nat
  sin : ℚ → ℚ
  cos : ℚ → ℚ
  sqrt : ℚ → ℚ

/-- The macro `M_PI` of the source (`3.14159265358979323846`). -/
def M_PI : ℚ := 314159265358979323846 / 100000000000000000000

/-- The function `std::round`: nearest integer, halves away from zero. -/
def cRound (x : ℚ) : Int :=
  if 0 ≤ x then ⌊x + 1 / 2⌋ else -⌊-x + 1 / 2⌋

/-- The conversion `static_cast<int>` of a float: truncation toward zero. -/
def truncToInt (x : ℚ) : Int :=
  if 0 ≤ x then ⌊x⌋ else ⌈x⌉

/-! ## Floating-point rounding -/

/-- Nearest integer, a tie going to the even one. -/
def roundNearestEven (q : ℚ) : Int :=
  let f := ⌊q⌋
  let r := q - f
  if r < 1 / 2 then f
  else if 1 / 2 < r then f + 1
  else if f % 2 = 0 then f else f + 1

/-- The power `2 ^ s` for an integer exponent `s`. -/
def pow2 (s : Int) : ℚ :=
  if 0 ≤ s then ((2 ^ s.toNat : Nat) : ℚ) else 1 / ((2 ^ (-s).toNat : Nat) : ℚ)

/-- The position of the leading bit of `n` (0 for `n < 2`), found by halving
at most `fuel` times. -/
def log2Fuel : Nat → Nat → Nat
  | 0, _ => 0
  | fuel + 1, n => if 2 ≤ n then log2Fuel fuel (n / 2) + 1 else 0

/-- Rounding to the nearest binary floating-point number with `prec` bits of
significand and least normal exponent `emin`, a tie going to the even
significand (the IEEE 754 default). With `e` the exponent of `x`
(`2 ^ e ≤ |x| < 2 ^ (e + 1)`), the result is the multiple of
`2 ^ (max e emin - (prec - 1))` nearest to `x`. Overflow is not modelled: the
exponent has no upper bound. -/
def roundBinary (prec : Nat) (emin : Int) (x : ℚ) : ℚ :=
  if x = 0 then 0
  else
    let a := |x|
    let k : Int := (log2Fuel a.num.natAbs a.num.natAbs : Int) - (log2Fuel a.den a.den : Int)
    let e : Int := if pow2 k ≤ a then k else k - 1
    let q : ℚ := pow2 (max e emin - ((prec : Int) - 1))
    (roundNearestEven (x / q) : ℚ) * q

/-- The rounding of a real result to the type `float` (IEEE binary32). -/
def roundFloat (x : ℚ) : ℚ :=
  roundBinary 24 (-126) x

/-- The rounding of a real result to the type `double` (IEEE binary64). -/
def roundDouble (x : ℚ) : ℚ :=
  roundBinary 53 (-1022) x

/-! ## Data model -/

/-- The enumeration `ObstacleType`. -/
inductive ObstacleType where
  | NONE
  | RISING_BLOCK
  | FALLING_BLOCK
  | SPINNING_BLOCK
  | MOVING_BLOCK
  deriving DecidableEq, Repr

/-- The conversion `static_cast<ObstacleType>(n)` for the values 1 to 4 that
`generateObstacles` produces (anything else is mapped to `NONE`). -/
def ObstacleType.cast : Nat → ObstacleType
  | 1 => .RISING_BLOCK
  | 2 => .FALLING_BLOCK
  | 3 => .SPINNING_BLOCK
  | 4 => .MOVING_BLOCK
  | _ => .NONE

/-- The struct `Obstacle`. -/
structure Obstacle where
  x : Int
  z : Int
  type : ObstacleType
  progress : ℚ
  active : Bool
  height : ℚ
  rotation : ℚ
  offsetX : ℚ
  offsetZ : ℚ
  deriving DecidableEq, Repr

/-- A path tuple `(x, z, lifetime, max_lifetime, isCorner)`. -/
structure Tile where
  x : Int
  z : Int
  lifetime : ℚ
  maxLifetime : ℚ
  isCorner : Bool
  deriving DecidableEq, Repr

/-- The data members of the class `Game`, and the number of calls of `rand()`
made so far. -/
structure Game where
  score : Int
  playerX : ℚ
  playerY : ℚ
  playerZ : ℚ
  isRolling : Bool
  rollAngle : ℚ
  rollDirection : Int
  rollProgress : ℚ
  gameOver : Bool
  showDirections : Bool
  maxDistanceTraveled : Int
  isJumping : Bool
  jumpHeight : ℚ
  jumpProgress : ℚ
  jumpDestX : ℚ
  jumpDestZ : ℚ
  jumpStartX : ℚ
  jumpStartZ : ℚ
  cameraMode : Int
  cameraDistance : ℚ
  cameraAngle : ℚ
  fixedCameraAngle : Bool
  keyW : Bool
  keyS : Bool
  keyA : Bool
  keyD : Bool
  keySpace : Bool
  path : List Tile
  maxX : Int
  maxZ : Int
  prevDirection : Int
  obstacles : List Obstacle
  randPos : Nat

/-- The member initialisers of the class: the state of a freshly constructed
`Game`, before any call of `rand()`. -/
def Game.initial : Game where
  score := 0
  playerX := 0
  playerY := 1
  playerZ := 0
  isRolling := false
  rollAngle := 0
  rollDirection := 0
  rollProgress := 0
  gameOver := false
  showDirections := true
  maxDistanceTraveled := 0
  isJumping := false
  jumpHeight := 0
  jumpProgress := 0
  jumpDestX := 0
  jumpDestZ := 0
  jumpStartX := 0
  jumpStartZ := 0
  cameraMode := 0
  cameraDistance := 8
  cameraAngle := 45
  fixedCameraAngle := true
  keyW := false
  keyS := false
  keyA := false
  keyD := false
  keySpace := false
  path := []
  maxX := 0
  maxZ := 0
  prevDirection := -1
  obstacles := []
  randPos := 0

/-! ## Constants -/

def MAX_JUMP_HEIGHT : ℚ := 3 / 2
def JUMP_SPEED : ℚ := 2
def INITIAL_PATH_LENGTH : Nat := 20
def PATH_SEGMENT_LENGTH : Nat := 15
def ROLL_SPEED : ℚ := 3
def PLATFORM_LIFETIME : ℚ := 3
def PATH_EXTENSION_THRESHOLD : ℚ := 10
def OBSTACLE_SPAWN_CHANCE : ℚ := 3 / 5

/-! ## Exclusion tests -/

/-- The Manhattan distance `std::abs(ax - bx) + std::abs(az - bz)`. -/
def manhattan (ax az bx bz : Int) : Nat :=
  (ax - bx).natAbs + (az - bz).natAbs

/-- The member function `Game::isCornerPoint`: some tile of the path at `(x, z)` is a corner. -/
def isCornerPoint (path : List Tile) (x z : Int) : Bool :=
  path.any fun tile => tile.x == x && tile.z == z && tile.isCorner

/-- The member function `Game::isAdjacentToCorner`: some corner tile of the path is at Manhattan
distance 1 from `(x, z)`. -/
def isAdjacentToCorner (path : List Tile) (x z : Int) : Bool :=
  path.any fun tile => tile.isCorner && manhattan tile.x tile.z x z == 1

/-- The member function `Game::hasObstacle`: some active obstacle is at `(x, z)`. -/
def hasObstacle (obstacles : List Obstacle) (x z : Int) : Bool :=
  obstacles.any fun obstacle => obstacle.x == x && obstacle.z == z && obstacle.active

/-- The member function `Game::isAdjacentToObstacle`: some active obstacle is at Manhattan distance
1 from `(x, z)`. -/
def isAdjacentToObstacle (obstacles : List Obstacle) (x z : Int) : Bool :=
  obstacles.any fun obstacle =>
    obstacle.active && manhattan obstacle.x obstacle.z x z == 1

/-! ## Obstacle spawning -/

/-- The search of `generateObstacles` for the position of `(x, z)` in the full
path: the first index whose tile has these coordinates, or `-1`. -/
def findPathIndex (path : List Tile) (x z : Int) : Int :=
  match path.findIdx? fun tile => tile.x == x && tile.z == z with
  | some idx => (idx : Int)
  | none => -1

/-- The flag `isMiddleStraight` of `generateObstacles`. The guard
`currentIndex > 0` makes the path non-empty, so `path.size() - 1` cannot wrap. -/
def isMiddleStraight (path : List Tile) (x z : Int) : Bool :=
  let currentIndex := findPathIndex path x z
  if 0 < currentIndex ∧ currentIndex < (path.length : Int) - 1 then
    match path[currentIndex.toNat - 1]?, path[currentIndex.toNat + 1]? with
    | some prevTile, some nextTile =>
      if prevTile.x = x - 1 ∧ prevTile.z = z ∧ nextTile.x = x + 1 ∧ nextTile.z = z then true
      else if prevTile.z = z - 1 ∧ prevTile.x = x ∧ nextTile.z = z + 1 ∧ nextTile.x = x then true
      else false
    | _, _ => false
  else false

/-- The obstacle that `generateObstacles` builds at `(x, z)` from the draw `r`. -/
def newObstacle (x z : Int) (r : Nat) : Obstacle where
  x := x
  z := z
  type := ObstacleType.cast (1 + r % 4)
  progress := 0
  active := true
  height := 0
  rotation := 0
  offsetX := 0
  offsetZ := 0

/-- One iteration (index `i`) of the loop of `generateObstacles`. -/
def spawnStep (P : Platform) (pathSegment : List Tile) (startIndex : Nat)
    (g : Game) (i : Nat) : Game :=
  match pathSegment[i]? with
  | none => g
  | some tile =>
    let x := tile.x
    let z := tile.z
    if i < 5 ∧ startIndex = 0 then g
    else if isCornerPoint g.path x z then g
    else if isAdjacentToCorner g.path x z then g
    else if hasObstacle g.obstacles x z then g
    else if isAdjacentToObstacle g.obstacles x z then g
    else
      let probability : ℚ :=
        if isMiddleStraight g.path x z then 4 / 5 else OBSTACLE_SPAWN_CHANCE
      if (P.rand g.randPos : ℚ) / (P.RAND_MAX : ℚ) < probability then
        { g with
          obstacles := g.obstacles ++ [newObstacle x z (P.rand (g.randPos + 1))]
          randPos := g.randPos + 2 }
      else
        { g with randPos := g.randPos + 1 }

/-- The member function `Game::generateObstacles(pathSegment, startIndex)`. -/
def generateObstacles (P : Platform) (pathSegment : List Tile) (startIndex : Nat)
    (g : Game) : Game :=
  (List.range' startIndex (pathSegment.length - startIndex)).foldl
    (spawnStep P pathSegment startIndex) g

/-! ## Path generation -/

/-- The local variables of the generation loops of `generateInitialPath` and
`extendPath`, with the members `maxX`, `maxZ` they update and the draw count. -/
structure Walk where
  x : Int
  z : Int
  currentDirection : Int
  straightCounter : Int
  maxX : Int
  maxZ : Int
  tiles : List Tile
  randPos : Nat
  deriving DecidableEq, Repr

/-- The end of a loop body in both generators: corner flag, move, frontier
update, `push_back`, and `currentDirection = nextDirection`. -/
def Walk.advance (w : Walk) (nextDirection : Int) : Walk :=
  let isCorner : Bool := w.currentDirection != -1 && w.currentDirection != nextDirection
  let x := if nextDirection = 1 then w.x else w.x + 1
  let z := if nextDirection = 1 then w.z + 1 else w.z
  { w with
    x := x
    z := z
    maxX := max w.maxX x
    maxZ := max w.maxZ z
    tiles := w.tiles ++ [⟨x, z, PLATFORM_LIFETIME, PLATFORM_LIFETIME, isCorner⟩]
    currentDirection := nextDirection }

/-- The `do … while` loop of `extendPath` at step `i`, started after
`randPos` draws: the chosen direction and the new draw count, or `none` when
`fuel` iterations all ended with the loop condition true. -/
def chooseDirection (P : Platform) (i : Nat) (currentDirection : Int) :
    Nat → Nat → Option (Int × Nat)
  | 0, _ => none
  | fuel + 1, randPos =>
    let drawn : Int := ((P.rand randPos % 2 : Nat) : Int)
    let nextDirection : Int :=
      if 0 < i ∧ i % 5 = 0 then (if currentDirection = 0 then 1 else 0) else drawn
    if nextDirection = currentDirection ∧ 0 < i then
      if P.rand (randPos + 1) % 3 = 0 then
        chooseDirection P i currentDirection fuel (randPos + 2)
      else some (nextDirection, randPos + 2)
    else some (nextDirection, randPos + 1)

/-- One iteration (index `i`) of the `for` loop of `extendPath`. -/
def extendStep (P : Platform) (fuel : Nat) (w : Walk) (i : Nat) : Option Walk :=
  match chooseDirection P i w.currentDirection fuel w.randPos with
  | none => none
  | some (nextDirection, randPos) =>
    some ({ w with randPos := randPos }.advance nextDirection)

/-- The `for` loop of `extendPath`, started from the last tile of the path (or
from the frontier when the path is empty). -/
def extendWalk (P : Platform) (fuel : Nat) (g : Game) : Option Walk :=
  let start : Int × Int :=
    match g.path.getLast? with
    | some tile => (tile.x, tile.z)
    | none => (g.maxX, g.maxZ)
  (List.range PATH_SEGMENT_LENGTH).foldlM (extendStep P fuel)
    { x := start.1, z := start.2, currentDirection := g.prevDirection,
      straightCounter := 0, maxX := g.maxX, maxZ := g.maxZ, tiles := [],
      randPos := g.randPos }

/-- The member function `Game::extendPath`. -/
def extendPath (P : Platform) (fuel : Nat) (g : Game) : Option Game :=
  match extendWalk P fuel g with
  | none => none
  | some w =>
    some (generateObstacles P w.tiles 0
      { g with
        path := g.path ++ w.tiles
        maxX := w.maxX
        maxZ := w.maxZ
        prevDirection := w.currentDirection
        randPos := w.randPos })

/-- One iteration (index `i`) of the `for` loop of `generateInitialPath`. -/
def initialStep (P : Platform) (w : Walk) (i : Nat) : Walk :=
  if i ≤ 5 then
    w.advance 0
  else if 3 ≤ w.straightCounter then
    { w with straightCounter := 0 }.advance (if w.currentDirection = 0 then 1 else 0)
  else if P.rand w.randPos % 3 = 0 then
    { w with straightCounter := 0, randPos := w.randPos + 1 }.advance
      (if w.currentDirection = 0 then 1 else 0)
  else if w.currentDirection = -1 then
    { w with straightCounter := w.straightCounter + 1, randPos := w.randPos + 2 }.advance
      ((P.rand (w.randPos + 1) % 2 : Nat) : Int)
  else
    { w with straightCounter := w.straightCounter + 1, randPos := w.randPos + 1 }.advance
      w.currentDirection

/-- The `for` loop of `generateInitialPath`, after the starting tile has been
pushed. -/
def initialWalk (P : Platform) (randPos : Nat) : Walk :=
  (List.range' 1 (INITIAL_PATH_LENGTH - 1)).foldl (initialStep P)
    { x := 0, z := 0, currentDirection := -1, straightCounter := 0, maxX := 0, maxZ := 0,
      tiles := [⟨0, 0, PLATFORM_LIFETIME, PLATFORM_LIFETIME, false⟩],
      randPos := randPos }

/-- The member function `Game::generateInitialPath`. -/
def generateInitialPath (P : Platform) (g : Game) : Game :=
  let w := initialWalk P g.randPos
  generateObstacles P w.tiles 6
    { g with
      path := w.tiles
      obstacles := []
      maxX := w.maxX
      maxZ := w.maxZ
      prevDirection := w.currentDirection
      randPos := w.randPos }

/-! ## Collision tests -/

/-- The member function `Game::onPath`. -/
def onPath (path : List Tile) (x z : ℚ) : Bool :=
  let roundedX := cRound x
  let roundedZ := cRound z
  path.any fun tile => decide (0 < tile.lifetime) && tile.x == roundedX && tile.z == roundedZ

/-- The body of the loop of `checkObstacleCollision` for one obstacle: whether
this obstacle makes the function return `true`. Every sum and difference is a
`float` operation and is rounded; where an `int` member meets a `float`
(`std::round(x) == obstacle.x`, `obstacle.x - 0.5f`) it is converted to
`float` first. `std::round` of a `float` is exact. -/
def obstacleHits (x y z : ℚ) (obstacle : Obstacle) : Bool :=
  if !obstacle.active then false
  else if (cRound x : ℚ) = roundFloat obstacle.x ∧ (cRound z : ℚ) = roundFloat obstacle.z then
    match obstacle.type with
    | .RISING_BLOCK | .FALLING_BLOCK =>
      decide (y ≤ roundFloat (obstacle.height + 1 / 2) ∧
        roundFloat (y + 1 / 2) ≥ roundFloat (obstacle.height - 1 / 2))
    | .SPINNING_BLOCK => decide (y ≤ 3 / 2)
    | .MOVING_BLOCK =>
      decide (y ≤ 1 ∧
        x ≥ roundFloat (roundFloat (roundFloat obstacle.x - 1 / 2) + obstacle.offsetX) ∧
        x ≤ roundFloat (roundFloat (roundFloat obstacle.x + 1 / 2) + obstacle.offsetX) ∧
        z ≥ roundFloat (roundFloat (roundFloat obstacle.z - 1 / 2) + obstacle.offsetZ) ∧
        z ≤ roundFloat (roundFloat (roundFloat obstacle.z + 1 / 2) + obstacle.offsetZ))
    | .NONE => false
  else false

/-- The member function `Game::checkObstacleCollision`. -/
def checkObstacleCollision (obstacles : List Obstacle) (x y z : ℚ) : Bool :=
  obstacles.any (obstacleHits x y z)

/-! ## The update tick -/

/-- The body of the platform-lifetime loop of `updateGame` for one tile. -/
def decayTile (deltaTime playerX playerZ : ℚ) (tile : Tile) : Tile :=
  let tileLife :=
    if (tile.x : ℚ) < playerX ∨ (tile.z : ℚ) < playerZ then tile.lifetime - deltaTime
    else tile.lifetime
  { tile with lifetime := if tileLife < 0 then 0 else tileLife }

/-- The body of the obstacle loop of `updateGame` for one obstacle. -/
def updateObstacle (P : Platform) (deltaTime : ℚ) (obstacle : Obstacle) : Obstacle :=
  if !obstacle.active then obstacle
  else
    let progress := obstacle.progress + deltaTime
    let o := { obstacle with progress := progress }
    match obstacle.type with
    | .RISING_BLOCK => { o with height := min 1 (progress * (1 / 2)) }
    | .FALLING_BLOCK =>
      if progress < 1 then { o with height := 2 - (progress / 1) * 2 }
      else { o with height := 0 }
    | .SPINNING_BLOCK =>
      { o with
        rotation := obstacle.rotation + deltaTime * 180
        height := 1 / 2 + (3 / 10) * P.sin (progress * 3) }
    | .MOVING_BLOCK =>
      { o with
        offsetX := (1 / 2) * P.sin (progress * 2)
        offsetZ := (1 / 2) * P.cos (progress * 2) }
    | .NONE => o

/-- The path-extension test made after a roll or a jump has completed. -/
def maybeExtend (P : Platform) (fuel : Nat) (g : Game) : Option Game :=
  if !g.gameOver then
    let distanceToEnd :=
      P.sqrt (((g.maxX : ℚ) - g.playerX) ^ 2 + ((g.maxZ : ℚ) - g.playerZ) ^ 2)
    if distanceToEnd < PATH_EXTENSION_THRESHOLD then extendPath P fuel g else some g
  else some g

/-- The state when a jump completes (`jumpProgress >= 1.0f`), before the
path-extension test. -/
def jumpLanding (g : Game) : Game :=
  let g := { g with
    jumpProgress := 0
    isJumping := false
    playerX := g.jumpDestX
    playerZ := g.jumpDestZ
    jumpHeight := 0 }
  let g := if !onPath g.path g.playerX g.playerZ then { g with gameOver := true } else g
  { g with rollDirection := 0 }

/-- The state after an airborne tick of a jump whose progress has become `t`. -/
def jumpAirborne (P : Platform) (t : ℚ) (g : Game) : Game :=
  let g := { g with
    jumpProgress := t
    jumpHeight := MAX_JUMP_HEIGHT * P.sin (t * M_PI)
    playerX := g.jumpStartX + t * (g.jumpDestX - g.jumpStartX)
    playerZ := g.jumpStartZ + t * (g.jumpDestZ - g.jumpStartZ) }
  if checkObstacleCollision g.obstacles g.playerX (g.playerY + g.jumpHeight) g.playerZ then
    { g with gameOver := true }
  else g

/-- The branch `if (isJumping)` of `updateGame`. -/
def updateJump (P : Platform) (fuel : Nat) (deltaTime : ℚ) (g : Game) : Option Game :=
  let jumpProgress := g.jumpProgress + JUMP_SPEED * deltaTime
  if jumpProgress ≥ 1 then maybeExtend P fuel (jumpLanding g)
  else some (jumpAirborne P jumpProgress g)

/-- The state when a roll completes (`rollProgress >= 1.0f`), before the
path-extension test. -/
def rollLanding (g : Game) : Game :=
  let g := { g with isRolling := false, rollProgress := 0, rollAngle := 0 }
  let g :=
    if g.rollDirection = 1 then { g with playerZ := g.playerZ - 1 }
    else if g.rollDirection = 2 then { g with playerZ := g.playerZ + 1 }
    else if g.rollDirection = 3 then { g with playerX := g.playerX - 1 }
    else if g.rollDirection = 4 then { g with playerX := g.playerX + 1 }
    else g
  let g := if !onPath g.path g.playerX g.playerZ then { g with gameOver := true } else g
  let g :=
    if !g.gameOver && checkObstacleCollision g.obstacles g.playerX g.playerY g.playerZ then
      { g with gameOver := true }
    else g
  { g with rollDirection := 0 }

/-- The branch `else if (isRolling)` of `updateGame`. -/
def updateRoll (P : Platform) (fuel : Nat) (deltaTime : ℚ) (g : Game) : Option Game :=
  let rollProgress := g.rollProgress + ROLL_SPEED * deltaTime
  if rollProgress ≥ 1 then maybeExtend P fuel (rollLanding g)
  else some { g with rollProgress := rollProgress, rollAngle := rollProgress * 90 }

/-- The final branch of `updateGame`: reading the input flags while idle. -/
def updateInput (g : Game) : Game :=
  let newDirection : Int :=
    if g.keyW then 1 else if g.keyS then 2 else if g.keyA then 3 else if g.keyD then 4 else 0
  let canMove : Bool := g.keyW || g.keyS || g.keyA || g.keyD
  if canMove then
    let g := { g with showDirections := false }
    if g.keySpace then
      let jumpX :=
        if newDirection = 3 then g.playerX - 2
        else if newDirection = 4 then g.playerX + 2 else g.playerX
      let jumpZ :=
        if newDirection = 1 then g.playerZ - 2
        else if newDirection = 2 then g.playerZ + 2 else g.playerZ
      { g with
        isJumping := true
        jumpStartX := g.playerX
        jumpStartZ := g.playerZ
        jumpDestX := jumpX
        jumpDestZ := jumpZ
        rollDirection := newDirection }
    else
      { g with isRolling := true, rollDirection := newDirection }
  else g

/-- The score update at the end of `updateGame`: the sum `playerX + playerZ`
is a `float` addition, rounded before the conversion to `int`. -/
def updateScore (g : Game) : Game :=
  if !g.gameOver then
    let currentDistance := truncToInt (roundFloat (g.playerX + g.playerZ))
    if currentDistance > g.maxDistanceTraveled then
      { g with maxDistanceTraveled := currentDistance, score := currentDistance }
    else g
  else g

/-- The camera rotation at the end of `updateGame`. -/
def updateCamera (deltaTime : ℚ) (g : Game) : Game :=
  if !g.fixedCameraAngle then
    let cameraAngle := g.cameraAngle + deltaTime * 10
    { g with cameraAngle := if cameraAngle > 360 then cameraAngle - 360 else cameraAngle }
  else g

/-- The state after the two loops that open `updateGame`: tile decay (against
the player position at the start of the tick) and obstacle animation. -/
def updateWorld (P : Platform) (deltaTime : ℚ) (g : Game) : Game :=
  { g with
    path := g.path.map (decayTile deltaTime g.playerX g.playerZ)
    obstacles := g.obstacles.map (updateObstacle P deltaTime) }

/-- The movement part of `updateGame`: jump, roll, or input. -/
def updateMovement (P : Platform) (fuel : Nat) (deltaTime : ℚ) (g : Game) : Option Game :=
  if g.isJumping then updateJump P fuel deltaTime g
  else if g.isRolling then updateRoll P fuel deltaTime g
  else some (updateInput g)

/-- The member function `Game::updateGame(deltaTime)`. -/
def updateGame (P : Platform) (fuel : Nat) (deltaTime : ℚ) (g : Game) : Option Game :=
  if g.gameOver then some g
  else
    (updateMovement P fuel deltaTime (updateWorld P deltaTime g)).map fun g =>
      updateCamera deltaTime (updateScore g)

/-! ## The other public operations -/

/-- The member function `Game::reset`. -/
def reset (P : Platform) (g : Game) : Game :=
  let g := { g with
    score := 0
    maxDistanceTraveled := 0
    gameOver := false
    isRolling := false
    isJumping := false
    jumpHeight := 0
    jumpProgress := 0
    rollAngle := 0
    rollDirection := 0
    rollProgress := 0
    showDirections := true
    prevDirection := -1 }
  let g := generateInitialPath P g
  let first : Int × Int :=
    match g.path with
    | tile :: _ => (tile.x, tile.z)
    | [] => (0, 0)
  { g with
    playerX := first.1
    playerY := 1
    playerZ := first.2
    keyW := false
    keyS := false
    keyA := false
    keyD := false
    keySpace := false }

/-- The member function `Game::nextCameraMode`. -/
def nextCameraMode (g : Game) : Game :=
  let cameraMode := (g.cameraMode + 1) % 4
  { g with
    cameraMode := cameraMode
    fixedCameraAngle := if cameraMode = 3 then true else g.fixedCameraAngle }

/-- The member function `Game::toggleCameraRotation`. -/
def toggleCameraRotation (g : Game) : Game :=
  { g with fixedCameraAngle := !g.fixedCameraAngle }

/-- The member function `Game::zoomIn`. -/
def zoomIn (g : Game) : Game :=
  { g with cameraDistance := max 5 (g.cameraDistance - 1) }

/-- The member function `Game::zoomOut`. -/
def zoomOut (g : Game) : Game :=
  { g with cameraDistance := min 20 (g.cameraDistance + 1) }

/-- The five input flags. -/
inductive Key where
  | W
  | S
  | A
  | D
  | Space
  deriving DecidableEq, Repr

/-- The assignments `game.keyW = b`, … of `keyboard` and `keyboardUp`. -/
def setKey (k : Key) (b : Bool) (g : Game) : Game :=
  match k with
  | .W => { g with keyW := b }
  | .S => { g with keyS := b }
  | .A => { g with keyA := b }
  | .D => { g with keyD := b }
  | .Space => { g with keySpace := b }

/-- What the callbacks `timer`, `keyboard` and `keyboardUp` can do to the game. -/
inductive Action where
  | update (deltaTime : ℚ)
  | key (k : Key) (b : Bool)
  | nextCameraMode
  | toggleCameraRotation
  | zoomIn
  | zoomOut
  | reset

/-- The effect of one callback on the game state. -/
def step (P : Platform) (fuel : Nat) (g : Game) : Action → Option Game
  | .update deltaTime => updateGame P fuel deltaTime g
  | .key k b => some (setKey k b g)
  | .nextCameraMode => some (nextCameraMode g)
  | .toggleCameraRotation => some (toggleCameraRotation g)
  | .zoomIn => some (zoomIn g)
  | .zoomOut => some (zoomOut g)
  | .reset => some (reset P g)

/-! ## Predicates of the statements -/

/-- The integer `m` is the maximum of the list `l`. -/
def IsMax (m : Int) (l : List Int) : Prop :=
  m ∈ l ∧ ∀ a ∈ l, a ≤ m

/-- The frontier `(maxX, maxZ)` is the componentwise maximum over all tiles. -/
def Frontier (g : Game) : Prop :=
  IsMax g.maxX (g.path.map fun t => t.x) ∧ IsMax g.maxZ (g.path.map fun t => t.z)

/-- A tile as the generators create it: full lifetime. -/
def Tile.fresh (t : Tile) : Prop :=
  t.lifetime = PLATFORM_LIFETIME ∧ t.maxLifetime = PLATFORM_LIFETIME

/-- Every tile has a lifetime between 0 and its maximum. -/
def TilesOK (g : Game) : Prop :=
  ∀ t ∈ g.path, 0 ≤ t.lifetime ∧ t.lifetime ≤ t.maxLifetime

/-- The fields of the state that the movement branches leave alone or only
extend. -/
structure Extends (g g' : Game) : Prop where
  path : ∃ seg, g'.path = g.path ++ seg ∧ ∀ t ∈ seg, t.fresh
  score : g'.score = g.score
  maxDistanceTraveled : g'.maxDistanceTraveled = g.maxDistanceTraveled
  frontier : Frontier g → Frontier g'

/-- The pose and movement state of the player are the same in both states. -/
structure SamePose (g g' : Game) : Prop where
  playerX : g'.playerX = g.playerX
  playerY : g'.playerY = g.playerY
  playerZ : g'.playerZ = g.playerZ
  isRolling : g'.isRolling = g.isRolling
  isJumping : g'.isJumping = g.isJumping
  rollProgress : g'.rollProgress = g.rollProgress
  rollDirection : g'.rollDirection = g.rollDirection
  jumpProgress : g'.jumpProgress = g.jumpProgress
  jumpHeight : g'.jumpHeight = g.jumpHeight
  gameOver : g'.gameOver = g.gameOver

/-- Two obstacles are neither in the same cell nor in orthogonally adjacent cells. -/
def Apart (o o' : Obstacle) : Prop :=
  ¬ (o'.x = o.x ∧ o'.z = o.z) ∧ manhattan o'.x o'.z o.x o.z ≠ 1

/-- The cell `(x, z)` is not a corner tile of the path and not at Manhattan
distance 1 from one. -/
def CornerFree (path : List Tile) (x z : Int) : Prop :=
  ∀ t ∈ path, t.isCorner = true → ¬ (t.x = x ∧ t.z = z) ∧ manhattan t.x t.z x z ≠ 1

/-- What the loop of `generateObstacles` has appended so far: active obstacles
on cells of the segment, away from corners, from the obstacles that were
there before, and from each other. -/
structure Spawned (path : List Tile) (seg : List Tile) (old added : List Obstacle) : Prop where
  active : ∀ o ∈ added, o.active = true
  onSegment : ∀ o ∈ added, ∃ tile ∈ seg, tile.x = o.x ∧ tile.z = o.z
  cornerFree : ∀ o ∈ added, CornerFree path o.x o.z
  old : ∀ o ∈ added, ∀ o' ∈ old, o'.active = true → Apart o o'
  pairwise : added.Pairwise Apart

/-- Every run of the `do … while` loop of `extendPath` ends: from every
position in the sequence of draws, some number of iterations suffices. -/
def LoopTerminates (P : Platform) : Prop :=
  ∀ (i : Nat) (currentDirection : Int) (randPos : Nat),
    ∃ fuel, (chooseDirection P i currentDirection fuel randPos).isSome = true

/-! ## Sessions -/

/-- The callbacks applied in order, from the state `g`. -/
def run (P : Platform) (fuel : Nat) (actions : List Action) (g : Game) : Option Game :=
  actions.foldlM (step P fuel) g

/-- Session states: those obtained from a `reset()` by any sequence of
callbacks whose time steps all satisfy `D`. -/
inductive Reachable (P : Platform) (D : ℚ → Prop) : Game → Prop where
  | start (g : Game) : Reachable P D (reset P g)
  | next (g g' : Game) (fuel : Nat) (a : Action) :
      Reachable P D g → (∀ deltaTime, a = Action.update deltaTime → D deltaTime) →
      step P fuel g a = some g' → Reachable P D g'

/-! ## Concrete inputs -/

/-- A platform for concrete runs: every draw is 1 except the draw number 19,
which is 0; `RAND_MAX` is the value of glibc; `sqrt` is exact on the squares
of integers and rounds down to an integer elsewhere. -/
def samplePlatform : Platform :=
  { rand := fun n => if n = 19 then 0 else 1, RAND_MAX := 2147483647, sin := fun _ => 0,
    cos := fun _ => 1, sqrt := fun q => (Nat.sqrt ⌊q⌋.toNat : ℚ) }

/-- A jump to the right begun at the start of a fresh game on `samplePlatform`. -/
def sampleJumping : Game :=
  (run samplePlatform 1 [.key .D true, .key .Space true, .update (1 / 10)]
    (reset samplePlatform Game.initial)).getD Game.initial

/-- A fresh game on `samplePlatform` after `generateInitialPath` and one
`extendPath`. -/
def sampleExtended : Game :=
  (extendPath samplePlatform 1 (generateInitialPath samplePlatform Game.initial)).getD
    Game.initial

/-- The path is a monotone staircase: the tile at index `i` has non-negative
coordinates of sum `i`, and each tile is its predecessor moved by `+1` in `x`
or by `+1` in `z`. -/
structure Staircase (path : List Tile) : Prop where
  index : ∀ (i : Nat) (t : Tile), path[i]? = some t → 0 ≤ t.x ∧ 0 ≤ t.z ∧ t.x + t.z = (i : Int)
  step : ∀ (i : Nat) (t u : Tile), path[i]? = some t → path[i + 1]? = some u →
    (u.x = t.x + 1 ∧ u.z = t.z) ∨ (u.x = t.x ∧ u.z = t.z + 1)

/-- The path is a staircase and the frontier `(maxX, maxZ)` is the cell of its
last tile. -/
structure GenInv (g : Game) : Prop where
  stair : Staircase g.path
  last : ∃ t, g.path.getLast? = some t ∧ g.maxX = t.x ∧ g.maxZ = t.z

/-- The invariant of the generation loops, for a walk that extends the tiles
`pre`: the tiles so far form a staircase, the walk stands on the last one,
and the running maxima are its coordinates. -/
structure WalkInv (pre : List Tile) (w : Walk) : Prop where
  stair : Staircase (pre ++ w.tiles)
  last : ∃ t, (pre ++ w.tiles).getLast? = some t ∧ w.x = t.x ∧ w.z = t.z
  maxX : w.maxX = w.x
  maxZ : w.maxZ = w.z

/-- States whose path was built by `generateInitialPath` and `extendPath`:
those reached from a call of `generateInitialPath` (in any state) by any
sequence of calls of `extendPath`, of callbacks (with time steps `≥ 0`) and of
placements of the player (`main` and `reset` place the player on the first
tile). -/
inductive Built (P : Platform) : Game → Prop where
  | initial (g : Game) : Built P (generateInitialPath P g)
  | extend (g g' : Game) (fuel : Nat) : Built P g → extendPath P fuel g = some g' → Built P g'
  | callback (g g' : Game) (fuel : Nat) (a : Action) :
      Built P g → (∀ deltaTime, a = Action.update deltaTime → 0 ≤ deltaTime) →
      step P fuel g a = some g' → Built P g'
  | place (g : Game) (x y z : ℚ) :
      Built P g → Built P { g with playerX := x, playerY := y, playerZ := z }

/-- The start of a game on `samplePlatform` with the keys W and S both held. -/
def sampleTwoKeys : Game :=
  setKey Key.S true (setKey Key.W true (reset samplePlatform Game.initial))

/-- The start of a game on `samplePlatform` with the key D held. -/
def sampleKeyD : Game :=
  setKey Key.D true (reset samplePlatform Game.initial)

/-- The jump of `sampleJumping` four airborne ticks later: progress 0.8. -/
def sampleAirborne : Game :=
  (run samplePlatform 1
    ([Action.key Key.D true, Action.key Key.Space true] ++
      List.replicate 5 (Action.update (1 / 10)))
    (reset samplePlatform Game.initial)).getD Game.initial

/-- A platform whose draws are all 1 except the draw number 1, which is `r`. -/
def residuePlatform (r : Nat) : Platform :=
  { samplePlatform with rand := fun n => if n = 1 then r else 1 }

/-- The step `i` of a path (from tile `i - 1` to tile `i`) moves by `+1` in `x`. -/
def movesAlongX (path : List Tile) (i : Nat) : Bool :=
  match path[i - 1]?, path[i]? with
  | some t, some u => u.x == t.x + 1 && u.z == t.z
  | _, _ => false

/-- The step `i` of a path (from tile `i - 1` to tile `i`) moves by `+1` in `z`. -/
def movesAlongZ (path : List Tile) (i : Nat) : Bool :=
  match path[i - 1]?, path[i]? with
  | some t, some u => u.x == t.x && u.z == t.z + 1
  | _, _ => false

/-- The loop of `generateInitialPath` after its iterations `1, …, n`. -/
def initialWalkAt (P : Platform) (randPos : Nat) (n : Nat) : Walk :=
  (List.range' 1 n).foldl (initialStep P)
    { x := 0, z := 0, currentDirection := -1, straightCounter := 0, maxX := 0, maxZ := 0,
      tiles := [⟨0, 0, PLATFORM_LIFETIME, PLATFORM_LIFETIME, false⟩],
      randPos := randPos }

/-- The state of the loop of `generateObstacles(pathSegment, startIndex)` after
its first `n` iterations. -/
def generateObstaclesAt (P : Platform) (pathSegment : List Tile) (startIndex : Nat)
    (g : Game) (n : Nat) : Game :=
  (List.range' startIndex n).foldl (spawnStep P pathSegment startIndex) g

/-- A rising block in the cell `(0, 0)` whose height is the `float` just below
0.5 (`0.49999997f`, the half of the progress `0.99999994f`). -/
def sampleBlock : Obstacle :=
  ⟨0, 0, ObstacleType.RISING_BLOCK, 16777215 / 16777216, true, 16777215 / 33554432, 0, 0, 0⟩

/-- The callbacks of a session on `samplePlatform` with ticks of `0.1f`: five
rolls to the right, to `(5, 0)`, then a jump backward (S with the jump
modifier) and two airborne ticks. -/
def sampleJumpActions : List Action :=
  [Action.key Key.D true] ++ List.replicate 25 (Action.update (roundFloat (1 / 10))) ++
    [Action.key Key.D false, Action.key Key.S true, Action.key Key.Space true,
      Action.update (roundFloat (1 / 10)), Action.update (roundFloat (1 / 10)),
      Action.update (roundFloat (1 / 10))]

/-- The state after `sampleJumpActions`: in the air at `(5, 0.8f)`, progress
`0.4f`, score 5. -/
def sampleMidJump : Game :=
  (run samplePlatform 1 sampleJumpActions (reset samplePlatform Game.initial)).getD Game.initial

/-- The state one tick of `0.04999998f` after `sampleMidJump`: in the air at
`(5, 0.99999994f)`. -/
def sampleNearCell : Game :=
  (updateGame samplePlatform 1 (1677721 / 33554432) sampleMidJump).getD Game.initial

/-- The path-extension test made after a roll or a jump has completed, with the
arithmetic of the source: `maxX - playerX` is a `float` difference (`maxX`
converted to `float`), `std::pow(…, 2)` and the sum are `double` operations
(the square taken as correctly rounded), `std::sqrt` is the library function on
`double`, and the result is stored in the `float` variable `distanceToEnd`. -/
def maybeExtendFloat (P : Platform) (fuel : Nat) (g : Game) : Option Game :=
  if !g.gameOver then
    let distanceToEnd :=
      roundFloat (P.sqrt (roundDouble
        (roundDouble (roundFloat (roundFloat (g.maxX : ℚ) - g.playerX) ^ 2) +
          roundDouble (roundFloat (roundFloat (g.maxZ : ℚ) - g.playerZ) ^ 2))))
    if distanceToEnd < PATH_EXTENSION_THRESHOLD then extendPath P fuel g else some g
  else some g

/-- The state after an airborne tick of a jump whose progress has become `t`,
with the arithmetic of the source: `t * M_PI` and the product with
`MAX_JUMP_HEIGHT` are `double` operations (`M_PI` is a `double` literal), the
height is stored in a `float`, and the interpolation and the sum
`playerY + jumpHeight` are `float` operations. -/
def jumpAirborneFloat (P : Platform) (t : ℚ) (g : Game) : Game :=
  let g := { g with
    jumpProgress := t
    jumpHeight :=
      roundFloat (roundDouble (MAX_JUMP_HEIGHT * P.sin (roundDouble (t * roundDouble M_PI))))
    playerX := roundFloat (g.jumpStartX + roundFloat (t * roundFloat (g.jumpDestX - g.jumpStartX)))
    playerZ := roundFloat (g.jumpStartZ + roundFloat (t * roundFloat (g.jumpDestZ - g.jumpStartZ))) }
  if checkObstacleCollision g.obstacles g.playerX (roundFloat (g.playerY + g.jumpHeight))
      g.playerZ then
    { g with gameOver := true }
  else g

/-- The branch `if (isJumping)` of `updateGame`, with the arithmetic of the
type `float`: `jumpProgress += JUMP_SPEED * deltaTime` rounds the product and
the sum. -/
def updateJumpFloat (P : Platform) (fuel : Nat) (deltaTime : ℚ) (g : Game) : Option Game :=
  let jumpProgress := roundFloat (g.jumpProgress + roundFloat (JUMP_SPEED * deltaTime))
  if jumpProgress ≥ 1 then maybeExtendFloat P fuel (jumpLanding g)
  else some (jumpAirborneFloat P jumpProgress g)

/-- The state when a roll completes (`rollProgress >= 1.0f`), before the
path-extension test, with the arithmetic of the type `float`: the new
coordinate is the rounded sum or difference. -/
def rollLandingFloat (g : Game) : Game :=
  let g := { g with isRolling := false, rollProgress := 0, rollAngle := 0 }
  let g :=
    if g.rollDirection = 1 then { g with playerZ := roundFloat (g.playerZ - 1) }
    else if g.rollDirection = 2 then { g with playerZ := roundFloat (g.playerZ + 1) }
    else if g.rollDirection = 3 then { g with playerX := roundFloat (g.playerX - 1) }
    else if g.rollDirection = 4 then { g with playerX := roundFloat (g.playerX + 1) }
    else g
  let g := if !onPath g.path g.playerX g.playerZ then { g with gameOver := true } else g
  let g :=
    if !g.gameOver && checkObstacleCollision g.obstacles g.playerX g.playerY g.playerZ then
      { g with gameOver := true }
    else g
  { g with rollDirection := 0 }

/-- The branch `else if (isRolling)` of `updateGame`, with the arithmetic of
the type `float`: `rollProgress += ROLL_SPEED * deltaTime` rounds the product
and the sum, and `rollAngle = rollProgress * 90.0f` rounds the product. -/
def updateRollFloat (P : Platform) (fuel : Nat) (deltaTime : ℚ) (g : Game) : Option Game :=
  let rollProgress := roundFloat (g.rollProgress + roundFloat (ROLL_SPEED * deltaTime))
  if rollProgress ≥ 1 then maybeExtendFloat P fuel (rollLandingFloat g)
  else some { g with rollProgress := rollProgress, rollAngle := roundFloat (rollProgress * 90) }

/-- The state of a fresh game on `samplePlatform` after the key D has been
pressed and one tick of `0.1f` has run: at `(0, 0)`, in a roll to the right
with progress 0. -/
def sampleRollStart : Game :=
  (run samplePlatform 1 [Action.key Key.D true, Action.update (roundFloat (1 / 10))]
    (reset samplePlatform Game.initial)).getD Game.initial

/-- The state `sampleRollStart` after the rolling branch has run three more
times with ticks of `0.1f`: still at `(0, 0)`, with progress
`0.3f + 0.3f + 0.3f = 0.90000004f`. -/
def sampleRollLate : Game :=
  ((((some sampleRollStart).bind (updateRollFloat samplePlatform 1 (roundFloat (1 / 10)))).bind
    (updateRollFloat samplePlatform 1 (roundFloat (1 / 10)))).bind
    (updateRollFloat samplePlatform 1 (roundFloat (1 / 10)))).getD Game.initial

/-- The state `sampleMidJump` after the jumping branch has run two more times
with ticks of `0.1f`: in the air at `(5, 1.6f)`, on the way from `(5, 0)` to
`(5, 2)`, with progress `0.8f`. -/
def sampleLateJump : Game :=
  (((some sampleMidJump).bind (updateJumpFloat samplePlatform 1 (roundFloat (1 / 10)))).bind
    (updateJumpFloat samplePlatform 1 (roundFloat (1 / 10)))).getD Game.initial

/-! ## Frame lemmas -/

theorem spawnStep_frame (P : Platform) (seg : List Tile) (startIndex : Nat) (g : Game) (i : Nat) :
    ∃ obs rp, spawnStep P seg startIndex g i = { g with obstacles := obs, randPos := rp } := by
  unfold spawnStep
  split
  · exact ⟨g.obstacles, g.randPos, rfl⟩
  · dsimp only
    split_ifs
    all_goals first
      | exact ⟨g.obstacles, g.randPos, rfl⟩
      | exact ⟨_, _, rfl⟩

theorem foldl_spawnStep_frame (P : Platform) (seg : List Tile) (startIndex : Nat) (l : List Nat)
    (g : Game) :
    ∃ obs rp, l.foldl (spawnStep P seg startIndex) g = { g with obstacles := obs, randPos := rp } := by
  induction l generalizing g with
  | nil => exact ⟨g.obstacles, g.randPos, rfl⟩
  | cons i l ih =>
    obtain ⟨obs, rp, h⟩ := spawnStep_frame P seg startIndex g i
    obtain ⟨obs', rp', h'⟩ := ih (spawnStep P seg startIndex g i)
    refine ⟨obs', rp', ?_⟩
    rw [List.foldl_cons, h', h]

theorem generateObstacles_frame (P : Platform) (seg : List Tile) (startIndex : Nat) (g : Game) :
    ∃ obs rp, generateObstacles P seg startIndex g = { g with obstacles := obs, randPos := rp } :=
  foldl_spawnStep_frame P seg startIndex _ g


theorem advance_tiles (w : Walk) (d : Int) :
    ∃ t, (w.advance d).tiles = w.tiles ++ [t] ∧ t.fresh := by
  exact ⟨_, rfl, rfl, rfl⟩

theorem initialStep_tiles (P : Platform) (w : Walk) (i : Nat) :
    ∃ t, (initialStep P w i).tiles = w.tiles ++ [t] ∧ t.fresh := by
  unfold initialStep
  split_ifs <;> exact advance_tiles _ _

theorem foldl_initialStep_tiles (P : Platform) (l : List Nat) (w : Walk) :
    ∃ new, (l.foldl (initialStep P) w).tiles = w.tiles ++ new ∧ new.length = l.length ∧
      ∀ t ∈ new, t.fresh := by
  induction l generalizing w with
  | nil => exact ⟨[], by simp⟩
  | cons i l ih =>
    obtain ⟨t, ht, hf⟩ := initialStep_tiles P w i
    obtain ⟨new, hn, hl, hall⟩ := ih (initialStep P w i)
    refine ⟨t :: new, ?_, by simp [hl], ?_⟩
    · rw [List.foldl_cons, hn, ht]; simp
    · intro u hu
      rcases List.mem_cons.1 hu with rfl | hu
      · exact hf
      · exact hall u hu

theorem initialWalk_tiles (P : Platform) (rp : Nat) :
    ∃ new : List Tile, new.length = 14 ∧ (∀ t ∈ new, t.fresh) ∧
      (initialWalk P rp).tiles =
        [⟨0, 0, 3, 3, false⟩, ⟨1, 0, 3, 3, false⟩, ⟨2, 0, 3, 3, false⟩, ⟨3, 0, 3, 3, false⟩,
          ⟨4, 0, 3, 3, false⟩, ⟨5, 0, 3, 3, false⟩] ++ new := by
  have hr : List.range' 1 (INITIAL_PATH_LENGTH - 1) = [1, 2, 3, 4, 5] ++ List.range' 6 14 := by
    decide
  unfold initialWalk
  rw [hr, List.foldl_append]
  obtain ⟨new, hn, hl, hall⟩ := foldl_initialStep_tiles P (List.range' 6 14)
    ([1, 2, 3, 4, 5].foldl (initialStep P)
      { x := 0, z := 0, currentDirection := -1, straightCounter := 0, maxX := 0, maxZ := 0,
        tiles := [⟨0, 0, PLATFORM_LIFETIME, PLATFORM_LIFETIME, false⟩], randPos := rp })
  refine ⟨new, by simpa using hl, hall, ?_⟩
  rw [hn]
  simp [initialStep, Walk.advance, PLATFORM_LIFETIME]

theorem generateInitialPath_path (P : Platform) (g : Game) :
    (generateInitialPath P g).path = (initialWalk P g.randPos).tiles := by
  unfold generateInitialPath
  dsimp only
  obtain ⟨obs, rp, h⟩ := generateObstacles_frame P (initialWalk P g.randPos).tiles 6
    { g with
      path := (initialWalk P g.randPos).tiles
      obstacles := []
      maxX := (initialWalk P g.randPos).maxX
      maxZ := (initialWalk P g.randPos).maxZ
      prevDirection := (initialWalk P g.randPos).currentDirection
      randPos := (initialWalk P g.randPos).randPos }
  rw [h]

/-- Claim C6 (Scenario A): for every sequence of random draws and every prior
state, `generateInitialPath` leaves a path of exactly 20 tiles, each with
`lifetime = maxLifetime = 3`, whose first five tiles are `(0,0)`, `(1,0)`,
`(2,0)`, `(3,0)`, `(4,0)` in this order, none of them a corner. -/
theorem generateInitialPath_scenarioA (P : Platform) (g : Game) :
    (generateInitialPath P g).path.length = 20 ∧
    (∀ t ∈ (generateInitialPath P g).path, t.lifetime = 3 ∧ t.maxLifetime = 3) ∧
    (generateInitialPath P g).path.take 5 =
      [⟨0, 0, 3, 3, false⟩, ⟨1, 0, 3, 3, false⟩, ⟨2, 0, 3, 3, false⟩, ⟨3, 0, 3, 3, false⟩,
        ⟨4, 0, 3, 3, false⟩] := by
  obtain ⟨new, hl, hall, h⟩ := initialWalk_tiles P g.randPos
  rw [generateInitialPath_path, h]
  refine ⟨by simp [hl], ?_, by simp⟩
  intro t ht
  rcases List.mem_append.1 ht with ht | ht
  · simp at ht
    rcases ht with rfl | rfl | rfl | rfl | rfl | rfl <;> simp
  · exact hall t ht


theorem generateInitialPath_frame (P : Platform) (g : Game) :
    ∃ obs rp, generateInitialPath P g =
      { g with
        path := (initialWalk P g.randPos).tiles
        obstacles := obs
        maxX := (initialWalk P g.randPos).maxX
        maxZ := (initialWalk P g.randPos).maxZ
        prevDirection := (initialWalk P g.randPos).currentDirection
        randPos := rp } := by
  unfold generateInitialPath
  dsimp only
  obtain ⟨obs, rp, h⟩ := generateObstacles_frame P (initialWalk P g.randPos).tiles 6
    { g with
      path := (initialWalk P g.randPos).tiles
      obstacles := []
      maxX := (initialWalk P g.randPos).maxX
      maxZ := (initialWalk P g.randPos).maxZ
      prevDirection := (initialWalk P g.randPos).currentDirection
      randPos := (initialWalk P g.randPos).randPos }
  exact ⟨obs, rp, h⟩

theorem reset_gameOver (P : Platform) (g : Game) : (reset P g).gameOver = false := by
  unfold reset
  dsimp only
  obtain ⟨obs, rp, h⟩ := generateInitialPath_frame P
    { g with
      score := 0
      maxDistanceTraveled := 0
      gameOver := false
      isRolling := false
      isJumping := false
      jumpHeight := 0
      jumpProgress := 0
      rollAngle := 0
      rollDirection := 0
      rollProgress := 0
      showDirections := true
      prevDirection := -1 }
  rw [h]

theorem updateGame_of_gameOver (P : Platform) (fuel : Nat) (deltaTime : ℚ) (g : Game)
    (h : g.gameOver = true) : updateGame P fuel deltaTime g = some g := by
  simp [updateGame, h]

/-- Claim C5 (GameOver is terminal): in a state with `gameOver = true`, for
every time step and every setting of the five input flags, `updateGame`
returns the state it was given, all fields unchanged; every callback other
than `reset()` leaves `gameOver` true, and `reset()` clears it. -/
theorem gameOver_terminal (P : Platform) (fuel : Nat) (deltaTime : ℚ) (g : Game)
    (h : g.gameOver = true) :
    updateGame P fuel deltaTime g = some g ∧
    (∀ w s a d sp : Bool,
      updateGame P fuel deltaTime
          { g with keyW := w, keyS := s, keyA := a, keyD := d, keySpace := sp } =
        some { g with keyW := w, keyS := s, keyA := a, keyD := d, keySpace := sp }) ∧
    (∀ (act : Action) (g' : Game), act ≠ Action.reset → step P fuel g act = some g' →
      g'.gameOver = true) ∧
    (reset P g).gameOver = false := by
  refine ⟨updateGame_of_gameOver P fuel deltaTime g h, ?_, ?_, reset_gameOver P g⟩
  · intro w s a d sp
    exact updateGame_of_gameOver P fuel deltaTime _ h
  · intro act g' hne hstep
    cases act with
    | update dt =>
      rw [step, updateGame_of_gameOver P fuel dt g h] at hstep
      cases hstep
      exact h
    | key k b =>
      cases k <;> (simp only [step, setKey, Option.some.injEq] at hstep; subst hstep; exact h)
    | nextCameraMode =>
      simp only [step, nextCameraMode, Option.some.injEq] at hstep; subst hstep; exact h
    | toggleCameraRotation =>
      simp only [step, toggleCameraRotation, Option.some.injEq] at hstep; subst hstep; exact h
    | zoomIn => simp only [step, zoomIn, Option.some.injEq] at hstep; subst hstep; exact h
    | zoomOut => simp only [step, zoomOut, Option.some.injEq] at hstep; subst hstep; exact h
    | reset => exact absurd rfl hne

/-- Claim C5 at a fresh game whose `gameOver` flag has been set. -/
theorem gameOver_terminal_witness :
    ({ Game.initial with gameOver := true } : Game).gameOver = true ∧
    updateGame samplePlatform 1 (1 / 10) { Game.initial with gameOver := true } =
      some { Game.initial with gameOver := true } :=
  ⟨rfl, (gameOver_terminal samplePlatform 1 (1 / 10) { Game.initial with gameOver := true }
    rfl).1⟩

/-! ## The generation walk -/

theorem IsMax.snoc {m : Int} {l : List Int} (h : IsMax m l) (a : Int) :
    IsMax (max m a) (l ++ [a]) := by
  obtain ⟨hm, hle⟩ := h
  constructor
  · rcases max_choice m a with h | h
    · rw [h]; exact List.mem_append_left _ hm
    · rw [h]; simp
  · intro b hb
    rcases List.mem_append.1 hb with hb | hb
    · exact le_trans (hle b hb) (le_max_left _ _)
    · simp at hb; subst hb; exact le_max_right _ _

theorem advance_frontier (pre : List Tile) (w : Walk) (d : Int)
    (hx : IsMax w.maxX ((pre ++ w.tiles).map fun t => t.x))
    (hz : IsMax w.maxZ ((pre ++ w.tiles).map fun t => t.z)) :
    IsMax (w.advance d).maxX ((pre ++ (w.advance d).tiles).map fun t => t.x) ∧
    IsMax (w.advance d).maxZ ((pre ++ (w.advance d).tiles).map fun t => t.z) := by
  constructor
  · have := hx.snoc (if d = 1 then w.x else w.x + 1)
    simpa [Walk.advance] using this
  · have := hz.snoc (if d = 1 then w.z + 1 else w.z)
    simpa [Walk.advance] using this

theorem extendStep_eq (P : Platform) (fuel : Nat) (w w' : Walk) (i : Nat)
    (h : extendStep P fuel w i = some w') :
    ∃ rp d, w' = ({ w with randPos := rp } : Walk).advance d := by
  unfold extendStep at h
  split at h
  · cases h
  · cases h
    exact ⟨_, _, rfl⟩

theorem foldlM_extendStep_spec (P : Platform) (fuel : Nat) (pre : List Tile) (l : List Nat)
    (w w' : Walk) (h : l.foldlM (extendStep P fuel) w = some w') :
    ∃ new, w'.tiles = w.tiles ++ new ∧ new.length = l.length ∧ (∀ t ∈ new, t.fresh) ∧
      (IsMax w.maxX ((pre ++ w.tiles).map fun t => t.x) →
        IsMax w.maxZ ((pre ++ w.tiles).map fun t => t.z) →
        IsMax w'.maxX ((pre ++ w'.tiles).map fun t => t.x) ∧
        IsMax w'.maxZ ((pre ++ w'.tiles).map fun t => t.z)) := by
  induction l generalizing w with
  | nil =>
    simp only [List.foldlM_nil, Option.pure_def, Option.some.injEq] at h
    subst h
    exact ⟨[], by simp, rfl, by simp, fun hx hz => ⟨hx, hz⟩⟩
  | cons i l ih =>
    rw [List.foldlM_cons] at h
    cases hs : extendStep P fuel w i with
    | none => rw [hs] at h; cases h
    | some w1 =>
      rw [hs] at h
      obtain ⟨rp, d, h1⟩ := extendStep_eq P fuel w w1 i hs
      obtain ⟨new, hn, hl, hf, hfr⟩ := ih w1 h
      obtain ⟨t, ht, htf⟩ := advance_tiles ({ w with randPos := rp } : Walk) d
      rw [← h1] at ht
      refine ⟨t :: new, ?_, by simp [hl], ?_, ?_⟩
      · rw [hn, ht]; simp
      · intro u hu
        rcases List.mem_cons.1 hu with rfl | hu
        · exact htf
        · exact hf u hu
      · intro hx hz
        have := advance_frontier pre ({ w with randPos := rp } : Walk) d hx hz
        rw [← h1] at this
        exact hfr this.1 this.2

theorem extendPath_spec (P : Platform) (fuel : Nat) (g g' : Game)
    (h : extendPath P fuel g = some g') :
    ∃ seg obs rp mx mz pd,
      g' = { g with path := g.path ++ seg, obstacles := obs, randPos := rp, maxX := mx,
                    maxZ := mz, prevDirection := pd } ∧
      seg.length = 15 ∧ (∀ t ∈ seg, t.fresh) ∧
      (Frontier g → IsMax mx ((g.path ++ seg).map fun t => t.x) ∧
        IsMax mz ((g.path ++ seg).map fun t => t.z)) := by
  unfold extendPath at h
  cases hw : extendWalk P fuel g with
  | none => rw [hw] at h; cases h
  | some w =>
    rw [hw] at h
    simp only [Option.some.injEq] at h
    obtain ⟨obs, rp, hfr⟩ := generateObstacles_frame P w.tiles 0
      { g with path := g.path ++ w.tiles, maxX := w.maxX, maxZ := w.maxZ,
               prevDirection := w.currentDirection, randPos := w.randPos }
    rw [hfr] at h
    unfold extendWalk at hw
    obtain ⟨new, hn, hl, hf, hmax⟩ := foldlM_extendStep_spec P fuel g.path _ _ _ hw
    simp only [List.nil_append] at hn
    refine ⟨w.tiles, obs, rp, w.maxX, w.maxZ, w.currentDirection, h.symm, ?_, ?_, ?_⟩
    · rw [hn, hl]; rfl
    · rw [hn]; exact hf
    · intro hF
      exact hmax (by simpa using hF.1) (by simpa using hF.2)


/-! ## Shape of one update tick -/

theorem maybeExtend_spec (P : Platform) (fuel : Nat) (g g' : Game)
    (h : maybeExtend P fuel g = some g') :
    ∃ seg obs rp mx mz pd,
      g' = { g with path := g.path ++ seg, obstacles := obs, randPos := rp, maxX := mx,
                    maxZ := mz, prevDirection := pd } ∧
      (∀ t ∈ seg, t.fresh) ∧ (Frontier g → Frontier g') := by
  unfold maybeExtend at h
  dsimp only at h
  split_ifs at h
  · obtain ⟨seg, obs, rp, mx, mz, pd, hg, -, hf, hfr⟩ := extendPath_spec P fuel g g' h
    refine ⟨seg, obs, rp, mx, mz, pd, hg, hf, ?_⟩
    intro hF
    rw [hg]
    exact hfr hF
  · cases h
    exact ⟨[], g.obstacles, g.randPos, g.maxX, g.maxZ, g.prevDirection, by simp, by simp,
      fun hF => hF⟩
  · cases h
    exact ⟨[], g.obstacles, g.randPos, g.maxX, g.maxZ, g.prevDirection, by simp, by simp,
      fun hF => hF⟩

theorem jumpLanding_frame (g : Game) :
    (jumpLanding g).path = g.path ∧ (jumpLanding g).maxX = g.maxX ∧
    (jumpLanding g).maxZ = g.maxZ ∧ (jumpLanding g).score = g.score ∧
    (jumpLanding g).maxDistanceTraveled = g.maxDistanceTraveled ∧
    (jumpLanding g).obstacles = g.obstacles := by
  unfold jumpLanding
  dsimp only
  split_ifs <;> exact ⟨rfl, rfl, rfl, rfl, rfl, rfl⟩

theorem rollLanding_frame (g : Game) :
    (rollLanding g).path = g.path ∧ (rollLanding g).maxX = g.maxX ∧
    (rollLanding g).maxZ = g.maxZ ∧ (rollLanding g).score = g.score ∧
    (rollLanding g).maxDistanceTraveled = g.maxDistanceTraveled ∧
    (rollLanding g).obstacles = g.obstacles := by
  unfold rollLanding
  dsimp only
  split_ifs <;> exact ⟨rfl, rfl, rfl, rfl, rfl, rfl⟩

theorem jumpAirborne_frame (P : Platform) (t : ℚ) (g : Game) :
    (jumpAirborne P t g).path = g.path ∧ (jumpAirborne P t g).maxX = g.maxX ∧
    (jumpAirborne P t g).maxZ = g.maxZ ∧ (jumpAirborne P t g).score = g.score ∧
    (jumpAirborne P t g).maxDistanceTraveled = g.maxDistanceTraveled ∧
    (jumpAirborne P t g).obstacles = g.obstacles := by
  unfold jumpAirborne
  dsimp only
  split_ifs <;> exact ⟨rfl, rfl, rfl, rfl, rfl, rfl⟩

theorem updateInput_frame (g : Game) :
    (updateInput g).path = g.path ∧ (updateInput g).maxX = g.maxX ∧
    (updateInput g).maxZ = g.maxZ ∧ (updateInput g).score = g.score ∧
    (updateInput g).maxDistanceTraveled = g.maxDistanceTraveled ∧
    (updateInput g).obstacles = g.obstacles := by
  unfold updateInput
  dsimp only
  split_ifs <;> exact ⟨rfl, rfl, rfl, rfl, rfl, rfl⟩

theorem Extends.of_frame {g g' : Game} (hp : g'.path = g.path) (hx : g'.maxX = g.maxX)
    (hz : g'.maxZ = g.maxZ) (hs : g'.score = g.score)
    (hm : g'.maxDistanceTraveled = g.maxDistanceTraveled) : Extends g g' where
  path := ⟨[], by simp [hp], by simp⟩
  score := hs
  maxDistanceTraveled := hm
  frontier := by
    intro hF
    unfold Frontier at *
    rw [hp, hx, hz]
    exact hF

theorem Extends.trans {a b c : Game} (h1 : Extends a b) (h2 : Extends b c) : Extends a c where
  path := by
    obtain ⟨s1, e1, f1⟩ := h1.path
    obtain ⟨s2, e2, f2⟩ := h2.path
    refine ⟨s1 ++ s2, by rw [e2, e1, List.append_assoc], ?_⟩
    intro t ht
    rcases List.mem_append.1 ht with ht | ht
    · exact f1 t ht
    · exact f2 t ht
  score := h2.score.trans h1.score
  maxDistanceTraveled := h2.maxDistanceTraveled.trans h1.maxDistanceTraveled
  frontier := fun hF => h2.frontier (h1.frontier hF)

theorem maybeExtend_extends (P : Platform) (fuel : Nat) (g g' : Game)
    (h : maybeExtend P fuel g = some g') : Extends g g' := by
  obtain ⟨seg, obs, rp, mx, mz, pd, hg, hf, hfr⟩ := maybeExtend_spec P fuel g g' h
  refine ⟨⟨seg, ?_, hf⟩, ?_, ?_, hfr⟩ <;> rw [hg]

theorem updateMovement_extends (P : Platform) (fuel : Nat) (deltaTime : ℚ) (g g' : Game)
    (h : updateMovement P fuel deltaTime g = some g') : Extends g g' := by
  unfold updateMovement at h
  split_ifs at h with hj hr
  · unfold updateJump at h
    dsimp only at h
    split_ifs at h
    · obtain ⟨h1, h2, h3, h4, h5, -⟩ := jumpLanding_frame g
      exact (Extends.of_frame h1 h2 h3 h4 h5).trans (maybeExtend_extends P fuel _ _ h)
    · cases h
      obtain ⟨h1, h2, h3, h4, h5, -⟩ := jumpAirborne_frame P (g.jumpProgress + JUMP_SPEED * deltaTime) g
      exact Extends.of_frame h1 h2 h3 h4 h5
  · unfold updateRoll at h
    dsimp only at h
    split_ifs at h
    · obtain ⟨h1, h2, h3, h4, h5, -⟩ := rollLanding_frame g
      exact (Extends.of_frame h1 h2 h3 h4 h5).trans (maybeExtend_extends P fuel _ _ h)
    · cases h
      exact Extends.of_frame rfl rfl rfl rfl rfl
  · cases h
    obtain ⟨h1, h2, h3, h4, h5, -⟩ := updateInput_frame g
    exact Extends.of_frame h1 h2 h3 h4 h5

theorem decayTile_x (deltaTime px pz : ℚ) (t : Tile) : (decayTile deltaTime px pz t).x = t.x := rfl

theorem decayTile_z (deltaTime px pz : ℚ) (t : Tile) : (decayTile deltaTime px pz t).z = t.z := rfl

theorem updateScore_path (g : Game) :
    (updateScore g).path = g.path ∧ (updateScore g).maxX = g.maxX ∧
      (updateScore g).maxZ = g.maxZ := by
  unfold updateScore
  dsimp only
  split_ifs <;> exact ⟨rfl, rfl, rfl⟩

theorem updateCamera_frame (deltaTime : ℚ) (g : Game) :
    (updateCamera deltaTime g).path = g.path ∧ (updateCamera deltaTime g).maxX = g.maxX ∧
    (updateCamera deltaTime g).maxZ = g.maxZ ∧ (updateCamera deltaTime g).score = g.score ∧
    (updateCamera deltaTime g).maxDistanceTraveled = g.maxDistanceTraveled := by
  unfold updateCamera
  dsimp only
  split_ifs <;> exact ⟨rfl, rfl, rfl, rfl, rfl⟩

/-- The state of a tick before the score and camera updates. -/
theorem updateGame_eq (P : Platform) (fuel : Nat) (deltaTime : ℚ) (g g' : Game)
    (hg : g.gameOver = false) (h : updateGame P fuel deltaTime g = some g') :
    ∃ m, updateMovement P fuel deltaTime (updateWorld P deltaTime g) = some m ∧
      g' = updateCamera deltaTime (updateScore m) := by
  unfold updateGame at h
  rw [if_neg (by simp [hg])] at h
  cases hm : updateMovement P fuel deltaTime (updateWorld P deltaTime g) with
  | none => rw [hm] at h; cases h
  | some m =>
    rw [hm] at h
    simp only [Option.map_some', Option.some.injEq] at h
    exact ⟨m, rfl, h.symm⟩

theorem updateGame_path (P : Platform) (fuel : Nat) (deltaTime : ℚ) (g g' : Game)
    (hg : g.gameOver = false) (h : updateGame P fuel deltaTime g = some g') :
    (∃ seg, g'.path = g.path.map (decayTile deltaTime g.playerX g.playerZ) ++ seg ∧
      ∀ t ∈ seg, t.fresh) ∧ (Frontier g → Frontier g') := by
  obtain ⟨m, hm, rfl⟩ := updateGame_eq P fuel deltaTime g g' hg h
  have hE := updateMovement_extends P fuel deltaTime _ m hm
  obtain ⟨c1, c2, c3, -, -⟩ := updateCamera_frame deltaTime (updateScore m)
  obtain ⟨s1, s2, s3⟩ := updateScore_path m
  constructor
  · obtain ⟨seg, hs, hf⟩ := hE.path
    exact ⟨seg, by rw [c1, s1, hs]; rfl, hf⟩
  · intro hF
    have hW : Frontier (updateWorld P deltaTime g) := by
      unfold Frontier updateWorld at *
      simpa [List.map_map, Function.comp_def, decayTile_x, decayTile_z] using hF
    have := hE.frontier hW
    unfold Frontier at *
    rw [c1, c2, c3, s1, s2, s3]
    exact this


/-! ## Invariants of the session -/

theorem foldl_initialStep_frontier (P : Platform) (l : List Nat) (w : Walk)
    (hx : IsMax w.maxX (w.tiles.map fun t => t.x))
    (hz : IsMax w.maxZ (w.tiles.map fun t => t.z)) :
    IsMax (l.foldl (initialStep P) w).maxX ((l.foldl (initialStep P) w).tiles.map fun t => t.x) ∧
    IsMax (l.foldl (initialStep P) w).maxZ ((l.foldl (initialStep P) w).tiles.map fun t => t.z) := by
  induction l generalizing w with
  | nil => exact ⟨hx, hz⟩
  | cons i l ih =>
    rw [List.foldl_cons]
    have key : IsMax (initialStep P w i).maxX ((initialStep P w i).tiles.map fun t => t.x) ∧
        IsMax (initialStep P w i).maxZ ((initialStep P w i).tiles.map fun t => t.z) := by
      unfold initialStep
      split_ifs
      all_goals exact advance_frontier [] _ _ hx hz
    exact ih _ key.1 key.2

theorem initialWalk_frontier (P : Platform) (rp : Nat) :
    IsMax (initialWalk P rp).maxX ((initialWalk P rp).tiles.map fun t => t.x) ∧
    IsMax (initialWalk P rp).maxZ ((initialWalk P rp).tiles.map fun t => t.z) := by
  unfold initialWalk
  apply foldl_initialStep_frontier
  · simp [IsMax]
  · simp [IsMax]

theorem reset_fields (P : Platform) (g : Game) :
    ∃ rp, (reset P g).path = (initialWalk P rp).tiles ∧ (reset P g).maxX = (initialWalk P rp).maxX ∧
      (reset P g).maxZ = (initialWalk P rp).maxZ ∧ (reset P g).score = 0 ∧
      (reset P g).maxDistanceTraveled = 0 := by
  unfold reset
  dsimp only
  obtain ⟨obs, rp, h⟩ := generateInitialPath_frame P
    { g with
      score := 0
      maxDistanceTraveled := 0
      gameOver := false
      isRolling := false
      isJumping := false
      jumpHeight := 0
      jumpProgress := 0
      rollAngle := 0
      rollDirection := 0
      rollProgress := 0
      showDirections := true
      prevDirection := -1 }
  rw [h]
  exact ⟨g.randPos, rfl, rfl, rfl, rfl, rfl⟩

theorem reset_inv (P : Platform) (g : Game) :
    Frontier (reset P g) ∧ TilesOK (reset P g) ∧
      (reset P g).score = (reset P g).maxDistanceTraveled := by
  obtain ⟨rp, hp, hx, hz, hs, hm⟩ := reset_fields P g
  refine ⟨?_, ?_, by rw [hs, hm]⟩
  · unfold Frontier
    rw [hp, hx, hz]
    exact initialWalk_frontier P rp
  · intro t ht
    rw [hp] at ht
    obtain ⟨new, -, hall, h⟩ := initialWalk_tiles P rp
    rw [h] at ht
    have hfresh : t.fresh := by
      rcases List.mem_append.1 ht with ht | ht
      · simp at ht
        rcases ht with rfl | rfl | rfl | rfl | rfl | rfl <;> exact ⟨rfl, rfl⟩
      · exact hall t ht
    rw [hfresh.1, hfresh.2]
    norm_num [PLATFORM_LIFETIME]

theorem step_frame (P : Platform) (fuel : Nat) (g g' : Game) (a : Action)
    (hu : ∀ deltaTime, a ≠ Action.update deltaTime) (hr : a ≠ Action.reset)
    (h : step P fuel g a = some g') :
    g'.path = g.path ∧ g'.maxX = g.maxX ∧ g'.maxZ = g.maxZ ∧ g'.score = g.score ∧
      g'.maxDistanceTraveled = g.maxDistanceTraveled := by
  cases a with
  | update dt => exact absurd rfl (hu dt)
  | key k b =>
    cases k <;>
      (simp only [step, setKey, Option.some.injEq] at h; subst h; exact ⟨rfl, rfl, rfl, rfl, rfl⟩)
  | nextCameraMode =>
    simp only [step, nextCameraMode, Option.some.injEq] at h; subst h
    exact ⟨rfl, rfl, rfl, rfl, rfl⟩
  | toggleCameraRotation =>
    simp only [step, toggleCameraRotation, Option.some.injEq] at h; subst h
    exact ⟨rfl, rfl, rfl, rfl, rfl⟩
  | zoomIn =>
    simp only [step, zoomIn, Option.some.injEq] at h; subst h; exact ⟨rfl, rfl, rfl, rfl, rfl⟩
  | zoomOut =>
    simp only [step, zoomOut, Option.some.injEq] at h; subst h; exact ⟨rfl, rfl, rfl, rfl, rfl⟩
  | reset => exact absurd rfl hr

/-- An invariant that holds after `reset()`, is kept by every update whose time
step satisfies `D`, and depends only on the path, the frontier and the score
fields, holds in every session state. -/
theorem Reachable.invariant {P : Platform} {D : ℚ → Prop} (Q : Game → Prop)
    (h0 : ∀ g, Q (reset P g))
    (hupd : ∀ g g' fuel deltaTime, Q g → D deltaTime → g.gameOver = false →
      updateGame P fuel deltaTime g = some g' → Q g')
    (hfr : ∀ g g', Q g → g'.path = g.path → g'.maxX = g.maxX → g'.maxZ = g.maxZ →
      g'.score = g.score → g'.maxDistanceTraveled = g.maxDistanceTraveled → Q g')
    {g : Game} (h : Reachable P D g) : Q g := by
  induction h with
  | start g => exact h0 g
  | next g g' fuel a _ hD hstep ih =>
    by_cases hu : ∃ dt, a = Action.update dt
    · obtain ⟨dt, rfl⟩ := hu
      cases hgo : g.gameOver with
      | true =>
        have : updateGame P fuel dt g = some g' := hstep
        rw [updateGame_of_gameOver P fuel dt g hgo] at this
        cases this
        exact ih
      | false => exact hupd g g' fuel dt ih (hD dt rfl) hgo hstep
    · by_cases hr : a = Action.reset
      · subst hr
        simp only [step, Option.some.injEq] at hstep
        subst hstep
        exact h0 g
      · obtain ⟨h1, h2, h3, h4, h5⟩ :=
          step_frame P fuel g g' a (fun dt hdt => hu ⟨dt, hdt⟩) hr hstep
        exact hfr g g' ih h1 h2 h3 h4 h5

theorem Reachable.frontier {P : Platform} {D : ℚ → Prop} {g : Game} (h : Reachable P D g) :
    Frontier g := by
  refine Reachable.invariant Frontier (fun g => (reset_inv P g).1) ?_ ?_ h
  · intro g g' fuel dt hQ _ hgo hu
    exact (updateGame_path P fuel dt g g' hgo hu).2 hQ
  · intro g g' hQ hp hx hz _ _
    unfold Frontier at *
    rw [hp, hx, hz]; exact hQ

theorem decayTile_bounds (deltaTime px pz : ℚ) (t : Tile) (hd : 0 ≤ deltaTime)
    (h0 : 0 ≤ t.lifetime) (h1 : t.lifetime ≤ t.maxLifetime) :
    (decayTile deltaTime px pz t).lifetime ≤ t.lifetime ∧
    0 ≤ (decayTile deltaTime px pz t).lifetime ∧
    (decayTile deltaTime px pz t).lifetime ≤ (decayTile deltaTime px pz t).maxLifetime ∧
    (t.lifetime = 0 → (decayTile deltaTime px pz t).lifetime = 0) := by
  unfold decayTile
  dsimp only
  split_ifs with ha hb hb
  · exact ⟨h0, le_refl _, le_trans h0 h1, fun _ => rfl⟩
  · refine ⟨by linarith, by linarith, by linarith, fun h => ?_⟩
    push_neg at hb
    linarith
  · exact ⟨h0, le_refl _, le_trans h0 h1, fun _ => rfl⟩
  · exact ⟨le_refl _, h0, h1, fun h => h⟩

theorem updateGame_tilesOK (P : Platform) (fuel : Nat) (deltaTime : ℚ) (g g' : Game)
    (hd : 0 ≤ deltaTime) (hQ : TilesOK g) (hgo : g.gameOver = false)
    (hu : updateGame P fuel deltaTime g = some g') : TilesOK g' := by
  obtain ⟨⟨seg, hp, hf⟩, -⟩ := updateGame_path P fuel deltaTime g g' hgo hu
  intro t ht
  rw [hp] at ht
  rcases List.mem_append.1 ht with ht | ht
  · obtain ⟨u, hu, rfl⟩ := List.mem_map.1 ht
    obtain ⟨h0, h1⟩ := hQ u hu
    obtain ⟨-, b, c, -⟩ := decayTile_bounds deltaTime g.playerX g.playerZ u hd h0 h1
    exact ⟨b, c⟩
  · obtain ⟨a, b⟩ := hf t ht
    rw [a, b]; norm_num [PLATFORM_LIFETIME]

theorem Reachable.tilesOK {P : Platform} {g : Game} (h : Reachable P (fun d => 0 ≤ d) g) :
    TilesOK g := by
  refine Reachable.invariant TilesOK (fun g => (reset_inv P g).2.1) ?_ ?_ h
  · intro g g' fuel dt hQ hd hgo hu
    exact updateGame_tilesOK P fuel dt g g' hd hQ hgo hu
  · intro g g' hQ hp _ _ _ _
    unfold TilesOK at *
    rw [hp]; exact hQ

/-- Claim C3 (lifetime monotonicity): in every session state, for every update
with `deltaTime ≥ 0` and every tile of the path, the tile is still at its place
in the list after the update with the same cell and maximum lifetime, its
lifetime has not increased, lies between 0 and its maximum lifetime, and is 0
if it was 0 before; every tile of the new state has a lifetime between 0 and
its maximum. -/
theorem lifetime_monotone (P : Platform) (fuel : Nat) (deltaTime : ℚ) (g g' : Game)
    (hr : Reachable P (fun d => 0 ≤ d) g) (hd : 0 ≤ deltaTime)
    (hu : updateGame P fuel deltaTime g = some g') :
    (∀ (i : Nat) (t : Tile), g.path[i]? = some t →
      ∃ t', g'.path[i]? = some t' ∧ t'.x = t.x ∧ t'.z = t.z ∧ t'.maxLifetime = t.maxLifetime ∧
        t'.lifetime ≤ t.lifetime ∧ 0 ≤ t'.lifetime ∧ t'.lifetime ≤ t'.maxLifetime ∧
        (t.lifetime = 0 → t'.lifetime = 0)) ∧
    (∀ t' ∈ g'.path, 0 ≤ t'.lifetime ∧ t'.lifetime ≤ t'.maxLifetime) := by
  have hQ := hr.tilesOK
  cases hgo : g.gameOver with
  | true =>
    rw [updateGame_of_gameOver P fuel deltaTime g hgo] at hu
    cases hu
    refine ⟨?_, hQ⟩
    intro i t hi
    obtain ⟨h0, h1⟩ := hQ t (List.getElem?_mem hi)
    exact ⟨t, hi, rfl, rfl, rfl, le_refl _, h0, h1, fun h => h⟩
  | false =>
    refine ⟨?_, updateGame_tilesOK P fuel deltaTime g g' hd hQ hgo hu⟩
    obtain ⟨⟨seg, hp, -⟩, -⟩ := updateGame_path P fuel deltaTime g g' hgo hu
    intro i t hi
    obtain ⟨h0, h1⟩ := hQ t (List.getElem?_mem hi)
    obtain ⟨a, b, c, d⟩ := decayTile_bounds deltaTime g.playerX g.playerZ t hd h0 h1
    refine ⟨decayTile deltaTime g.playerX g.playerZ t, ?_, rfl, rfl, rfl, a, b, c, d⟩
    have hlt : i < g.path.length := by
      rcases Nat.lt_or_ge i g.path.length with h | h
      · exact h
      · rw [List.getElem?_eq_none h] at hi; cases hi
    rw [hp, List.getElem?_append_left (by simpa using hlt), List.getElem?_map, hi]
    rfl

theorem sample_isSome :
    (updateGame samplePlatform 1 (1 / 10) (reset samplePlatform Game.initial)).isSome = true := by
  decide!

/-- Claim C3 at the state after `reset()`, with `deltaTime = 0.1`. -/
theorem lifetime_monotone_witness :
    Reachable samplePlatform (fun d => 0 ≤ d) (reset samplePlatform Game.initial) ∧
    (0 : ℚ) ≤ 1 / 10 ∧
    ∀ t' ∈ ((updateGame samplePlatform 1 (1 / 10) (reset samplePlatform Game.initial)).get
        sample_isSome).path, 0 ≤ t'.lifetime ∧ t'.lifetime ≤ t'.maxLifetime :=
  ⟨Reachable.start _, by norm_num,
    (lifetime_monotone samplePlatform 1 (1 / 10) (reset samplePlatform Game.initial) _
      (Reachable.start _) (by norm_num) (Option.some_get sample_isSome).symm).2⟩


theorem updateScore_score (g : Game) (h : g.score = g.maxDistanceTraveled) :
    (updateScore g).score = (updateScore g).maxDistanceTraveled ∧
      g.score ≤ (updateScore g).score := by
  unfold updateScore
  dsimp only
  split_ifs with h1 h2
  · exact ⟨rfl, by rw [h]; exact le_of_lt h2⟩
  · exact ⟨h, le_refl _⟩
  · exact ⟨h, le_refl _⟩

theorem updateGame_score (P : Platform) (fuel : Nat) (deltaTime : ℚ) (g g' : Game)
    (hs : g.score = g.maxDistanceTraveled) (hu : updateGame P fuel deltaTime g = some g') :
    g'.score = g'.maxDistanceTraveled ∧ g.score ≤ g'.score := by
  cases hgo : g.gameOver with
  | true =>
    rw [updateGame_of_gameOver P fuel deltaTime g hgo] at hu
    cases hu
    exact ⟨hs, le_refl _⟩
  | false =>
    obtain ⟨m, hm, rfl⟩ := updateGame_eq P fuel deltaTime g g' hgo hu
    have hE := updateMovement_extends P fuel deltaTime _ m hm
    have h1 : m.score = g.score := hE.score
    have h2 : m.maxDistanceTraveled = g.maxDistanceTraveled := hE.maxDistanceTraveled
    obtain ⟨-, -, -, c4, c5⟩ := updateCamera_frame deltaTime (updateScore m)
    obtain ⟨a, b⟩ := updateScore_score m (by rw [h1, h2, hs])
    rw [c4, c5]
    exact ⟨a, by rw [← h1]; exact b⟩

theorem Reachable.score_eq {P : Platform} {D : ℚ → Prop} {g : Game} (h : Reachable P D g) :
    g.score = g.maxDistanceTraveled := by
  refine Reachable.invariant (fun g => g.score = g.maxDistanceTraveled)
    (fun g => (reset_inv P g).2.2) ?_ ?_ h
  · intro g g' fuel dt hQ _ _ hu
    exact (updateGame_score P fuel dt g g' hQ hu).1
  · intro g g' hQ _ _ _ hs hm
    show g'.score = g'.maxDistanceTraveled
    rw [hs, hm]; exact hQ

/-- Claim C4 (score monotonicity): in every state reached from `reset()` by
any sequence of updates (with any time steps), input changes and camera
commands, the score equals `maxDistanceTraveled`, and after every further
update the score is at least the score before it and again equals
`maxDistanceTraveled`. -/
theorem score_monotone (P : Platform) (fuel : Nat) (deltaTime : ℚ) (g g' : Game)
    (hr : Reachable P (fun _ => True) g) (hu : updateGame P fuel deltaTime g = some g') :
    g.score = g.maxDistanceTraveled ∧ g.score ≤ g'.score ∧
      g'.score = g'.maxDistanceTraveled :=
  ⟨hr.score_eq, (updateGame_score P fuel deltaTime g g' hr.score_eq hu).2,
    (updateGame_score P fuel deltaTime g g' hr.score_eq hu).1⟩

/-- Claim C4 at the state after `reset()`, with `deltaTime = 0.1`. -/
theorem score_monotone_witness :
    Reachable samplePlatform (fun _ => True) (reset samplePlatform Game.initial) ∧
    (reset samplePlatform Game.initial).score ≤
      ((updateGame samplePlatform 1 (1 / 10) (reset samplePlatform Game.initial)).get
        sample_isSome).score :=
  ⟨Reachable.start _,
    (score_monotone samplePlatform 1 (1 / 10) (reset samplePlatform Game.initial) _
      (Reachable.start _) (Option.some_get sample_isSome).symm).2.1⟩

/-! ## Obstacle spawning: exclusion -/

theorem Apart.symm {o o' : Obstacle} (h : Apart o o') : Apart o' o := by
  unfold Apart manhattan at *
  constructor
  · rintro ⟨h1, h2⟩
    exact h.1 ⟨h1.symm, h2.symm⟩
  · have := h.2
    omega

theorem cornerFree_of_checks (path : List Tile) (x z : Int)
    (h1 : isCornerPoint path x z = false) (h2 : isAdjacentToCorner path x z = false) :
    CornerFree path x z := by
  intro t ht hc
  constructor
  · rintro ⟨hx, hz⟩
    have : isCornerPoint path x z = true := by
      unfold isCornerPoint
      rw [List.any_eq_true]
      exact ⟨t, ht, by simp [hx, hz, hc]⟩
    rw [h1] at this; cases this
  · intro hm
    have : isAdjacentToCorner path x z = true := by
      unfold isAdjacentToCorner
      rw [List.any_eq_true]
      exact ⟨t, ht, by simp [hm, hc]⟩
    rw [h2] at this; cases this

theorem apart_of_checks (obstacles : List Obstacle) (x z : Int) (r : Nat)
    (h1 : hasObstacle obstacles x z = false) (h2 : isAdjacentToObstacle obstacles x z = false) :
    ∀ o' ∈ obstacles, o'.active = true → Apart (newObstacle x z r) o' := by
  intro o' ho' ha
  constructor
  · rintro ⟨hx, hz⟩
    have : hasObstacle obstacles x z = true := by
      unfold hasObstacle
      rw [List.any_eq_true]
      refine ⟨o', ho', ?_⟩
      simp only [newObstacle] at hx hz
      simp [hx, hz, ha]
    rw [h1] at this; cases this
  · intro hm
    have : isAdjacentToObstacle obstacles x z = true := by
      unfold isAdjacentToObstacle
      rw [List.any_eq_true]
      refine ⟨o', ho', ?_⟩
      simp only [newObstacle] at hm
      simp [hm, ha]
    rw [h2] at this; cases this

theorem spawnStep_cases (P : Platform) (seg : List Tile) (startIndex : Nat) (g : Game) (i : Nat) :
    ((spawnStep P seg startIndex g i).obstacles = g.obstacles ∨
      ∃ tile r, tile ∈ seg ∧
        (spawnStep P seg startIndex g i).obstacles =
          g.obstacles ++ [newObstacle tile.x tile.z r] ∧
        CornerFree g.path tile.x tile.z ∧
        ∀ o' ∈ g.obstacles, o'.active = true → Apart (newObstacle tile.x tile.z r) o') := by
  unfold spawnStep
  split
  · exact Or.inl rfl
  · rename_i tile htile
    dsimp only
    split_ifs with h1 h2 h3 h4 h5 h6
    all_goals first
      | exact Or.inl rfl
      | exact Or.inr ⟨tile, _, List.getElem?_mem htile, rfl,
          cornerFree_of_checks _ _ _ (by simpa using h2) (by simpa using h3),
          apart_of_checks _ _ _ _ (by simpa using h4) (by simpa using h5)⟩


theorem foldl_spawnStep_spawned (P : Platform) (seg : List Tile) (startIndex : Nat)
    (old : List Obstacle) (l : List Nat) (g : Game) (added : List Obstacle)
    (hobs : g.obstacles = old ++ added) (hS : Spawned g.path seg old added) :
    ∃ added', (l.foldl (spawnStep P seg startIndex) g).obstacles = old ++ added' ∧
      Spawned g.path seg old added' := by
  induction l generalizing g added with
  | nil => exact ⟨added, hobs, hS⟩
  | cons i l ih =>
    rw [List.foldl_cons]
    obtain ⟨obs, rp, hfr⟩ := spawnStep_frame P seg startIndex g i
    have hpath : (spawnStep P seg startIndex g i).path = g.path := by rw [hfr]
    rcases spawnStep_cases P seg startIndex g i with h | ⟨tile, r, hmem, h, hc, ha⟩
    · have := ih (spawnStep P seg startIndex g i) added (by rw [h, hobs]) (by rw [hpath]; exact hS)
      rwa [hpath] at this
    · have hS' : Spawned g.path seg old (added ++ [newObstacle tile.x tile.z r]) := by
        constructor
        · intro o ho
          rcases List.mem_append.1 ho with ho | ho
          · exact hS.active o ho
          · simp at ho; subst ho; rfl
        · intro o ho
          rcases List.mem_append.1 ho with ho | ho
          · exact hS.onSegment o ho
          · simp at ho; subst ho; exact ⟨tile, hmem, rfl, rfl⟩
        · intro o ho
          rcases List.mem_append.1 ho with ho | ho
          · exact hS.cornerFree o ho
          · simp at ho; subst ho; exact hc
        · intro o ho o' ho' hact
          rcases List.mem_append.1 ho with ho | ho
          · exact hS.old o ho o' ho' hact
          · simp at ho; subst ho
            exact ha o' (by rw [hobs]; exact List.mem_append_left _ ho') hact
        · rw [List.pairwise_append]
          refine ⟨hS.pairwise, by simp, ?_⟩
          intro a ha' b hb
          simp at hb; subst hb
          exact (ha a (by rw [hobs]; exact List.mem_append_right _ ha') (hS.active a ha')).symm
      have := ih (spawnStep P seg startIndex g i) (added ++ [newObstacle tile.x tile.z r])
        (by rw [h, hobs, List.append_assoc]) (by rw [hpath]; exact hS')
      rwa [hpath] at this

theorem generateObstacles_spawned (P : Platform) (seg : List Tile) (startIndex : Nat) (g : Game) :
    ∃ added, (generateObstacles P seg startIndex g).obstacles = g.obstacles ++ added ∧
      Spawned g.path seg g.obstacles added := by
  unfold generateObstacles
  exact foldl_spawnStep_spawned P seg startIndex g.obstacles _ g [] (by simp)
    ⟨by simp, by simp, by simp, by simp, List.Pairwise.nil⟩

theorem Spawned.apart_index {path seg : List Tile} {old added : List Obstacle}
    (hS : Spawned path seg old added) (i j : Nat) (o o' : Obstacle)
    (hi : old.length ≤ i) (ho : (old ++ added)[i]? = some o) (hne : j ≠ i)
    (ho' : (old ++ added)[j]? = some o') (hact : o'.active = true) : Apart o o' := by
  rw [List.getElem?_append_right hi] at ho
  have hmem : o ∈ added := List.getElem?_mem ho
  rcases Nat.lt_or_ge j old.length with hj | hj
  · rw [List.getElem?_append_left hj] at ho'
    exact hS.old o hmem o' (List.getElem?_mem ho') hact
  · rw [List.getElem?_append_right hj] at ho'
    obtain ⟨hi', rfl⟩ := List.getElem?_eq_some.1 ho
    obtain ⟨hj', rfl⟩ := List.getElem?_eq_some.1 ho'
    have hP := List.pairwise_iff_getElem.1 hS.pairwise
    rcases Nat.lt_or_ge (i - old.length) (j - old.length) with h | h
    · exact hP _ _ hi' hj' h
    · have hlt : j - old.length < i - old.length := by omega
      exact (hP _ _ hj' hi' hlt).symm

/-- Claim C2 (spawn-time exclusion): for every path, every list of existing
obstacles, every segment, start index and sequence of draws,
`generateObstacles` leaves the path alone and only appends obstacles, and each
obstacle it appends is, in the state at the end of the call, active, on a cell
of the segment, not on a corner tile of the full path nor at Manhattan
distance 1 from one, and neither in the cell of another active obstacle nor at
Manhattan distance 1 from one. -/
theorem generateObstacles_exclusion (P : Platform) (pathSegment : List Tile) (startIndex : Nat)
    (g : Game) :
    (generateObstacles P pathSegment startIndex g).path = g.path ∧
    ∃ added, (generateObstacles P pathSegment startIndex g).obstacles = g.obstacles ++ added ∧
      ∀ (i : Nat) (o : Obstacle), g.obstacles.length ≤ i →
        (generateObstacles P pathSegment startIndex g).obstacles[i]? = some o →
        o.active = true ∧
        (∃ tile ∈ pathSegment, tile.x = o.x ∧ tile.z = o.z) ∧
        (∀ t ∈ (generateObstacles P pathSegment startIndex g).path, t.isCorner = true →
          ¬ (t.x = o.x ∧ t.z = o.z) ∧ manhattan t.x t.z o.x o.z ≠ 1) ∧
        (∀ (j : Nat) (o' : Obstacle), j ≠ i →
          (generateObstacles P pathSegment startIndex g).obstacles[j]? = some o' →
          o'.active = true →
          ¬ (o'.x = o.x ∧ o'.z = o.z) ∧ manhattan o'.x o'.z o.x o.z ≠ 1) := by
  obtain ⟨obs, rp, hfr⟩ := generateObstacles_frame P pathSegment startIndex g
  have hpath : (generateObstacles P pathSegment startIndex g).path = g.path := by rw [hfr]
  obtain ⟨added, hobs, hS⟩ := generateObstacles_spawned P pathSegment startIndex g
  refine ⟨hpath, added, hobs, ?_⟩
  intro i o hi ho
  rw [hobs] at ho
  have hmem : o ∈ added := by
    have := ho
    rw [List.getElem?_append_right hi] at this
    exact List.getElem?_mem this
  refine ⟨hS.active o hmem, hS.onSegment o hmem, ?_, ?_⟩
  · rw [hpath]
    exact hS.cornerFree o hmem
  · intro j o' hne ho' hact
    rw [hobs] at ho'
    exact hS.apart_index i j o o' hi ho hne ho' hact

/-! ## Termination: enough fuel gives the result -/

theorem chooseDirection_succ (P : Platform) (i : Nat) (cur : Int) (fuel pos : Nat)
    (r : Int × Nat) (h : chooseDirection P i cur fuel pos = some r) :
    chooseDirection P i cur (fuel + 1) pos = some r := by
  induction fuel generalizing pos with
  | zero => simp [chooseDirection] at h
  | succ n ih =>
    rw [chooseDirection] at h
    rw [chooseDirection]
    split_ifs at h ⊢
    all_goals first
      | exact ih _ h
      | exact h

theorem chooseDirection_mono (P : Platform) (i : Nat) (cur : Int) (fuel fuel' pos : Nat)
    (r : Int × Nat) (h : chooseDirection P i cur fuel pos = some r) (hle : fuel ≤ fuel') :
    chooseDirection P i cur fuel' pos = some r := by
  induction hle with
  | refl => exact h
  | step _ ih => exact chooseDirection_succ P i cur _ pos r ih

theorem extendStep_total (P : Platform) (hP : LoopTerminates P) (w : Walk) (i : Nat) :
    ∃ fuel0 w', ∀ fuel, fuel0 ≤ fuel → extendStep P fuel w i = some w' := by
  obtain ⟨fuel0, h0⟩ := hP i w.currentDirection w.randPos
  obtain ⟨r, hr⟩ := Option.isSome_iff_exists.1 h0
  refine ⟨fuel0, ({ w with randPos := r.2 } : Walk).advance r.1, ?_⟩
  intro fuel hle
  unfold extendStep
  rw [chooseDirection_mono P i w.currentDirection fuel0 fuel w.randPos r hr hle]

theorem foldlM_extendStep_total (P : Platform) (hP : LoopTerminates P) (l : List Nat) (w : Walk) :
    ∃ fuel0 w', ∀ fuel, fuel0 ≤ fuel → l.foldlM (extendStep P fuel) w = some w' := by
  induction l generalizing w with
  | nil => exact ⟨0, w, fun _ _ => rfl⟩
  | cons i l ih =>
    obtain ⟨f1, w1, h1⟩ := extendStep_total P hP w i
    obtain ⟨f2, w2, h2⟩ := ih w1
    refine ⟨max f1 f2, w2, ?_⟩
    intro fuel hle
    rw [List.foldlM_cons, h1 fuel (le_trans (le_max_left _ _) hle)]
    exact h2 fuel (le_trans (le_max_right _ _) hle)

theorem extendWalk_total (P : Platform) (hP : LoopTerminates P) (g : Game) :
    ∃ fuel0 w, ∀ fuel, fuel0 ≤ fuel → extendWalk P fuel g = some w :=
  foldlM_extendStep_total P hP _ _

theorem extendPath_total (P : Platform) (hP : LoopTerminates P) (g : Game) :
    ∃ fuel0 g', ∀ fuel, fuel0 ≤ fuel → extendPath P fuel g = some g' := by
  obtain ⟨f, w, hw⟩ := extendWalk_total P hP g
  refine ⟨f, generateObstacles P w.tiles 0
      { g with
        path := g.path ++ w.tiles
        maxX := w.maxX
        maxZ := w.maxZ
        prevDirection := w.currentDirection
        randPos := w.randPos }, ?_⟩
  intro fuel hle
  unfold extendPath
  rw [hw fuel hle]

theorem maybeExtend_total (P : Platform) (hP : LoopTerminates P) (g : Game) :
    ∃ fuel0 g', ∀ fuel, fuel0 ≤ fuel → maybeExtend P fuel g = some g' := by
  unfold maybeExtend
  dsimp only
  split_ifs
  · exact extendPath_total P hP g
  · exact ⟨0, g, fun _ _ => rfl⟩
  · exact ⟨0, g, fun _ _ => rfl⟩

theorem updateMovement_total (P : Platform) (hP : LoopTerminates P) (deltaTime : ℚ) (g : Game) :
    ∃ fuel0 g', ∀ fuel, fuel0 ≤ fuel → updateMovement P fuel deltaTime g = some g' := by
  unfold updateMovement updateJump updateRoll
  dsimp only
  split_ifs
  · exact maybeExtend_total P hP _
  · exact ⟨0, _, fun _ _ => rfl⟩
  · exact maybeExtend_total P hP _
  · exact ⟨0, _, fun _ _ => rfl⟩
  · exact ⟨0, _, fun _ _ => rfl⟩

/-- When the loops of `extendPath` terminate, `updateGame` returns: from some
bound on, every fuel gives the same result. -/
theorem updateGame_total (P : Platform) (hP : LoopTerminates P) (deltaTime : ℚ) (g : Game) :
    ∃ fuel0 g', ∀ fuel, fuel0 ≤ fuel → updateGame P fuel deltaTime g = some g' := by
  unfold updateGame
  split_ifs
  · exact ⟨0, g, fun _ _ => rfl⟩
  · obtain ⟨f, m, hm⟩ := updateMovement_total P hP deltaTime (updateWorld P deltaTime g)
    refine ⟨f, updateCamera deltaTime (updateScore m), ?_⟩
    intro fuel hle
    rw [hm fuel hle]
    rfl

/-! ## The roll and jump branches -/

theorem updateScoreCamera_pose (deltaTime : ℚ) (m : Game) :
    SamePose m (updateCamera deltaTime (updateScore m)) ∧
    (updateCamera deltaTime (updateScore m)).path = m.path ∧
    (updateCamera deltaTime (updateScore m)).obstacles = m.obstacles ∧
    (updateCamera deltaTime (updateScore m)).maxX = m.maxX ∧
    (updateCamera deltaTime (updateScore m)).maxZ = m.maxZ := by
  unfold updateCamera updateScore
  dsimp only
  split_ifs <;> exact ⟨⟨rfl, rfl, rfl, rfl, rfl, rfl, rfl, rfl, rfl, rfl⟩, rfl, rfl, rfl, rfl⟩

theorem maybeExtend_pose (P : Platform) (fuel : Nat) (g g' : Game)
    (h : maybeExtend P fuel g = some g') : SamePose g g' := by
  obtain ⟨seg, obs, rp, mx, mz, pd, hg, -, -⟩ := maybeExtend_spec P fuel g g' h
  rw [hg]
  exact ⟨rfl, rfl, rfl, rfl, rfl, rfl, rfl, rfl, rfl, rfl⟩

theorem rollLanding_spec (g : Game) :
    (rollLanding g).playerX =
      (if g.rollDirection = 3 then g.playerX - 1
        else if g.rollDirection = 4 then g.playerX + 1 else g.playerX) ∧
    (rollLanding g).playerZ =
      (if g.rollDirection = 1 then g.playerZ - 1
        else if g.rollDirection = 2 then g.playerZ + 1 else g.playerZ) ∧
    (rollLanding g).playerY = g.playerY ∧
    (rollLanding g).isRolling = false ∧
    (rollLanding g).isJumping = g.isJumping ∧
    (rollLanding g).rollProgress = 0 ∧
    (rollLanding g).rollDirection = 0 ∧
    ((rollLanding g).gameOver = true ↔
      g.gameOver = true ∨
      onPath g.path (rollLanding g).playerX (rollLanding g).playerZ = false ∨
      checkObstacleCollision g.obstacles (rollLanding g).playerX g.playerY
        (rollLanding g).playerZ = true) := by
  unfold rollLanding
  dsimp only
  split_ifs <;> simp_all <;> (intro hc; cases hg : g.gameOver <;> simp_all)

theorem jumpLanding_spec (g : Game) :
    (jumpLanding g).playerX = g.jumpDestX ∧
    (jumpLanding g).playerZ = g.jumpDestZ ∧
    (jumpLanding g).playerY = g.playerY ∧
    (jumpLanding g).isRolling = g.isRolling ∧
    (jumpLanding g).isJumping = false ∧
    (jumpLanding g).jumpProgress = 0 ∧
    (jumpLanding g).jumpHeight = 0 ∧
    (jumpLanding g).rollDirection = 0 ∧
    ((jumpLanding g).gameOver = true ↔
      g.gameOver = true ∨ onPath g.path g.jumpDestX g.jumpDestZ = false) := by
  unfold jumpLanding
  dsimp only
  split_ifs <;> simp_all

theorem jumpAirborne_spec (P : Platform) (t : ℚ) (g : Game) :
    (jumpAirborne P t g).playerX = g.jumpStartX + t * (g.jumpDestX - g.jumpStartX) ∧
    (jumpAirborne P t g).playerZ = g.jumpStartZ + t * (g.jumpDestZ - g.jumpStartZ) ∧
    (jumpAirborne P t g).playerY = g.playerY ∧
    (jumpAirborne P t g).jumpHeight = MAX_JUMP_HEIGHT * P.sin (t * M_PI) ∧
    (jumpAirborne P t g).jumpProgress = t ∧
    (jumpAirborne P t g).isJumping = g.isJumping ∧
    (jumpAirborne P t g).isRolling = g.isRolling ∧
    ((jumpAirborne P t g).gameOver = true ↔
      g.gameOver = true ∨
      checkObstacleCollision g.obstacles (g.jumpStartX + t * (g.jumpDestX - g.jumpStartX))
        (g.playerY + MAX_JUMP_HEIGHT * P.sin (t * M_PI))
        (g.jumpStartZ + t * (g.jumpDestZ - g.jumpStartZ)) = true) := by
  unfold jumpAirborne
  dsimp only
  split_ifs <;> simp_all

theorem updateWorld_frontier (P : Platform) (deltaTime : ℚ) (g : Game) (hF : Frontier g) :
    Frontier (updateWorld P deltaTime g) := by
  unfold Frontier updateWorld at *
  simpa [List.map_map, Function.comp_def, decayTile_x, decayTile_z] using hF

theorem run_reachable (P : Platform) (D : ℚ → Prop) (fuel : Nat) (actions : List Action)
    (g g' : Game) (hg : Reachable P D g)
    (hD : ∀ a ∈ actions, ∀ deltaTime, a = Action.update deltaTime → D deltaTime)
    (h : run P fuel actions g = some g') : Reachable P D g' := by
  induction actions generalizing g with
  | nil =>
    simp only [run, List.foldlM_nil, Option.pure_def, Option.some.injEq] at h
    subst h; exact hg
  | cons a l ih =>
    simp only [run, List.foldlM_cons] at h
    cases hs : step P fuel g a with
    | none => rw [hs] at h; cases h
    | some g1 =>
      rw [hs] at h
      exact ih g1 (Reachable.next g g1 fuel a hg (hD a (List.mem_cons_self _ _)) hs)
        (fun b hb => hD b (List.mem_cons_of_mem _ hb)) h

theorem getD_of_isSome {α : Type} (o : Option α) (d : α) (h : o.isSome = true) :
    o = some (o.getD d) := by
  cases o with
  | none => cases h
  | some a => rfl

theorem sampleJumping_facts :
    sampleJumping.gameOver = false ∧ sampleJumping.isJumping = true ∧
    sampleJumping.jumpProgress + 2 * (1 / 10) < 1 := by
  decide!

theorem sampleExtended_eq :
    extendPath samplePlatform 1 (generateInitialPath samplePlatform Game.initial) =
      some sampleExtended :=
  getD_of_isSome _ _ (by decide!)

theorem sampleExtended_facts :
    (⟨12, 7, ObstacleType.FALLING_BLOCK, 0, true, 0, 0, 0, 0⟩ : Obstacle) ∈
      (generateInitialPath samplePlatform Game.initial).obstacles ∧
    (generateInitialPath samplePlatform Game.initial).path[19]? = some ⟨12, 7, 3, 3, false⟩ ∧
    (⟨12, 7, ObstacleType.FALLING_BLOCK, 0, true, 0, 0, 0, 0⟩ : Obstacle) ∈
      sampleExtended.obstacles ∧
    sampleExtended.path[20]? = some ⟨13, 7, 3, 3, true⟩ := by
  decide!

/-- Claim C1 at a failing input: on `samplePlatform`, `generateInitialPath`
puts an active obstacle on the last tile `(12, 7)` of the initial path, and
the first tile `(13, 7)` that `extendPath` then appends is a corner: after the
extension an active obstacle is at Manhattan distance 1 from a corner tile. -/
theorem adjacency_broken_by_extension :
    (⟨12, 7, ObstacleType.FALLING_BLOCK, 0, true, 0, 0, 0, 0⟩ : Obstacle) ∈
      (generateInitialPath samplePlatform Game.initial).obstacles ∧
    (generateInitialPath samplePlatform Game.initial).path[19]? = some ⟨12, 7, 3, 3, false⟩ ∧
    extendPath samplePlatform 1 (generateInitialPath samplePlatform Game.initial) =
      some sampleExtended ∧
    ∃ o ∈ sampleExtended.obstacles, ∃ t ∈ sampleExtended.path,
      o.active = true ∧ t.isCorner = true ∧ manhattan t.x t.z o.x o.z = 1 :=
  ⟨sampleExtended_facts.1, sampleExtended_facts.2.1, sampleExtended_eq,
    ⟨12, 7, ObstacleType.FALLING_BLOCK, 0, true, 0, 0, 0, 0⟩, sampleExtended_facts.2.2.1,
    ⟨13, 7, 3, 3, true⟩, List.getElem?_mem sampleExtended_facts.2.2.2, rfl, rfl, by decide⟩

theorem Staircase.push {l : List Tile} {t u : Tile} (h : Staircase l)
    (hl : l.getLast? = some t)
    (hu : (u.x = t.x + 1 ∧ u.z = t.z) ∨ (u.x = t.x ∧ u.z = t.z + 1)) :
    Staircase (l ++ [u]) := by
  rw [List.getLast?_eq_getElem?] at hl
  have hlen : 0 < l.length := by
    rcases Nat.eq_zero_or_pos l.length with h0 | h0
    · rw [List.getElem?_eq_none (by omega)] at hl; cases hl
    · exact h0
  obtain ⟨t0, t1, t2⟩ := h.index _ t hl
  constructor
  · intro i v hv
    rcases Nat.lt_or_ge i l.length with hi | hi
    · rw [List.getElem?_append_left hi] at hv
      exact h.index i v hv
    · rw [List.getElem?_append_right hi] at hv
      have hi0 : i - l.length = 0 := by
        rcases Nat.eq_zero_or_pos (i - l.length) with h0 | h0
        · exact h0
        · rw [List.getElem?_eq_none (by simp only [List.length_singleton]; omega)] at hv; cases hv
      rw [hi0] at hv
      simp only [List.getElem?_cons_zero, Option.some.injEq] at hv
      subst hv
      have : (i : Int) = (l.length - 1 : Nat) + 1 := by omega
      rcases hu with ⟨a, b⟩ | ⟨a, b⟩ <;> refine ⟨?_, ?_, ?_⟩ <;> omega
  · intro i v v' hv hv'
    rcases Nat.lt_or_ge (i + 1) l.length with hi | hi
    · rw [List.getElem?_append_left (by omega)] at hv
      rw [List.getElem?_append_left hi] at hv'
      exact h.step i v v' hv hv'
    · rw [List.getElem?_append_right hi] at hv'
      have hi0 : i + 1 - l.length = 0 := by
        rcases Nat.eq_zero_or_pos (i + 1 - l.length) with h0 | h0
        · exact h0
        · rw [List.getElem?_eq_none (by simp only [List.length_singleton]; omega)] at hv'; cases hv'
      rw [hi0] at hv'
      simp only [List.getElem?_cons_zero, Option.some.injEq] at hv'
      subst hv'
      have hi' : i = l.length - 1 := by omega
      rw [List.getElem?_append_left (by omega), hi', hl] at hv
      cases hv
      exact hu

theorem WalkInv.advance {pre : List Tile} {w : Walk} (h : WalkInv pre w) (d : Int) :
    WalkInv pre (w.advance d) := by
  obtain ⟨t, ht, hx, hz⟩ := h.last
  have hstep : ∀ c : Bool,
      ((⟨if d = 1 then w.x else w.x + 1, if d = 1 then w.z + 1 else w.z, PLATFORM_LIFETIME,
          PLATFORM_LIFETIME, c⟩ : Tile).x = t.x + 1 ∧
        (⟨if d = 1 then w.x else w.x + 1, if d = 1 then w.z + 1 else w.z, PLATFORM_LIFETIME,
          PLATFORM_LIFETIME, c⟩ : Tile).z = t.z) ∨
      ((⟨if d = 1 then w.x else w.x + 1, if d = 1 then w.z + 1 else w.z, PLATFORM_LIFETIME,
          PLATFORM_LIFETIME, c⟩ : Tile).x = t.x ∧
        (⟨if d = 1 then w.x else w.x + 1, if d = 1 then w.z + 1 else w.z, PLATFORM_LIFETIME,
          PLATFORM_LIFETIME, c⟩ : Tile).z = t.z + 1) := by
    intro c
    by_cases hd : d = 1
    · right; simp [hd, hx, hz]
    · left; simp [hd, hx, hz]
  constructor
  · have := h.stair.push ht (hstep (w.currentDirection != -1 && w.currentDirection != d))
    simpa [Walk.advance, List.append_assoc] using this
  · refine ⟨⟨if d = 1 then w.x else w.x + 1, if d = 1 then w.z + 1 else w.z, PLATFORM_LIFETIME,
      PLATFORM_LIFETIME, w.currentDirection != -1 && w.currentDirection != d⟩, ?_, rfl, rfl⟩
    simp only [Walk.advance, ← List.append_assoc]
    exact List.getLast?_concat _
  · show max w.maxX (if d = 1 then w.x else w.x + 1) = (if d = 1 then w.x else w.x + 1)
    rw [h.maxX]
    split_ifs <;> simp
  · show max w.maxZ (if d = 1 then w.z + 1 else w.z) = (if d = 1 then w.z + 1 else w.z)
    rw [h.maxZ]
    split_ifs <;> simp

theorem WalkInv.frame {pre : List Tile} {w : Walk} (h : WalkInv pre w) (sc : Int) (rp : Nat) :
    WalkInv pre { w with straightCounter := sc, randPos := rp } :=
  ⟨h.stair, h.last, h.maxX, h.maxZ⟩

theorem initialStep_eq (P : Platform) (w : Walk) (i : Nat) :
    ∃ sc rp d, initialStep P w i =
      ({ w with straightCounter := sc, randPos := rp } : Walk).advance d := by
  unfold initialStep
  split_ifs
  · exact ⟨w.straightCounter, w.randPos, 0, rfl⟩
  all_goals exact ⟨_, _, _, rfl⟩

theorem foldl_initialStep_walkInv (P : Platform) (l : List Nat) (w : Walk) (h : WalkInv [] w) :
    WalkInv [] (l.foldl (initialStep P) w) := by
  induction l generalizing w with
  | nil => exact h
  | cons i l ih =>
    rw [List.foldl_cons]
    obtain ⟨sc, rp, d, he⟩ := initialStep_eq P w i
    apply ih
    rw [he]
    exact (h.frame sc rp).advance d

theorem initialWalk_walkInv (P : Platform) (rp : Nat) : WalkInv [] (initialWalk P rp) := by
  unfold initialWalk
  apply foldl_initialStep_walkInv
  refine ⟨⟨?_, ?_⟩, ⟨_, rfl, rfl, rfl⟩, rfl, rfl⟩
  · intro i t ht
    cases i with
    | zero =>
      simp only [List.nil_append, List.getElem?_cons_zero, Option.some.injEq] at ht
      subst ht
      simp
    | succ n => simp at ht
  · intro i t u _ hu
    simp at hu

theorem foldlM_extendStep_walkInv (P : Platform) (fuel : Nat) (pre : List Tile) (l : List Nat)
    (w w' : Walk) (h : WalkInv pre w) (hf : l.foldlM (extendStep P fuel) w = some w') :
    WalkInv pre w' := by
  induction l generalizing w with
  | nil =>
    simp only [List.foldlM_nil, Option.pure_def, Option.some.injEq] at hf
    subst hf; exact h
  | cons i l ih =>
    rw [List.foldlM_cons] at hf
    cases hs : extendStep P fuel w i with
    | none => rw [hs] at hf; cases hf
    | some w1 =>
      rw [hs] at hf
      obtain ⟨rp, d, h1⟩ := extendStep_eq P fuel w w1 i hs
      apply ih w1 _ hf
      rw [h1]
      exact (h.frame w.straightCounter rp).advance d

theorem generateInitialPath_genInv (P : Platform) (g : Game) :
    GenInv (generateInitialPath P g) := by
  obtain ⟨obs, rp, h⟩ := generateInitialPath_frame P g
  have hw := initialWalk_walkInv P g.randPos
  rw [h]
  obtain ⟨t, ht, hx, hz⟩ := hw.last
  refine ⟨by simpa using hw.stair, t, by simpa using ht, ?_, ?_⟩
  · show (initialWalk P g.randPos).maxX = t.x
    rw [hw.maxX, hx]
  · show (initialWalk P g.randPos).maxZ = t.z
    rw [hw.maxZ, hz]

theorem extendPath_genInv (P : Platform) (fuel : Nat) (g g' : Game) (hg : GenInv g)
    (h : extendPath P fuel g = some g') : GenInv g' := by
  unfold extendPath at h
  cases hw : extendWalk P fuel g with
  | none => rw [hw] at h; cases h
  | some w =>
    rw [hw] at h
    simp only [Option.some.injEq] at h
    obtain ⟨obs, rp, hfr⟩ := generateObstacles_frame P w.tiles 0
      { g with path := g.path ++ w.tiles, maxX := w.maxX, maxZ := w.maxZ,
               prevDirection := w.currentDirection, randPos := w.randPos }
    rw [hfr] at h
    obtain ⟨t, ht, hx, hz⟩ := hg.last
    unfold extendWalk at hw
    rw [ht] at hw
    have hI := foldlM_extendStep_walkInv P fuel g.path _ _ w
      ⟨by simpa using hg.stair, ⟨t, by simpa using ht, rfl, rfl⟩, hx, hz⟩ hw
    obtain ⟨u, hu, hux, huz⟩ := hI.last
    rw [← h]
    exact ⟨hI.stair, u, hu, by show w.maxX = u.x; rw [hI.maxX, hux],
      by show w.maxZ = u.z; rw [hI.maxZ, huz]⟩

/-! ## Invariants of built paths -/

theorem Staircase.map_decay {l : List Tile} (h : Staircase l) (deltaTime px pz : ℚ) :
    Staircase (l.map (decayTile deltaTime px pz)) := by
  constructor
  · intro i t ht
    rw [List.getElem?_map] at ht
    cases hi : l[i]? with
    | none => rw [hi] at ht; cases ht
    | some u =>
      rw [hi] at ht
      simp only [Option.map_some', Option.some.injEq] at ht
      subst ht
      exact h.index i u hi
  · intro i t t' ht ht'
    rw [List.getElem?_map] at ht ht'
    cases hi : l[i]? with
    | none => rw [hi] at ht; cases ht
    | some u =>
      cases hi' : l[i + 1]? with
      | none => rw [hi'] at ht'; cases ht'
      | some u' =>
        rw [hi] at ht
        rw [hi'] at ht'
        simp only [Option.map_some', Option.some.injEq] at ht ht'
        subst ht
        subst ht'
        exact h.step i u u' hi hi'

theorem GenInv.congr {g g' : Game} (h : GenInv g) (hp : g'.path = g.path)
    (hx : g'.maxX = g.maxX) (hz : g'.maxZ = g.maxZ) : GenInv g' := by
  obtain ⟨t, ht, a, b⟩ := h.last
  exact ⟨by rw [hp]; exact h.stair, t, by rw [hp]; exact ht, by rw [hx]; exact a,
    by rw [hz]; exact b⟩

theorem updateWorld_genInv (P : Platform) (deltaTime : ℚ) (g : Game) (h : GenInv g) :
    GenInv (updateWorld P deltaTime g) := by
  obtain ⟨t, ht, a, b⟩ := h.last
  refine ⟨h.stair.map_decay deltaTime g.playerX g.playerZ,
    decayTile deltaTime g.playerX g.playerZ t, ?_, a, b⟩
  show (g.path.map (decayTile deltaTime g.playerX g.playerZ)).getLast? = _
  rw [List.getLast?_map, ht]
  rfl

theorem maybeExtend_genInv (P : Platform) (fuel : Nat) (g g' : Game) (hg : GenInv g)
    (h : maybeExtend P fuel g = some g') : GenInv g' := by
  unfold maybeExtend at h
  dsimp only at h
  split_ifs at h
  · exact extendPath_genInv P fuel g g' hg h
  · cases h; exact hg
  · cases h; exact hg

theorem updateMovement_genInv (P : Platform) (fuel : Nat) (deltaTime : ℚ) (g g' : Game)
    (hg : GenInv g) (h : updateMovement P fuel deltaTime g = some g') : GenInv g' := by
  unfold updateMovement at h
  split_ifs at h
  · unfold updateJump at h
    dsimp only at h
    split_ifs at h
    · obtain ⟨h1, h2, h3, -⟩ := jumpLanding_frame g
      exact maybeExtend_genInv P fuel _ _ (hg.congr h1 h2 h3) h
    · cases h
      obtain ⟨h1, h2, h3, -⟩ := jumpAirborne_frame P (g.jumpProgress + JUMP_SPEED * deltaTime) g
      exact hg.congr h1 h2 h3
  · unfold updateRoll at h
    dsimp only at h
    split_ifs at h
    · obtain ⟨h1, h2, h3, -⟩ := rollLanding_frame g
      exact maybeExtend_genInv P fuel _ _ (hg.congr h1 h2 h3) h
    · cases h
      exact hg.congr rfl rfl rfl
  · cases h
    obtain ⟨h1, h2, h3, -⟩ := updateInput_frame g
    exact hg.congr h1 h2 h3

theorem updateGame_genInv (P : Platform) (fuel : Nat) (deltaTime : ℚ) (g g' : Game)
    (hg : GenInv g) (h : updateGame P fuel deltaTime g = some g') : GenInv g' := by
  cases hgo : g.gameOver with
  | true =>
    rw [updateGame_of_gameOver P fuel deltaTime g hgo] at h
    cases h; exact hg
  | false =>
    obtain ⟨m, hm, rfl⟩ := updateGame_eq P fuel deltaTime g g' hgo h
    have hM := updateMovement_genInv P fuel deltaTime _ m (updateWorld_genInv P deltaTime g hg) hm
    obtain ⟨-, c1, -, c3, c4⟩ := updateScoreCamera_pose deltaTime m
    exact hM.congr c1 c3 c4

theorem reset_genInv (P : Platform) (g : Game) : GenInv (reset P g) := by
  unfold reset
  dsimp only
  exact (generateInitialPath_genInv P _).congr rfl rfl rfl

theorem step_genInv (P : Platform) (fuel : Nat) (g g' : Game) (a : Action) (hg : GenInv g)
    (h : step P fuel g a = some g') : GenInv g' := by
  by_cases hu : ∃ dt, a = Action.update dt
  · obtain ⟨dt, rfl⟩ := hu
    exact updateGame_genInv P fuel dt g g' hg h
  · by_cases hr : a = Action.reset
    · subst hr
      simp only [step, Option.some.injEq] at h
      subst h
      exact reset_genInv P g
    · obtain ⟨h1, h2, h3, -, -⟩ := step_frame P fuel g g' a (fun dt hdt => hu ⟨dt, hdt⟩) hr h
      exact hg.congr h1 h2 h3

theorem Built.genInv {P : Platform} {g : Game} (h : Built P g) : GenInv g := by
  induction h with
  | initial g => exact generateInitialPath_genInv P g
  | extend g g' fuel _ he ih => exact extendPath_genInv P fuel g g' ih he
  | callback g g' fuel a _ _ hs ih => exact step_genInv P fuel g g' a ih hs
  | place g x y z _ ih => exact ih.congr rfl rfl rfl

theorem Staircase.distinct {l : List Tile} (h : Staircase l) (i j : Nat) (t u : Tile)
    (ht : l[i]? = some t) (hu : l[j]? = some u) (hx : t.x = u.x) (hz : t.z = u.z) : i = j := by
  have a := (h.index i t ht).2.2
  have b := (h.index j u hu).2.2
  omega

theorem GenInv.length {g : Game} (h : GenInv g) :
    (g.path.length : Int) = g.maxX + g.maxZ + 1 := by
  obtain ⟨t, ht, hx, hz⟩ := h.last
  rw [List.getLast?_eq_getElem?] at ht
  have hlen : 0 < g.path.length := by
    rcases Nat.eq_zero_or_pos g.path.length with h0 | h0
    · rw [List.getElem?_eq_none (by omega)] at ht; cases ht
    · exact h0
  have := (h.stair.index _ t ht).2.2
  omega

/-- Claim C20 (monotone staircase): in every state whose path was built by
`generateInitialPath` and any number of `extendPath` calls (also after
callbacks), the tile at list index `i` has `x ≥ 0`, `z ≥ 0` and `x + z = i`;
each tile is its predecessor moved by exactly `+1` in `x` or `+1` in `z`; two
tiles at different indices have different cells; the tile count is
`maxX + maxZ + 1`; and the frontier `(maxX, maxZ)` is the cell of the last
tile. -/
theorem staircase_invariant (P : Platform) (g : Game) (h : Built P g) :
    (∀ (i : Nat) (t : Tile), g.path[i]? = some t → 0 ≤ t.x ∧ 0 ≤ t.z ∧ t.x + t.z = (i : Int)) ∧
    (∀ (i : Nat) (t u : Tile), g.path[i]? = some t → g.path[i + 1]? = some u →
      (u.x = t.x + 1 ∧ u.z = t.z) ∨ (u.x = t.x ∧ u.z = t.z + 1)) ∧
    (∀ (i j : Nat) (t u : Tile), g.path[i]? = some t → g.path[j]? = some u → i ≠ j →
      ¬ (t.x = u.x ∧ t.z = u.z)) ∧
    (g.path.length : Int) = g.maxX + g.maxZ + 1 ∧
    (∃ t, g.path.getLast? = some t ∧ g.maxX = t.x ∧ g.maxZ = t.z) := by
  have hI := h.genInv
  refine ⟨hI.stair.index, hI.stair.step, ?_, hI.length, hI.last⟩
  intro i j t u ht hu hne hc
  exact hne (hI.stair.distinct i j t u ht hu hc.1 hc.2)

/-- Claim C20 at the state after `generateInitialPath` and one `extendPath` on
`samplePlatform`. -/
theorem staircase_invariant_witness :
    Built samplePlatform sampleExtended ∧
    (sampleExtended.path.length : Int) = sampleExtended.maxX + sampleExtended.maxZ + 1 :=
  ⟨Built.extend _ _ 1 (Built.initial Game.initial) sampleExtended_eq,
    (staircase_invariant samplePlatform sampleExtended
      (Built.extend _ _ 1 (Built.initial Game.initial) sampleExtended_eq)).2.2.2.1⟩

/-! ## Decay ahead of and behind the player -/

theorem spawnStep_agree (P : Platform) (seg : List Tile) (startIndex : Nat) (g h : Game)
    (i : Nat) (hp : g.path = h.path) (ho : g.obstacles = h.obstacles)
    (hr : g.randPos = h.randPos) :
    (spawnStep P seg startIndex g i).path = (spawnStep P seg startIndex h i).path ∧
    (spawnStep P seg startIndex g i).obstacles = (spawnStep P seg startIndex h i).obstacles ∧
    (spawnStep P seg startIndex g i).randPos = (spawnStep P seg startIndex h i).randPos := by
  unfold spawnStep
  rw [hp, ho, hr]
  split
  · exact ⟨hp, ho, hr⟩
  · dsimp only
    split_ifs <;> refine ⟨?_, ?_, ?_⟩ <;> first | assumption | rfl

theorem foldl_spawnStep_agree (P : Platform) (seg : List Tile) (startIndex : Nat) (l : List Nat)
    (g h : Game) (hp : g.path = h.path) (ho : g.obstacles = h.obstacles)
    (hr : g.randPos = h.randPos) :
    (l.foldl (spawnStep P seg startIndex) g).obstacles =
      (l.foldl (spawnStep P seg startIndex) h).obstacles := by
  induction l generalizing g h with
  | nil => exact ho
  | cons i l ih =>
    obtain ⟨a, b, c⟩ := spawnStep_agree P seg startIndex g h i hp ho hr
    exact ih _ _ a b c

theorem generateInitialPath_obstacles_agree (P : Platform) (g h : Game)
    (hr : g.randPos = h.randPos) :
    (generateInitialPath P g).obstacles = (generateInitialPath P h).obstacles := by
  unfold generateInitialPath generateObstacles
  dsimp only
  rw [hr]
  exact foldl_spawnStep_agree P _ 6 _ _ _ rfl rfl rfl

theorem foldl_spawnStep_new (P : Platform) (seg : List Tile) (startIndex : Nat) (l : List Nat)
    (g : Game) (Q : Obstacle → Prop) (hQ : ∀ o ∈ g.obstacles, Q o)
    (hnew : ∀ tile ∈ seg, ∀ r, Q (newObstacle tile.x tile.z r)) :
    ∀ o ∈ (l.foldl (spawnStep P seg startIndex) g).obstacles, Q o := by
  induction l generalizing g with
  | nil => exact hQ
  | cons i l ih =>
    rw [List.foldl_cons]
    apply ih
    rcases spawnStep_cases P seg startIndex g i with h | ⟨tile, r, hmem, h, -, -⟩
    · rw [h]; exact hQ
    · rw [h]
      intro o ho
      rcases List.mem_append.1 ho with ho | ho
      · exact hQ o ho
      · simp only [List.mem_singleton] at ho
        subst ho
        exact hnew tile hmem r

theorem generateInitialPath_obstacles_new (P : Platform) (g : Game) :
    ∀ o ∈ (generateInitialPath P g).obstacles,
      ∃ tile ∈ (generateInitialPath P g).path, ∃ r, o = newObstacle tile.x tile.z r := by
  rw [generateInitialPath_path]
  unfold generateInitialPath generateObstacles
  dsimp only
  apply foldl_spawnStep_new
  · intro o ho
    cases ho
  · intro tile ht r
    exact ⟨tile, ht, r, rfl⟩

theorem reset_obstacles (P : Platform) (g : Game) :
    (reset P g).obstacles =
      (generateInitialPath P { Game.initial with randPos := g.randPos }).obstacles := by
  unfold reset
  dsimp only
  exact generateInitialPath_obstacles_agree P _ _ rfl

theorem reset_path (P : Platform) (g : Game) :
    (reset P g).path = (generateInitialPath P { Game.initial with randPos := g.randPos }).path := by
  obtain ⟨rp, h, -⟩ := reset_fields P g
  unfold reset at h ⊢
  dsimp only at h ⊢
  rw [generateInitialPath_path, generateInitialPath_path]

theorem reset_pose (P : Platform) (g : Game) :
    (reset P g).score = 0 ∧ (reset P g).maxDistanceTraveled = 0 ∧ (reset P g).gameOver = false ∧
    (reset P g).isRolling = false ∧ (reset P g).isJumping = false ∧
    (reset P g).rollProgress = 0 ∧ (reset P g).jumpProgress = 0 ∧ (reset P g).jumpHeight = 0 ∧
    (reset P g).keyW = false ∧ (reset P g).keyS = false ∧ (reset P g).keyA = false ∧
    (reset P g).keyD = false ∧ (reset P g).keySpace = false ∧
    (reset P g).playerX = 0 ∧ (reset P g).playerY = 1 ∧ (reset P g).playerZ = 0 := by
  unfold reset
  dsimp only
  obtain ⟨obs, rp, h⟩ := generateInitialPath_frame P
    { g with
      score := 0
      maxDistanceTraveled := 0
      gameOver := false
      isRolling := false
      isJumping := false
      jumpHeight := 0
      jumpProgress := 0
      rollAngle := 0
      rollDirection := 0
      rollProgress := 0
      showDirections := true
      prevDirection := -1 }
  rw [h]
  dsimp only
  obtain ⟨new, -, -, ht⟩ := initialWalk_tiles P g.randPos
  rw [ht]
  exact ⟨rfl, rfl, rfl, rfl, rfl, rfl, rfl, rfl, rfl, rfl, rfl, rfl, rfl, rfl, rfl, rfl⟩

/-- Claim C12: for every state `g` and every sequence of random draws, the state
`reset P g` has score and best distance 0, is not over, is neither rolling nor
jumping with roll progress, jump progress and jump height 0, and has all five
key flags false; its tile list and its obstacle list are exactly those that
`generateInitialPath` produces on a newly constructed game at the same place of
the random stream (so nothing of `g`'s tiles or obstacles is kept): 20 tiles of
full lifetime, and only obstacles newly created on a tile of that path; the
player stands at `(0, 1, 0)`. -/
theorem reset_postcondition (P : Platform) (g : Game) :
    ((reset P g).score = 0 ∧ (reset P g).maxDistanceTraveled = 0 ∧
      (reset P g).gameOver = false ∧ (reset P g).isRolling = false ∧
      (reset P g).isJumping = false ∧ (reset P g).rollProgress = 0 ∧
      (reset P g).jumpProgress = 0 ∧ (reset P g).jumpHeight = 0) ∧
    ((reset P g).keyW = false ∧ (reset P g).keyS = false ∧ (reset P g).keyA = false ∧
      (reset P g).keyD = false ∧ (reset P g).keySpace = false) ∧
    ((reset P g).path =
        (generateInitialPath P { Game.initial with randPos := g.randPos }).path ∧
      (reset P g).obstacles =
        (generateInitialPath P { Game.initial with randPos := g.randPos }).obstacles ∧
      (reset P g).path.length = 20 ∧
      (∀ t ∈ (reset P g).path, t.lifetime = 3 ∧ t.maxLifetime = 3) ∧
      (∀ o ∈ (reset P g).obstacles, ∃ tile ∈ (reset P g).path, ∃ r,
        o = newObstacle tile.x tile.z r)) ∧
    ((reset P g).playerX = 0 ∧ (reset P g).playerY = 1 ∧ (reset P g).playerZ = 0) := by
  obtain ⟨h1, h2, h3, h4, h5, h6, h7, h8, h9, h10, h11, h12, h13, h14, h15, h16⟩ :=
    reset_pose P g
  have hA := generateInitialPath_scenarioA P { Game.initial with randPos := g.randPos }
  refine ⟨⟨h1, h2, h3, h4, h5, h6, h7, h8⟩, ⟨h9, h10, h11, h12, h13⟩,
    ⟨reset_path P g, reset_obstacles P g, ?_, ?_, ?_⟩, h14, h15, h16⟩
  · rw [reset_path]; exact hA.1
  · rw [reset_path]; exact hA.2.1
  · rw [reset_path, reset_obstacles]
    exact generateInitialPath_obstacles_new P _

/-! ## Entering a roll -/

theorem updateInput_roll (g : Game) (hr : g.isRolling = false) :
    ((updateInput g).isRolling = true ↔
      (g.keyW = true ∨ g.keyS = true ∨ g.keyA = true ∨ g.keyD = true) ∧ g.keySpace = false) ∧
    ((updateInput g).isRolling = true →
      (updateInput g).rollDirection =
        (if g.keyW then 1 else if g.keyS then 2 else if g.keyA then 3 else 4)) ∧
    (updateInput g).rollProgress = g.rollProgress := by
  unfold updateInput
  dsimp only
  cases hW : g.keyW <;> cases hS : g.keyS <;> cases hA : g.keyA <;> cases hD : g.keyD <;>
    cases hSp : g.keySpace <;> simp [hr]

theorem jumpLanding_roll (g : Game) :
    (jumpLanding g).isRolling = g.isRolling ∧ (jumpLanding g).rollProgress = g.rollProgress := by
  unfold jumpLanding
  dsimp only
  split_ifs <;> exact ⟨rfl, rfl⟩

theorem jumpAirborne_roll (P : Platform) (t : ℚ) (g : Game) :
    (jumpAirborne P t g).isRolling = g.isRolling ∧
      (jumpAirborne P t g).rollProgress = g.rollProgress := by
  unfold jumpAirborne
  dsimp only
  split_ifs <;> exact ⟨rfl, rfl⟩

theorem updateMovement_rollIdle (P : Platform) (fuel : Nat) (deltaTime : ℚ) (g g' : Game)
    (hq : g.isRolling = false → g.rollProgress = 0)
    (h : updateMovement P fuel deltaTime g = some g') :
    g'.isRolling = false → g'.rollProgress = 0 := by
  unfold updateMovement at h
  split_ifs at h with hj hr
  · unfold updateJump at h
    dsimp only at h
    split_ifs at h
    · have hp := maybeExtend_pose P fuel _ _ h
      rw [hp.isRolling, hp.rollProgress, (jumpLanding_roll g).1, (jumpLanding_roll g).2]
      exact hq
    · simp only [Option.some.injEq] at h
      subst h
      rw [(jumpAirborne_roll P _ g).1, (jumpAirborne_roll P _ g).2]
      exact hq
  · unfold updateRoll at h
    dsimp only at h
    split_ifs at h
    · have hp := maybeExtend_pose P fuel _ _ h
      intro _
      rw [hp.rollProgress]
      exact (rollLanding_spec g).2.2.2.2.2.1
    · simp only [Option.some.injEq] at h
      subst h
      intro hf
      rw [hr] at hf
      cases hf
  · simp only [Option.some.injEq] at h
    subst h
    have hr0 : g.isRolling = false := by simpa using hr
    obtain ⟨hiff, -, hp⟩ := updateInput_roll g hr0
    intro _
    rw [hp]
    exact hq hr0

theorem updateGame_rollIdle (P : Platform) (fuel : Nat) (deltaTime : ℚ) (g g' : Game)
    (hq : g.isRolling = false → g.rollProgress = 0)
    (h : updateGame P fuel deltaTime g = some g') :
    g'.isRolling = false → g'.rollProgress = 0 := by
  cases hgo : g.gameOver with
  | true =>
    rw [updateGame_of_gameOver P fuel deltaTime g hgo] at h
    simp only [Option.some.injEq] at h
    subst h
    exact hq
  | false =>
    obtain ⟨m, hm, rfl⟩ := updateGame_eq P fuel deltaTime g g' hgo h
    have hp := (updateScoreCamera_pose deltaTime m).1
    rw [hp.isRolling, hp.rollProgress]
    exact updateMovement_rollIdle P fuel deltaTime (updateWorld P deltaTime g) m hq hm

theorem step_rollIdle (P : Platform) (fuel : Nat) (g g' : Game) (a : Action)
    (hq : g.isRolling = false → g.rollProgress = 0)
    (h : step P fuel g a = some g') :
    g'.isRolling = false → g'.rollProgress = 0 := by
  cases a with
  | update dt => exact updateGame_rollIdle P fuel dt g g' hq h
  | key k b =>
    cases k <;> (simp only [step, setKey, Option.some.injEq] at h; subst h; exact hq)
  | nextCameraMode =>
    simp only [step, nextCameraMode, Option.some.injEq] at h; subst h
    exact hq
  | toggleCameraRotation =>
    simp only [step, toggleCameraRotation, Option.some.injEq] at h; subst h
    exact hq
  | zoomIn =>
    simp only [step, zoomIn, Option.some.injEq] at h; subst h
    exact hq
  | zoomOut =>
    simp only [step, zoomOut, Option.some.injEq] at h; subst h
    exact hq
  | reset =>
    simp only [step, Option.some.injEq] at h; subst h
    intro _
    exact (reset_pose P g).2.2.2.2.2.1

theorem Reachable.rollIdle {P : Platform} {D : ℚ → Prop} {g : Game} (h : Reachable P D g) :
    g.isRolling = false → g.rollProgress = 0 := by
  induction h with
  | start g0 =>
    intro _
    exact (reset_pose P g0).2.2.2.2.2.1
  | next g1 g2 fuel a _ _ hs ih => exact step_rollIdle P fuel g1 g2 a ih hs

/-- Claim C13, as the code has it: in every state that is not over and is
neither jumping nor rolling, `updateGame` returns a state, and that state is
rolling if and only if at least one of the four directional inputs is asserted
and the jump modifier is not; the roll direction is then the first asserted
direction in the order W (1), S (2), A (3), D (4), which is the asserted
direction when exactly one is asserted, and `rollProgress` keeps its value,
which is 0 in every such state reachable from `reset`. -/
theorem entering_rolling (P : Platform) (fuel : Nat) (deltaTime : ℚ) (g : Game)
    (hgo : g.gameOver = false) (hj : g.isJumping = false) (hr : g.isRolling = false) :
    ∃ g', updateGame P fuel deltaTime g = some g' ∧
      (g'.isRolling = true ↔
        (g.keyW = true ∨ g.keyS = true ∨ g.keyA = true ∨ g.keyD = true) ∧
          g.keySpace = false) ∧
      (g'.isRolling = true →
        g'.rollDirection =
          (if g.keyW then 1 else if g.keyS then 2 else if g.keyA then 3 else 4) ∧
        g'.rollProgress = g.rollProgress ∧
        ∀ D, Reachable P D g → g'.rollProgress = 0) := by
  have hm : updateMovement P fuel deltaTime (updateWorld P deltaTime g) =
      some (updateInput (updateWorld P deltaTime g)) := by
    unfold updateMovement
    rw [if_neg, if_neg]
    · show ¬ g.isRolling = true
      simp [hr]
    · show ¬ g.isJumping = true
      simp [hj]
  refine ⟨updateCamera deltaTime (updateScore (updateInput (updateWorld P deltaTime g))), ?_, ?_⟩
  · unfold updateGame
    rw [if_neg (by simp [hgo]), hm]
    rfl
  · have hp := (updateScoreCamera_pose deltaTime (updateInput (updateWorld P deltaTime g))).1
    obtain ⟨hiff, hdir, hprog⟩ := updateInput_roll (updateWorld P deltaTime g) hr
    rw [hp.isRolling, hp.rollDirection, hp.rollProgress]
    refine ⟨hiff, fun h => ⟨hdir h, hprog, fun D hR => ?_⟩⟩
    rw [hprog]
    exact hR.rollIdle hr

theorem sampleKeyD_facts :
    sampleKeyD.gameOver = false ∧ sampleKeyD.isJumping = false ∧
      sampleKeyD.isRolling = false := by
  decide!

theorem entering_rolling_witness :
    sampleKeyD.gameOver = false ∧ sampleKeyD.isJumping = false ∧
      sampleKeyD.isRolling = false ∧
    ∃ g', updateGame samplePlatform 1 (1 / 10) sampleKeyD = some g' ∧
      (g'.isRolling = true ↔
        (sampleKeyD.keyW = true ∨ sampleKeyD.keyS = true ∨ sampleKeyD.keyA = true ∨
          sampleKeyD.keyD = true) ∧ sampleKeyD.keySpace = false) ∧
      (g'.isRolling = true →
        g'.rollDirection =
          (if sampleKeyD.keyW then 1 else if sampleKeyD.keyS then 2
            else if sampleKeyD.keyA then 3 else 4) ∧
        g'.rollProgress = sampleKeyD.rollProgress ∧
        ∀ D, Reachable samplePlatform D sampleKeyD → g'.rollProgress = 0) :=
  ⟨sampleKeyD_facts.1, sampleKeyD_facts.2.1, sampleKeyD_facts.2.2,
    entering_rolling samplePlatform 1 (1 / 10) sampleKeyD sampleKeyD_facts.1
      sampleKeyD_facts.2.1 sampleKeyD_facts.2.2⟩

theorem sampleTwoKeys_reachable (D : ℚ → Prop) : Reachable samplePlatform D sampleTwoKeys := by
  refine Reachable.next _ _ 0 (Action.key Key.S true)
    (Reachable.next _ _ 0 (Action.key Key.W true) (Reachable.start Game.initial) ?_ rfl) ?_ rfl
  · intro dt h; cases h
  · intro dt h; cases h

/-- Counterexample to claim C13 as written: at the start of a game with the keys
W and S both held (two directional inputs asserted, jump modifier not), the
state is not over and idle, and the tick enters Rolling, in direction 1. -/
theorem two_keys_enter_rolling_counterexample :
    Reachable samplePlatform (fun d => 0 ≤ d) sampleTwoKeys ∧
    sampleTwoKeys.gameOver = false ∧ sampleTwoKeys.isJumping = false ∧
    sampleTwoKeys.isRolling = false ∧
    sampleTwoKeys.keyW = true ∧ sampleTwoKeys.keyS = true ∧ sampleTwoKeys.keyA = false ∧
    sampleTwoKeys.keyD = false ∧ sampleTwoKeys.keySpace = false ∧
    (updateGame samplePlatform 1 (1 / 10) sampleTwoKeys).isSome = true ∧
    ∀ g', updateGame samplePlatform 1 (1 / 10) sampleTwoKeys = some g' →
      g'.isRolling = true ∧ g'.rollDirection = 1 := by
  refine ⟨sampleTwoKeys_reachable _, by decide!, by decide!, by decide!, by decide!,
    by decide!, by decide!, by decide!, by decide!, by decide!, ?_⟩
  intro g' h
  have h1 : ((updateGame samplePlatform 1 (1 / 10) sampleTwoKeys).getD Game.initial).isRolling
      = true ∧
      ((updateGame samplePlatform 1 (1 / 10) sampleTwoKeys).getD Game.initial).rollDirection
      = 1 := by
    decide!
  rw [h] at h1
  exact h1

/-! ## Jump landing -/

theorem updateGame_jumpLanding (P : Platform) (fuel : Nat) (deltaTime : ℚ) (g g' : Game)
    (hgo : g.gameOver = false) (hj : g.isJumping = true)
    (hge : 1 ≤ g.jumpProgress + 2 * deltaTime)
    (hu : updateGame P fuel deltaTime g = some g') :
    g'.playerX = g.jumpDestX ∧ g'.playerZ = g.jumpDestZ ∧ g'.jumpHeight = 0 ∧
    g'.jumpProgress = 0 ∧ g'.isJumping = false ∧
    (g'.gameOver = true ↔
      onPath (g.path.map (decayTile deltaTime g.playerX g.playerZ))
        g.jumpDestX g.jumpDestZ = false) := by
  obtain ⟨m, hm, rfl⟩ := updateGame_eq P fuel deltaTime g g' hgo hu
  have hge' : g.jumpProgress + JUMP_SPEED * deltaTime ≥ 1 := by
    unfold JUMP_SPEED; linarith
  have hm' : maybeExtend P fuel (jumpLanding (updateWorld P deltaTime g)) = some m := by
    unfold updateMovement updateJump at hm
    have : (updateWorld P deltaTime g).isJumping = true := hj
    rw [if_pos this] at hm
    dsimp only at hm
    have h2 : (updateWorld P deltaTime g).jumpProgress = g.jumpProgress := rfl
    rw [h2, if_pos hge'] at hm
    exact hm
  have hp := (updateScoreCamera_pose deltaTime m).1
  have hq := maybeExtend_pose P fuel _ _ hm'
  obtain ⟨a1, a2, -, -, a5, a6, a7, -, a9⟩ := jumpLanding_spec (updateWorld P deltaTime g)
  refine ⟨?_, ?_, ?_, ?_, ?_, ?_⟩
  · rw [hp.playerX, hq.playerX, a1]; rfl
  · rw [hp.playerZ, hq.playerZ, a2]; rfl
  · rw [hp.jumpHeight, hq.jumpHeight, a7]
  · rw [hp.jumpProgress, hq.jumpProgress, a6]
  · rw [hp.isJumping, hq.isJumping, a5]
  · rw [hp.gameOver, hq.gameOver, a9]
    have h3 : (updateWorld P deltaTime g).gameOver = g.gameOver := rfl
    rw [h3, hgo]
    simp only [Bool.false_eq_true, false_or]
    rfl

/-- Claim C16: in a jumping state that is not `gameOver`, a tick with
`jumpProgress + 2 * deltaTime ≥ 1` puts the player exactly at the recorded
destination `(jumpDestX, jumpDestZ)`, sets `jumpHeight` and `jumpProgress` to 0,
clears `isJumping`, and sets `gameOver` if and only if `onPath` is false at the
destination (on the tiles as decayed by this tick); the same tick from the same
state with any other obstacle list gives the same position, height, progress,
flags and `gameOver`. When the loops of `extendPath` terminate the tick returns
a state. -/
theorem jump_landing (P : Platform) (fuel : Nat) (deltaTime : ℚ) (g : Game)
    (hgo : g.gameOver = false) (hj : g.isJumping = true)
    (hge : 1 ≤ g.jumpProgress + 2 * deltaTime) :
    (∀ g', updateGame P fuel deltaTime g = some g' →
      g'.playerX = g.jumpDestX ∧ g'.playerZ = g.jumpDestZ ∧ g'.jumpHeight = 0 ∧
      g'.jumpProgress = 0 ∧ g'.isJumping = false ∧
      (g'.gameOver = true ↔
        onPath (g.path.map (decayTile deltaTime g.playerX g.playerZ))
          g.jumpDestX g.jumpDestZ = false) ∧
      ∀ (obs : List Obstacle) (fuel' : Nat) (g'' : Game),
        updateGame P fuel' deltaTime { g with obstacles := obs } = some g'' →
        g''.playerX = g'.playerX ∧ g''.playerZ = g'.playerZ ∧
        g''.jumpHeight = g'.jumpHeight ∧ g''.jumpProgress = g'.jumpProgress ∧
        g''.isJumping = g'.isJumping ∧ g''.gameOver = g'.gameOver) ∧
    (LoopTerminates P →
      ∃ fuel0 g', ∀ fuel, fuel0 ≤ fuel → updateGame P fuel deltaTime g = some g') := by
  refine ⟨?_, fun hP => updateGame_total P hP deltaTime g⟩
  intro g' hu
  obtain ⟨a1, a2, a3, a4, a5, a6⟩ := updateGame_jumpLanding P fuel deltaTime g g' hgo hj hge hu
  refine ⟨a1, a2, a3, a4, a5, a6, ?_⟩
  intro obs fuel' g'' hu'
  obtain ⟨b1, b2, b3, b4, b5, b6⟩ :=
    updateGame_jumpLanding P fuel' deltaTime { g with obstacles := obs } g'' hgo hj hge hu'
  refine ⟨by rw [a1, b1], by rw [a2, b2], by rw [a3, b3], by rw [a4, b4], by rw [a5, b5], ?_⟩
  rw [Bool.eq_iff_iff, a6, b6]

theorem sampleAirborne_facts :
    sampleAirborne.gameOver = false ∧ sampleAirborne.isJumping = true ∧
    1 ≤ sampleAirborne.jumpProgress + 2 * (1 / 10) ∧
    (updateGame samplePlatform 1 (1 / 10) sampleAirborne).isSome = true := by
  decide!

theorem jump_landing_witness :
    sampleAirborne.gameOver = false ∧ sampleAirborne.isJumping = true ∧
    1 ≤ sampleAirborne.jumpProgress + 2 * (1 / 10) ∧
    (updateGame samplePlatform 1 (1 / 10) sampleAirborne).isSome = true ∧
    ((∀ g', updateGame samplePlatform 1 (1 / 10) sampleAirborne = some g' →
      g'.playerX = sampleAirborne.jumpDestX ∧ g'.playerZ = sampleAirborne.jumpDestZ ∧
      g'.jumpHeight = 0 ∧ g'.jumpProgress = 0 ∧ g'.isJumping = false ∧
      (g'.gameOver = true ↔
        onPath (sampleAirborne.path.map
            (decayTile (1 / 10) sampleAirborne.playerX sampleAirborne.playerZ))
          sampleAirborne.jumpDestX sampleAirborne.jumpDestZ = false) ∧
      ∀ (obs : List Obstacle) (fuel' : Nat) (g'' : Game),
        updateGame samplePlatform fuel' (1 / 10) { sampleAirborne with obstacles := obs } =
          some g'' →
        g''.playerX = g'.playerX ∧ g''.playerZ = g'.playerZ ∧
        g''.jumpHeight = g'.jumpHeight ∧ g''.jumpProgress = g'.jumpProgress ∧
        g''.isJumping = g'.isJumping ∧ g''.gameOver = g'.gameOver) ∧
    (LoopTerminates samplePlatform →
      ∃ fuel0 g', ∀ fuel, fuel0 ≤ fuel →
        updateGame samplePlatform fuel (1 / 10) sampleAirborne = some g')) :=
  ⟨sampleAirborne_facts.1, sampleAirborne_facts.2.1, sampleAirborne_facts.2.2.1,
    sampleAirborne_facts.2.2.2,
    jump_landing samplePlatform 1 (1 / 10) sampleAirborne sampleAirborne_facts.1
      sampleAirborne_facts.2.1 sampleAirborne_facts.2.2.1⟩

/-! ## The score rule -/

theorem Reachable.maxDistance_nonneg {P : Platform} {D : ℚ → Prop} {g : Game}
    (h : Reachable P D g) : 0 ≤ g.maxDistanceTraveled := by
  have key : g.score = g.maxDistanceTraveled ∧ 0 ≤ g.maxDistanceTraveled := by
    refine Reachable.invariant (fun g => g.score = g.maxDistanceTraveled ∧
      0 ≤ g.maxDistanceTraveled) ?_ ?_ ?_ h
    · intro g
      obtain ⟨h1, h2, -⟩ := reset_pose P g
      show (reset P g).score = (reset P g).maxDistanceTraveled ∧
        0 ≤ (reset P g).maxDistanceTraveled
      rw [h1, h2]
      exact ⟨rfl, le_refl _⟩
    · intro g g' fuel dt hQ _ _ hu
      obtain ⟨a, b⟩ := updateGame_score P fuel dt g g' hQ.1 hu
      refine ⟨a, ?_⟩
      rw [← a]
      have := hQ.2
      rw [← hQ.1] at this
      exact le_trans this b
    · intro g g' hQ _ _ _ hs hm
      show g'.score = g'.maxDistanceTraveled ∧ 0 ≤ g'.maxDistanceTraveled
      rw [hs, hm]; exact hQ
  exact key.2

/-! ## The rejection draw of `extendPath` -/

theorem chooseDirection_pos (P : Platform) (i : Nat) (cur : Int) (fuel pos : Nat) (d : Int)
    (p : Nat) (h : chooseDirection P i cur fuel pos = some (d, p)) : pos < p := by
  induction fuel generalizing pos with
  | zero => simp [chooseDirection] at h
  | succ fuel ih =>
    simp only [chooseDirection] at h
    split_ifs at h <;>
      first
        | exact lt_of_le_of_lt (Nat.le_add_right pos 2) (ih _ h)
        | (simp only [Option.some.injEq, Prod.mk.injEq] at h; omega)

/-- Claim C18, as the code has it: in the direction loop of `extendPath`, at a
step `i > 0` that is not a forced-flip step (`i % 5 ≠ 0`) and whose drawn
direction equals the previous direction, the draw is kept (two draws consumed,
no redraw) exactly when the rejection draw has residue 1 or 2 modulo 3, and it
is rejected and the loop run again exactly when that residue is 0: one of the
three residues, not two. -/
theorem resampling_rule (P : Platform) (i : Nat) (cur : Int) (fuel pos : Nat)
    (hi : 0 < i) (hnf : i % 5 ≠ 0) (hd : ((P.rand pos % 2 : Nat) : Int) = cur) :
    (chooseDirection P i cur (fuel + 1) pos = some (cur, pos + 2) ↔
      P.rand (pos + 1) % 3 ≠ 0) ∧
    (P.rand (pos + 1) % 3 = 0 →
      chooseDirection P i cur (fuel + 1) pos = chooseDirection P i cur fuel (pos + 2)) := by
  have hstep : chooseDirection P i cur (fuel + 1) pos =
      if P.rand (pos + 1) % 3 = 0 then chooseDirection P i cur fuel (pos + 2)
      else some (cur, pos + 2) := by
    have hne : (i % 5 = 0) = False := eq_false hnf
    simp only [chooseDirection, hne, hd, hi, and_false, and_self, if_false, if_true]
  rw [hstep]
  constructor
  · constructor
    · intro h h0
      rw [if_pos h0] at h
      have := chooseDirection_pos P i cur fuel (pos + 2) cur (pos + 2) h
      omega
    · intro h
      rw [if_neg h]
  · intro h0
    rw [if_pos h0]

theorem resampling_rule_witness :
    (0 < 1 ∧ 1 % 5 ≠ 0 ∧ (((residuePlatform 0).rand 0 % 2 : Nat) : Int) = 1) ∧
    (chooseDirection (residuePlatform 0) 1 1 (1 + 1) 0 = some (1, 0 + 2) ↔
      (residuePlatform 0).rand (0 + 1) % 3 ≠ 0) ∧
    ((residuePlatform 0).rand (0 + 1) % 3 = 0 →
      chooseDirection (residuePlatform 0) 1 1 (1 + 1) 0 =
        chooseDirection (residuePlatform 0) 1 1 1 (0 + 2)) :=
  ⟨by decide, resampling_rule (residuePlatform 0) 1 1 1 0 (by decide) (by decide) (by decide)⟩

/-- Counterexample to claim C18 as written: at step 1 with previous direction 1
and drawn direction 1, the draw is kept without a redraw when the rejection
draw has residue 1 and when it has residue 2, and redrawn (four draws consumed)
when it has residue 0. -/
theorem resampling_two_residues_counterexample :
    (((residuePlatform 1).rand 0 % 2 : Nat) : Int) = 1 ∧
    (residuePlatform 1).rand 1 % 3 = 1 ∧
    chooseDirection (residuePlatform 1) 1 1 2 0 = some (1, 2) ∧
    (((residuePlatform 2).rand 0 % 2 : Nat) : Int) = 1 ∧
    (residuePlatform 2).rand 1 % 3 = 2 ∧
    chooseDirection (residuePlatform 2) 1 1 2 0 = some (1, 2) ∧
    (((residuePlatform 0).rand 0 % 2 : Nat) : Int) = 1 ∧
    (residuePlatform 0).rand 1 % 3 = 0 ∧
    chooseDirection (residuePlatform 0) 1 1 2 0 = some (1, 4) := by
  decide

/-! ## Forced turns of the initial path -/

theorem initialWalkAt_succ (P : Platform) (rp n : Nat) :
    initialWalkAt P rp (n + 1) = initialStep P (initialWalkAt P rp n) (n + 1) := by
  unfold initialWalkAt
  rw [List.range'_concat, List.foldl_append, one_mul, Nat.add_comm 1 n]
  rfl

theorem initialWalkAt_last (P : Platform) (rp : Nat) : initialWalk P rp = initialWalkAt P rp 19 :=
  rfl

theorem initialStep_last (P : Platform) (w : Walk) (i : Nat) :
    ∃ t, (initialStep P w i).tiles = w.tiles ++ [t] ∧ t.x = (initialStep P w i).x ∧
      t.z = (initialStep P w i).z ∧
      (initialStep P w i).x =
        (if (initialStep P w i).currentDirection = 1 then w.x else w.x + 1) ∧
      (initialStep P w i).z =
        (if (initialStep P w i).currentDirection = 1 then w.z + 1 else w.z) := by
  obtain ⟨sc, rp, d, h⟩ := initialStep_eq P w i
  rw [h]
  exact ⟨_, rfl, rfl, rfl, rfl, rfl⟩

theorem initialWalkAt_length (P : Platform) (rp n : Nat) :
    (initialWalkAt P rp n).tiles.length = n + 1 := by
  induction n with
  | zero => rfl
  | succ n ih =>
    obtain ⟨t, ht, -⟩ := initialStep_last P (initialWalkAt P rp n) (n + 1)
    rw [initialWalkAt_succ, ht, List.length_append, ih]
    rfl

theorem initialWalkAt_tile (P : Platform) (rp m j : Nat) (hj : j ≤ m) :
    ∃ t, (initialWalkAt P rp m).tiles[j]? = some t ∧ t.x = (initialWalkAt P rp j).x ∧
      t.z = (initialWalkAt P rp j).z := by
  induction m with
  | zero =>
    have : j = 0 := by omega
    subst this
    exact ⟨_, rfl, rfl, rfl⟩
  | succ m ih =>
    obtain ⟨t, ht, hx, hz, -⟩ := initialStep_last P (initialWalkAt P rp m) (m + 1)
    have hlen := initialWalkAt_length P rp m
    rw [← initialWalkAt_succ] at ht hx hz
    by_cases hjm : j ≤ m
    · obtain ⟨u, hu, hux, huz⟩ := ih hjm
      refine ⟨u, ?_, hux, huz⟩
      rw [ht, List.getElem?_append_left (by omega)]
      exact hu
    · have : j = m + 1 := by omega
      subst this
      refine ⟨t, ?_, hx, hz⟩
      rw [ht, List.getElem?_append_right (by omega), hlen]
      simp

theorem initialWalkAt_moves (P : Platform) (rp j : Nat) (hj : j + 1 ≤ 19) :
    (movesAlongX (initialWalk P rp).tiles (j + 1) = true ↔
      (initialWalkAt P rp (j + 1)).currentDirection ≠ 1) ∧
    (movesAlongZ (initialWalk P rp).tiles (j + 1) = true ↔
      (initialWalkAt P rp (j + 1)).currentDirection = 1) := by
  obtain ⟨t, ht, htx, htz⟩ := initialWalkAt_tile P rp 19 j (by omega)
  obtain ⟨u, hu, hux, huz⟩ := initialWalkAt_tile P rp 19 (j + 1) hj
  obtain ⟨-, -, -, -, hx, hz⟩ := initialStep_last P (initialWalkAt P rp j) (j + 1)
  rw [← initialWalkAt_succ] at hx hz
  rw [initialWalkAt_last]
  unfold movesAlongX movesAlongZ
  rw [Nat.add_sub_cancel, ht, hu]
  dsimp only
  rw [hux, huz, htx, htz, hx, hz]
  by_cases hd : (initialWalkAt P rp (j + 1)).currentDirection = 1
  · simp [hd]
  · simp [hd]

theorem initialStep_counter (P : Platform) (w : Walk) (i : Nat) (hi : 5 < i)
    (hd : w.currentDirection = 0 ∨ w.currentDirection = 1) (hs : 0 ≤ w.straightCounter) :
    ((initialStep P w i).currentDirection = 0 ∨ (initialStep P w i).currentDirection = 1) ∧
    0 ≤ (initialStep P w i).straightCounter ∧
    ((initialStep P w i).currentDirection = w.currentDirection →
      (initialStep P w i).straightCounter = w.straightCounter + 1) ∧
    (3 ≤ w.straightCounter → (initialStep P w i).currentDirection ≠ w.currentDirection) := by
  unfold initialStep
  rw [if_neg (by omega)]
  rcases hd with hd | hd <;> by_cases h1 : 3 ≤ w.straightCounter <;>
    by_cases h3 : P.rand w.randPos % 3 = 0 <;>
    simp [h1, h3, hd, Walk.advance] <;> omega

theorem initialWalkAt_five (P : Platform) (rp : Nat) :
    (initialWalkAt P rp 5).currentDirection = 0 ∧ (initialWalkAt P rp 5).straightCounter = 0 := by
  simp [initialWalkAt, List.range', initialStep, Walk.advance]

theorem initialWalkAt_counter (P : Platform) (rp n : Nat) (hn : 5 ≤ n) :
    ((initialWalkAt P rp n).currentDirection = 0 ∨
      (initialWalkAt P rp n).currentDirection = 1) ∧
    0 ≤ (initialWalkAt P rp n).straightCounter := by
  induction n with
  | zero => omega
  | succ n ih =>
    by_cases h5 : n + 1 = 5
    · rw [h5]
      obtain ⟨a, b⟩ := initialWalkAt_five P rp
      exact ⟨Or.inl a, by rw [b]⟩
    · obtain ⟨hd, hs⟩ := ih (by omega)
      rw [initialWalkAt_succ]
      obtain ⟨a, b, -, -⟩ := initialStep_counter P (initialWalkAt P rp n) (n + 1) (by omega) hd hs
      exact ⟨a, b⟩

theorem initialWalkAt_forced (P : Platform) (rp k : Nat) (hk : 5 ≤ k)
    (h1 : (initialWalkAt P rp (k + 1)).currentDirection =
      (initialWalkAt P rp k).currentDirection)
    (h2 : (initialWalkAt P rp (k + 2)).currentDirection =
      (initialWalkAt P rp (k + 1)).currentDirection)
    (h3 : (initialWalkAt P rp (k + 3)).currentDirection =
      (initialWalkAt P rp (k + 2)).currentDirection) :
    (initialWalkAt P rp (k + 4)).currentDirection ≠
      (initialWalkAt P rp (k + 3)).currentDirection := by
  obtain ⟨d0, s0⟩ := initialWalkAt_counter P rp k hk
  obtain ⟨d1, s1⟩ := initialWalkAt_counter P rp (k + 1) (by omega)
  obtain ⟨d2, s2⟩ := initialWalkAt_counter P rp (k + 2) (by omega)
  obtain ⟨d3, s3⟩ := initialWalkAt_counter P rp (k + 3) (by omega)
  obtain ⟨-, -, c1, -⟩ := initialStep_counter P (initialWalkAt P rp k) (k + 1) (by omega) d0 s0
  obtain ⟨-, -, c2, -⟩ :=
    initialStep_counter P (initialWalkAt P rp (k + 1)) (k + 2) (by omega) d1 s1
  obtain ⟨-, -, c3, -⟩ :=
    initialStep_counter P (initialWalkAt P rp (k + 2)) (k + 3) (by omega) d2 s2
  obtain ⟨-, -, -, c4⟩ :=
    initialStep_counter P (initialWalkAt P rp (k + 3)) (k + 4) (by omega) d3 s3
  rw [← initialWalkAt_succ] at c1 c2 c3 c4
  have e1 : (initialWalkAt P rp (k + 1)).straightCounter =
      (initialWalkAt P rp k).straightCounter + 1 := c1 h1
  have e2 : (initialWalkAt P rp (k + 2)).straightCounter =
      (initialWalkAt P rp (k + 1)).straightCounter + 1 := c2 h2
  have e3 : (initialWalkAt P rp (k + 3)).straightCounter =
      (initialWalkAt P rp (k + 2)).straightCounter + 1 := c3 h3
  exact c4 (by omega)

/-- Claim C19, as the code has it: in `generateInitialPath`, for every sequence
of random draws and every step `i` with `9 ≤ i ≤ 19`, if the four immediately
preceding steps all moved along the same axis then step `i` moves along the
other axis: a direction flip is forced after 4 consecutive same-direction steps
(the counter of straight steps counts neither the five forced steps nor the
step of a flip). -/
theorem forced_turn (P : Platform) (g : Game) (i : Nat) (h9 : 9 ≤ i) (h19 : i ≤ 19) :
    (movesAlongX (generateInitialPath P g).path (i - 4) = true →
      movesAlongX (generateInitialPath P g).path (i - 3) = true →
      movesAlongX (generateInitialPath P g).path (i - 2) = true →
      movesAlongX (generateInitialPath P g).path (i - 1) = true →
      movesAlongZ (generateInitialPath P g).path i = true) ∧
    (movesAlongZ (generateInitialPath P g).path (i - 4) = true →
      movesAlongZ (generateInitialPath P g).path (i - 3) = true →
      movesAlongZ (generateInitialPath P g).path (i - 2) = true →
      movesAlongZ (generateInitialPath P g).path (i - 1) = true →
      movesAlongX (generateInitialPath P g).path i = true) := by
  obtain ⟨k, rfl⟩ : ∃ k, i = k + 4 := ⟨i - 4, by omega⟩
  rw [generateInitialPath_path]
  have e0 : k + 4 - 4 = k := by omega
  have e1 : k + 4 - 3 = k + 1 := by omega
  have e2 : k + 4 - 2 = (k + 1) + 1 := by omega
  have e3 : k + 4 - 1 = (k + 2) + 1 := by omega
  have e4 : k + 4 = (k + 3) + 1 := by omega
  have ek : k - 1 + 1 = k := by omega
  obtain ⟨x0, z0⟩ := initialWalkAt_moves P g.randPos (k - 1) (by omega)
  obtain ⟨x1, z1⟩ := initialWalkAt_moves P g.randPos k (by omega)
  obtain ⟨x2, z2⟩ := initialWalkAt_moves P g.randPos (k + 1) (by omega)
  obtain ⟨x3, z3⟩ := initialWalkAt_moves P g.randPos (k + 2) (by omega)
  obtain ⟨x4, z4⟩ := initialWalkAt_moves P g.randPos (k + 3) (by omega)
  rw [ek] at x0 z0
  obtain ⟨d0, -⟩ := initialWalkAt_counter P g.randPos k (by omega)
  obtain ⟨d1, -⟩ := initialWalkAt_counter P g.randPos (k + 1) (by omega)
  obtain ⟨d2, -⟩ := initialWalkAt_counter P g.randPos (k + 2) (by omega)
  obtain ⟨d3, -⟩ := initialWalkAt_counter P g.randPos (k + 3) (by omega)
  obtain ⟨d4, -⟩ := initialWalkAt_counter P g.randPos (k + 4) (by omega)
  have hf := initialWalkAt_forced P g.randPos k (by omega)
  rw [e0, e1, e2, e3, e4]
  constructor
  · intro a0 a1 a2 a3
    have b0 := x0.1 a0
    have b1 := x1.1 a1
    have b2 := x2.1 a2
    have b3 := x3.1 a3
    rw [z4]
    have c0 : (initialWalkAt P g.randPos k).currentDirection = 0 := by
      rcases d0 with h | h
      · exact h
      · exact absurd h b0
    have c1 : (initialWalkAt P g.randPos (k + 1)).currentDirection = 0 := by
      rcases d1 with h | h
      · exact h
      · exact absurd h b1
    have c2 : (initialWalkAt P g.randPos (k + 2)).currentDirection = 0 := by
      rcases d2 with h | h
      · exact h
      · exact absurd h b2
    have c3 : (initialWalkAt P g.randPos (k + 3)).currentDirection = 0 := by
      rcases d3 with h | h
      · exact h
      · exact absurd h b3
    have := hf (by rw [c1, c0]) (by rw [c2, c1]) (by rw [c3, c2])
    rcases d4 with h | h
    · rw [h, c3] at this
      exact absurd rfl this
    · exact h
  · intro a0 a1 a2 a3
    have c0 := z0.1 a0
    have c1 := z1.1 a1
    have c2 := z2.1 a2
    have c3 := z3.1 a3
    rw [x4]
    have := hf (by rw [c1, c0]) (by rw [c2, c1]) (by rw [c3, c2])
    rw [c3] at this
    exact this

theorem forced_turn_witness :
    (9 ≤ 13 ∧ 13 ≤ 19) ∧
    (movesAlongZ (generateInitialPath samplePlatform Game.initial).path (13 - 4) = true ∧
      movesAlongZ (generateInitialPath samplePlatform Game.initial).path (13 - 3) = true ∧
      movesAlongZ (generateInitialPath samplePlatform Game.initial).path (13 - 2) = true ∧
      movesAlongZ (generateInitialPath samplePlatform Game.initial).path (13 - 1) = true) ∧
    ((movesAlongX (generateInitialPath samplePlatform Game.initial).path (13 - 4) = true →
      movesAlongX (generateInitialPath samplePlatform Game.initial).path (13 - 3) = true →
      movesAlongX (generateInitialPath samplePlatform Game.initial).path (13 - 2) = true →
      movesAlongX (generateInitialPath samplePlatform Game.initial).path (13 - 1) = true →
      movesAlongZ (generateInitialPath samplePlatform Game.initial).path 13 = true) ∧
    (movesAlongZ (generateInitialPath samplePlatform Game.initial).path (13 - 4) = true →
      movesAlongZ (generateInitialPath samplePlatform Game.initial).path (13 - 3) = true →
      movesAlongZ (generateInitialPath samplePlatform Game.initial).path (13 - 2) = true →
      movesAlongZ (generateInitialPath samplePlatform Game.initial).path (13 - 1) = true →
      movesAlongX (generateInitialPath samplePlatform Game.initial).path 13 = true)) :=
  ⟨by decide, by decide!,
    forced_turn samplePlatform Game.initial 13 (by decide) (by decide)⟩

/-- Counterexample to claim C19 as written: on `samplePlatform` the initial path
runs `(0,0), …, (8,0), (8,1), (8,2), (8,3), (8,4), (9,4), …`; the steps 5, 6, 7
all move along `x` and step 8 moves along `x` again, and the steps 9, 10, 11
all move along `z` and step 12 moves along `z` again. -/
theorem three_steps_no_turn_counterexample :
    ((generateInitialPath samplePlatform Game.initial).path.take 14).map
        (fun t => (t.x, t.z)) =
      [(0, 0), (1, 0), (2, 0), (3, 0), (4, 0), (5, 0), (6, 0), (7, 0), (8, 0), (8, 1), (8, 2),
        (8, 3), (8, 4), (9, 4)] ∧
    (movesAlongX (generateInitialPath samplePlatform Game.initial).path 5 = true ∧
      movesAlongX (generateInitialPath samplePlatform Game.initial).path 6 = true ∧
      movesAlongX (generateInitialPath samplePlatform Game.initial).path 7 = true ∧
      movesAlongX (generateInitialPath samplePlatform Game.initial).path 8 = true ∧
      movesAlongZ (generateInitialPath samplePlatform Game.initial).path 8 = false) ∧
    (movesAlongZ (generateInitialPath samplePlatform Game.initial).path 9 = true ∧
      movesAlongZ (generateInitialPath samplePlatform Game.initial).path 10 = true ∧
      movesAlongZ (generateInitialPath samplePlatform Game.initial).path 11 = true ∧
      movesAlongZ (generateInitialPath samplePlatform Game.initial).path 12 = true ∧
      movesAlongX (generateInitialPath samplePlatform Game.initial).path 12 = false) := by
  decide!

/-! ## Corners and obstacles of an extension segment -/

theorem chooseDirection_range (P : Platform) (i : Nat) (cur : Int) (fuel pos : Nat) (d : Int)
    (p : Nat) (h : chooseDirection P i cur fuel pos = some (d, p)) : d = 0 ∨ d = 1 := by
  induction fuel generalizing pos with
  | zero => simp [chooseDirection] at h
  | succ fuel ih =>
    simp only [chooseDirection] at h
    split_ifs at h <;>
      first
        | exact ih _ h
        | (simp only [Option.some.injEq, Prod.mk.injEq] at h; omega)

theorem chooseDirection_forced (P : Platform) (i : Nat) (cur : Int) (fuel pos : Nat) (d : Int)
    (p : Nat) (hi : 0 < i) (h5 : i % 5 = 0)
    (h : chooseDirection P i cur fuel pos = some (d, p)) : d = if cur = 0 then 1 else 0 := by
  induction fuel generalizing pos with
  | zero => simp [chooseDirection] at h
  | succ fuel ih =>
    simp only [chooseDirection, hi, h5, and_self, if_true] at h
    split_ifs at h <;>
      first
        | exact ih _ h
        | (simp only [Option.some.injEq, Prod.mk.injEq] at h; omega)

theorem extendStep_corner (P : Platform) (fuel : Nat) (w w' : Walk) (i : Nat)
    (h : extendStep P fuel w i = some w') :
    ∃ t, w'.tiles = w.tiles ++ [t] ∧ (w'.currentDirection = 0 ∨ w'.currentDirection = 1) ∧
      (0 < i → i % 5 = 0 → (w.currentDirection = 0 ∨ w.currentDirection = 1) →
        t.isCorner = true) := by
  unfold extendStep at h
  cases hc : chooseDirection P i w.currentDirection fuel w.randPos with
  | none => rw [hc] at h; cases h
  | some r =>
    obtain ⟨d, rp⟩ := r
    rw [hc] at h
    simp only [Option.some.injEq] at h
    subst h
    refine ⟨_, rfl, chooseDirection_range P i _ fuel _ d rp hc, ?_⟩
    intro hi h5 hcur
    have hd := chooseDirection_forced P i _ fuel _ d rp hi h5 hc
    show (w.currentDirection != -1 && w.currentDirection != d) = true
    rcases hcur with h0 | h1
    · rw [hd, h0]; decide
    · rw [hd, h1]; decide

theorem foldlM_extendStep_corners (P : Platform) (fuel : Nat) (l : List Nat) (w w' : Walk)
    (h : l.foldlM (extendStep P fuel) w = some w') :
    ∃ new, w'.tiles = w.tiles ++ new ∧ new.length = l.length ∧
      ∀ (k i : Nat) (t : Tile), l[k]? = some i → new[k]? = some t → 0 < i → i % 5 = 0 →
        (k = 0 → w.currentDirection = 0 ∨ w.currentDirection = 1) → t.isCorner = true := by
  induction l generalizing w with
  | nil =>
    simp only [List.foldlM_nil, Option.pure_def, Option.some.injEq] at h
    subst h
    exact ⟨[], by simp, rfl, fun k i t hk => by simp at hk⟩
  | cons j l ih =>
    rw [List.foldlM_cons] at h
    cases hs : extendStep P fuel w j with
    | none => rw [hs] at h; cases h
    | some w1 =>
      rw [hs] at h
      obtain ⟨t0, ht0, hd1, hcorner⟩ := extendStep_corner P fuel w w1 j hs
      obtain ⟨new, hn, hl, hall⟩ := ih w1 h
      refine ⟨t0 :: new, ?_, by simp [hl], ?_⟩
      · rw [hn, ht0, List.append_assoc]; rfl
      · intro k i t hk ht hi h5 hcur
        cases k with
        | zero =>
          simp only [List.getElem?_cons_zero, Option.some.injEq] at hk ht
          subst hk
          subst ht
          exact hcorner hi h5 (hcur rfl)
        | succ k =>
          simp only [List.getElem?_cons_succ] at hk ht
          exact hall k i t hk ht hi h5 (fun _ => hd1)

theorem extendWalk_corners (P : Platform) (fuel : Nat) (g : Game) (w : Walk)
    (h : extendWalk P fuel g = some w) :
    w.tiles.length = 15 ∧
    ∃ t5 t10, w.tiles[5]? = some t5 ∧ t5.isCorner = true ∧
      w.tiles[10]? = some t10 ∧ t10.isCorner = true := by
  unfold extendWalk at h
  obtain ⟨new, hn, hl, hall⟩ := foldlM_extendStep_corners P fuel _ _ w h
  simp only [List.nil_append] at hn
  have hl15 : new.length = 15 := by rw [hl]; rfl
  rw [hn]
  refine ⟨hl15, ?_⟩
  have h5 : (5 : Nat) < new.length := by omega
  have h10 : (10 : Nat) < new.length := by omega
  refine ⟨new.get ⟨5, h5⟩, new.get ⟨10, h10⟩, List.getElem?_eq_getElem h5, ?_,
    List.getElem?_eq_getElem h10, ?_⟩
  · exact hall 5 5 _ (by decide) (List.getElem?_eq_getElem h5) (by decide) (by decide)
      (fun h => by cases h)
  · exact hall 10 10 _ (by decide) (List.getElem?_eq_getElem h10) (by decide) (by decide)
      (fun h => by cases h)

theorem foldl_spawnStep_index (P : Platform) (seg : List Tile) (startIndex : Nat) (l : List Nat)
    (g : Game) :
    ∃ added, (l.foldl (spawnStep P seg startIndex) g).obstacles = g.obstacles ++ added ∧
      ∀ o ∈ added, ∃ i tile, i ∈ l ∧ seg[i]? = some tile ∧ ¬ (i < 5 ∧ startIndex = 0) ∧
        CornerFree g.path tile.x tile.z ∧ tile.x = o.x ∧ tile.z = o.z := by
  induction l generalizing g with
  | nil => exact ⟨[], by simp, by simp⟩
  | cons i l ih =>
    rw [List.foldl_cons]
    obtain ⟨added, ha, hall⟩ := ih (spawnStep P seg startIndex g i)
    have hpath : (spawnStep P seg startIndex g i).path = g.path := by
      obtain ⟨obs, rp, h⟩ := spawnStep_frame P seg startIndex g i
      rw [h]
    rw [hpath] at hall
    have hcase : (spawnStep P seg startIndex g i).obstacles = g.obstacles ∨
        ∃ tile r, seg[i]? = some tile ∧ ¬ (i < 5 ∧ startIndex = 0) ∧
          CornerFree g.path tile.x tile.z ∧
          (spawnStep P seg startIndex g i).obstacles =
            g.obstacles ++ [newObstacle tile.x tile.z r] := by
      unfold spawnStep
      split
      · exact Or.inl rfl
      · rename_i tile htile
        dsimp only
        split_ifs with h1 h2 h3 h4 h5 h6
        all_goals first
          | exact Or.inl rfl
          | exact Or.inr ⟨tile, _, htile, h1,
              cornerFree_of_checks _ _ _ (by simpa using h2) (by simpa using h3), rfl⟩
    rcases hcase with hc | ⟨tile, r, hs, hsafe, hcf, hc⟩
    · refine ⟨added, by rw [ha, hc], ?_⟩
      intro o ho
      obtain ⟨j, tile, hj, rest⟩ := hall o ho
      exact ⟨j, tile, List.mem_cons_of_mem _ hj, rest⟩
    · refine ⟨newObstacle tile.x tile.z r :: added, ?_, ?_⟩
      · rw [ha, hc, List.append_assoc]; rfl
      · intro o ho
        rcases List.mem_cons.1 ho with ho | ho
        · subst ho
          exact ⟨i, tile, List.mem_cons_self _ _, hs, hsafe, hcf, rfl, rfl⟩
        · obtain ⟨j, tile', hj, rest⟩ := hall o ho
          exact ⟨j, tile', List.mem_cons_of_mem _ hj, rest⟩

theorem Staircase.adjacent {l : List Tile} (h : Staircase l) (i : Nat) (t u : Tile)
    (ht : l[i]? = some t) (hu : l[i + 1]? = some u) :
    manhattan t.x t.z u.x u.z = 1 ∧ manhattan u.x u.z t.x t.z = 1 := by
  unfold manhattan
  rcases h.step i t u ht hu with ⟨a, b⟩ | ⟨a, b⟩ <;> constructor <;> omega

theorem getElem?_append_add {α : Type} (l seg : List α) (i : Nat) :
    (l ++ seg)[l.length + i]? = seg[i]? := by
  rw [List.getElem?_append_right (Nat.le_add_right _ _), Nat.add_sub_cancel_left]

/-- Claim C22: for every call of `extendPath` in a state whose path was built
by `generateInitialPath` and `extendPath` (every reachable state is one), with
any random draws, the call appends a segment of 15 tiles whose tiles of index 5
and 10 are corner tiles, and every obstacle it appends lies on a tile of the
segment; any tile of the segment that carries an appended obstacle has index 7,
8, 12, 13 or 14 within the segment, so none of the first five tiles does. When
the direction loops terminate the call returns a state. -/
theorem extension_obstacle_positions (P : Platform) (fuel : Nat) (g g' : Game)
    (hb : Built P g) (h : extendPath P fuel g = some g') :
    (∃ (seg : List Tile) (added : List Obstacle), g'.path = g.path ++ seg ∧ seg.length = 15 ∧
      g'.obstacles = g.obstacles ++ added ∧
      (∃ t5 t10, seg[5]? = some t5 ∧ t5.isCorner = true ∧
        seg[10]? = some t10 ∧ t10.isCorner = true) ∧
      (∀ o ∈ added, ∃ (i : Nat) (tile : Tile),
        seg[i]? = some tile ∧ tile.x = o.x ∧ tile.z = o.z) ∧
      (∀ o ∈ added, ∀ (i : Nat) (tile : Tile), seg[i]? = some tile → tile.x = o.x →
        tile.z = o.z → i = 7 ∨ i = 8 ∨ i = 12 ∨ i = 13 ∨ i = 14)) ∧
    (LoopTerminates P →
      ∃ fuel0 g₁, ∀ fuel', fuel0 ≤ fuel' → extendPath P fuel' g = some g₁) := by
  refine ⟨?_, fun hP => extendPath_total P hP g⟩
  have hG := extendPath_genInv P fuel g g' hb.genInv h
  unfold extendPath at h
  cases hw : extendWalk P fuel g with
  | none => rw [hw] at h; cases h
  | some w =>
    rw [hw] at h
    simp only [Option.some.injEq] at h
    obtain ⟨hlen, t5, t10, h5, c5, h10, c10⟩ := extendWalk_corners P fuel g w hw
    obtain ⟨obs, rp, hfr⟩ := generateObstacles_frame P w.tiles 0
      { g with path := g.path ++ w.tiles, maxX := w.maxX, maxZ := w.maxZ,
               prevDirection := w.currentDirection, randPos := w.randPos }
    obtain ⟨added, ha, hall⟩ := foldl_spawnStep_index P w.tiles 0
      (List.range' 0 (w.tiles.length - 0))
      { g with path := g.path ++ w.tiles, maxX := w.maxX, maxZ := w.maxZ,
               prevDirection := w.currentDirection, randPos := w.randPos }
    have hpath : g'.path = g.path ++ w.tiles := by
      rw [← h, hfr]
    have hobs : g'.obstacles = g.obstacles ++ added := by
      rw [← h]
      exact ha
    have hS : Staircase (g.path ++ w.tiles) := by
      rw [← hpath]; exact hG.stair
    have hmem5 : t5 ∈ g.path ++ w.tiles :=
      List.mem_append_right _ (List.getElem?_mem h5)
    have hmem10 : t10 ∈ g.path ++ w.tiles :=
      List.mem_append_right _ (List.getElem?_mem h10)
    have hidx : ∀ o ∈ added, ∃ i tile, w.tiles[i]? = some tile ∧ tile.x = o.x ∧ tile.z = o.z ∧
        (i = 7 ∨ i = 8 ∨ i = 12 ∨ i = 13 ∨ i = 14) := by
      intro o ho
      obtain ⟨i, tile, -, hi, hsafe, hcf, hx, hz⟩ := hall o ho
      refine ⟨i, tile, hi, hx, hz, ?_⟩
      have hcf : CornerFree (g.path ++ w.tiles) tile.x tile.z := hcf
      have hi5 : 5 ≤ i := by
        rcases Nat.lt_or_ge i 5 with hlt | hge
        · exact absurd ⟨hlt, rfl⟩ hsafe
        · exact hge
      have hi15 : i < 15 := by
        rcases Nat.lt_or_ge i 15 with hlt | hge
        · exact hlt
        · rw [List.getElem?_eq_none (by omega)] at hi; cases hi
      have hp : (g.path ++ w.tiles)[g.path.length + i]? = some tile := by
        rw [getElem?_append_add]; exact hi
      have hp5 : (g.path ++ w.tiles)[g.path.length + 5]? = some t5 := by
        rw [getElem?_append_add]; exact h5
      have hp10 : (g.path ++ w.tiles)[g.path.length + 10]? = some t10 := by
        rw [getElem?_append_add]; exact h10
      have n5 : i ≠ 5 := by
        rintro rfl
        rw [h5] at hi
        cases hi
        exact (hcf t5 hmem5 c5).1 ⟨rfl, rfl⟩
      have n10 : i ≠ 10 := by
        rintro rfl
        rw [h10] at hi
        cases hi
        exact (hcf t10 hmem10 c10).1 ⟨rfl, rfl⟩
      have n6 : i ≠ 6 := by
        rintro rfl
        exact (hcf t5 hmem5 c5).2 (hS.adjacent (g.path.length + 5) t5 tile hp5 hp).1
      have n11 : i ≠ 11 := by
        rintro rfl
        exact (hcf t10 hmem10 c10).2 (hS.adjacent (g.path.length + 10) t10 tile hp10 hp).1
      have n9 : i ≠ 9 := by
        rintro rfl
        exact (hcf t10 hmem10 c10).2 (hS.adjacent (g.path.length + 9) tile t10 hp hp10).2
      omega
    refine ⟨w.tiles, added, hpath, hlen, hobs, ⟨t5, t10, h5, c5, h10, c10⟩, ?_, ?_⟩
    · intro o ho
      obtain ⟨i, tile, hi, hx, hz, -⟩ := hidx o ho
      exact ⟨i, tile, hi, hx, hz⟩
    · intro o ho j tile' hj hx' hz'
      obtain ⟨i, tile, hi, hx, hz, hset⟩ := hidx o ho
      have hp : (g.path ++ w.tiles)[g.path.length + i]? = some tile := by
        rw [getElem?_append_add]; exact hi
      have hp' : (g.path ++ w.tiles)[g.path.length + j]? = some tile' := by
        rw [getElem?_append_add]; exact hj
      have := hS.distinct _ _ tile tile' hp hp' (by rw [hx, hx']) (by rw [hz, hz'])
      have hij : i = j := by omega
      rw [← hij]
      exact hset

theorem sampleExtended_appended :
    sampleExtended.obstacles.length =
      (generateInitialPath samplePlatform Game.initial).obstacles.length + 2 := by
  decide!

/-- Claim C22 at the extension of the initial path on `samplePlatform`, which
appends two obstacles. -/
theorem extension_obstacle_positions_witness :
    Built samplePlatform (generateInitialPath samplePlatform Game.initial) ∧
    sampleExtended.obstacles.length =
      (generateInitialPath samplePlatform Game.initial).obstacles.length + 2 ∧
    ((∃ (seg : List Tile) (added : List Obstacle),
      sampleExtended.path = (generateInitialPath samplePlatform Game.initial).path ++ seg ∧
      seg.length = 15 ∧
      sampleExtended.obstacles =
        (generateInitialPath samplePlatform Game.initial).obstacles ++ added ∧
      (∃ t5 t10, seg[5]? = some t5 ∧ t5.isCorner = true ∧
        seg[10]? = some t10 ∧ t10.isCorner = true) ∧
      (∀ o ∈ added, ∃ (i : Nat) (tile : Tile),
        seg[i]? = some tile ∧ tile.x = o.x ∧ tile.z = o.z) ∧
      (∀ o ∈ added, ∀ (i : Nat) (tile : Tile), seg[i]? = some tile → tile.x = o.x →
        tile.z = o.z → i = 7 ∨ i = 8 ∨ i = 12 ∨ i = 13 ∨ i = 14)) ∧
    (LoopTerminates samplePlatform →
      ∃ fuel0 g₁, ∀ fuel', fuel0 ≤ fuel' →
        extendPath samplePlatform fuel' (generateInitialPath samplePlatform Game.initial) =
          some g₁)) :=
  ⟨Built.initial Game.initial, sampleExtended_appended,
    extension_obstacle_positions samplePlatform 1 _ sampleExtended
      (Built.initial Game.initial) sampleExtended_eq⟩

/-! ## The spawn probability -/

theorem generateObstacles_eq_at (P : Platform) (seg : List Tile) (startIndex : Nat) (g : Game) :
    generateObstacles P seg startIndex g =
      generateObstaclesAt P seg startIndex g (seg.length - startIndex) :=
  rfl

theorem generateInitialPath_call (P : Platform) (g : Game) :
    generateInitialPath P g =
      generateObstacles P (initialWalk P g.randPos).tiles 6
        { g with
          path := (initialWalk P g.randPos).tiles
          obstacles := []
          maxX := (initialWalk P g.randPos).maxX
          maxZ := (initialWalk P g.randPos).maxZ
          prevDirection := (initialWalk P g.randPos).currentDirection
          randPos := (initialWalk P g.randPos).randPos } :=
  rfl

theorem obstacleHits_iff (x y z : ℚ) (o : Obstacle) :
    obstacleHits x y z o = true ↔
      o.active = true ∧ (cRound x : ℚ) = roundFloat o.x ∧ (cRound z : ℚ) = roundFloat o.z ∧
      (((o.type = ObstacleType.RISING_BLOCK ∨ o.type = ObstacleType.FALLING_BLOCK) ∧
          y ≤ roundFloat (o.height + 1 / 2) ∧
          roundFloat (y + 1 / 2) ≥ roundFloat (o.height - 1 / 2)) ∨
        (o.type = ObstacleType.SPINNING_BLOCK ∧ y ≤ 3 / 2) ∨
        (o.type = ObstacleType.MOVING_BLOCK ∧ y ≤ 1 ∧
          roundFloat (roundFloat (roundFloat o.x - 1 / 2) + o.offsetX) ≤ x ∧
          x ≤ roundFloat (roundFloat (roundFloat o.x + 1 / 2) + o.offsetX) ∧
          roundFloat (roundFloat (roundFloat o.z - 1 / 2) + o.offsetZ) ≤ z ∧
          z ≤ roundFloat (roundFloat (roundFloat o.z + 1 / 2) + o.offsetZ))) := by
  unfold obstacleHits
  rcases o with ⟨ox, oz, ty, pr, ac, he, ro, offx, offz⟩
  cases ac
  · simp
  · by_cases hc : (cRound x : ℚ) = roundFloat ox ∧ (cRound z : ℚ) = roundFloat oz
    · obtain ⟨h1, h2⟩ := hc
      cases ty <;> simp [h1, h2]
    · simp only [Bool.not_true, Bool.false_eq_true, if_false, hc, true_and]
      constructor
      · intro h; cases h
      · rintro ⟨h1, h2, _⟩; exact absurd ⟨h1, h2⟩ hc

/-- Claim C10, as the code computes it: `checkObstacleCollision(x, y, z)` is
true exactly when some active obstacle whose cell, converted to `float`, is
`(round x, round z)` passes the test of its type, every sum and difference
being rounded to `float`: rising and falling blocks when
`y ≤ fl(height + 0.5)` and `fl(y + 0.5) ≥ fl(height - 0.5)`, spinning blocks
when `y ≤ 1.5`, moving blocks when `y ≤ 1.0` and
`fl(fl(ox - 0.5) + offsetX) ≤ x ≤ fl(fl(ox + 0.5) + offsetX)` and the same in
`z`. If every obstacle is inactive or in another cell, the result is false. -/
theorem checkObstacleCollision_iff (obstacles : List Obstacle) (x y z : ℚ) :
    (checkObstacleCollision obstacles x y z = true ↔
      ∃ o ∈ obstacles, o.active = true ∧
        (cRound x : ℚ) = roundFloat o.x ∧ (cRound z : ℚ) = roundFloat o.z ∧
        (((o.type = ObstacleType.RISING_BLOCK ∨ o.type = ObstacleType.FALLING_BLOCK) ∧
            y ≤ roundFloat (o.height + 1 / 2) ∧
            roundFloat (y + 1 / 2) ≥ roundFloat (o.height - 1 / 2)) ∨
          (o.type = ObstacleType.SPINNING_BLOCK ∧ y ≤ 3 / 2) ∨
          (o.type = ObstacleType.MOVING_BLOCK ∧ y ≤ 1 ∧
            roundFloat (roundFloat (roundFloat o.x - 1 / 2) + o.offsetX) ≤ x ∧
            x ≤ roundFloat (roundFloat (roundFloat o.x + 1 / 2) + o.offsetX) ∧
            roundFloat (roundFloat (roundFloat o.z - 1 / 2) + o.offsetZ) ≤ z ∧
            z ≤ roundFloat (roundFloat (roundFloat o.z + 1 / 2) + o.offsetZ)))) ∧
    ((∀ o ∈ obstacles, o.active = false ∨ (cRound x : ℚ) ≠ roundFloat o.x ∨
        (cRound z : ℚ) ≠ roundFloat o.z) →
      checkObstacleCollision obstacles x y z = false) := by
  have key : checkObstacleCollision obstacles x y z = true ↔
      ∃ o ∈ obstacles, obstacleHits x y z o = true := by
    unfold checkObstacleCollision
    exact List.any_eq_true
  constructor
  · rw [key]
    constructor
    · rintro ⟨o, ho, h⟩
      exact ⟨o, ho, (obstacleHits_iff x y z o).1 h⟩
    · rintro ⟨o, ho, h⟩
      exact ⟨o, ho, (obstacleHits_iff x y z o).2 h⟩
  · intro hall
    rw [← Bool.not_eq_true, key]
    rintro ⟨o, ho, h⟩
    obtain ⟨ha, hx, hz, _⟩ := (obstacleHits_iff x y z o).1 h
    rcases hall o ho with h1 | h1 | h1
    · rw [ha] at h1; cases h1
    · exact h1 hx
    · exact h1 hz

/-- Counterexample to claim C10 as written: at the resting height `y = 1` over
a rising block of height `0.49999997f` in the same cell, the function returns
`true` (the sum `height + 0.5f` rounds to `1.0f`), although
`y ≤ height + 0.5` fails in exact arithmetic, so no obstacle satisfies the
condition of the claim. -/
theorem band_rounding_counterexample :
    checkObstacleCollision [sampleBlock] 0 1 0 = true ∧
    sampleBlock.height = roundFloat sampleBlock.height ∧
    ¬ ((1 : ℚ) ≤ sampleBlock.height + 1 / 2) ∧
    ¬ (∃ o ∈ [sampleBlock], o.active = true ∧ o.x = cRound (0 : ℚ) ∧ o.z = cRound (0 : ℚ) ∧
        (((o.type = ObstacleType.RISING_BLOCK ∨ o.type = ObstacleType.FALLING_BLOCK) ∧
            (1 : ℚ) ≤ o.height + 1 / 2 ∧ (1 : ℚ) + 1 / 2 ≥ o.height - 1 / 2) ∨
          (o.type = ObstacleType.SPINNING_BLOCK ∧ (1 : ℚ) ≤ 3 / 2) ∨
          (o.type = ObstacleType.MOVING_BLOCK ∧ (1 : ℚ) ≤ 1 ∧
            (o.x : ℚ) - 1 / 2 + o.offsetX ≤ 0 ∧ (0 : ℚ) ≤ (o.x : ℚ) + 1 / 2 + o.offsetX ∧
            (o.z : ℚ) - 1 / 2 + o.offsetZ ≤ 0 ∧ (0 : ℚ) ≤ (o.z : ℚ) + 1 / 2 + o.offsetZ))) := by
  refine ⟨by decide!, by decide!, by decide!, ?_⟩
  rintro ⟨o, ho, -, -, -, h⟩
  simp only [List.mem_singleton] at ho
  subst ho
  rcases h with ⟨-, h, -⟩ | ⟨h, -⟩ | ⟨h, -⟩
  · exact absurd h (by decide!)
  · exact absurd h (by decide)
  · exact absurd h (by decide)

/-! ## The score rule -/

theorem max_truncToInt (k : Int) (s : ℚ) (hk : 0 ≤ k) : max k (truncToInt s) = max k ⌊s⌋ := by
  unfold truncToInt
  split_ifs with h
  · rfl
  · have h1 : ⌈s⌉ ≤ 0 := by
      rw [Int.ceil_le]
      push_neg at h
      exact_mod_cast le_of_lt h
    have h2 : ⌊s⌋ ≤ ⌈s⌉ := Int.floor_le_ceil s
    rw [max_eq_left (by omega), max_eq_left (by omega)]

theorem updateScore_rule (m : Game) :
    (m.gameOver = false →
      (updateScore m).maxDistanceTraveled =
        max m.maxDistanceTraveled (truncToInt (roundFloat (m.playerX + m.playerZ))) ∧
      (m.score = m.maxDistanceTraveled →
        (updateScore m).score =
          max m.maxDistanceTraveled (truncToInt (roundFloat (m.playerX + m.playerZ))))) ∧
    (m.gameOver = true → (updateScore m).score = m.score) := by
  unfold updateScore
  dsimp only
  constructor
  · intro hgo
    rw [if_pos (by simp [hgo])]
    split_ifs with h
    · exact ⟨(max_eq_right (le_of_lt h)).symm, fun _ => (max_eq_right (le_of_lt h)).symm⟩
    · push_neg at h
      exact ⟨(max_eq_left h).symm, fun hs => by rw [hs]; exact (max_eq_left h).symm⟩
  · intro hgo
    rw [if_neg (by simp [hgo])]

/-- Claim C17, as the code computes it: from every state reachable from
`reset()`, an `updateGame` tick that ends with `gameOver = false` makes the
score and `maxDistanceTraveled` both equal to the maximum of the old
`maxDistanceTraveled` and the floor of the `float` sum `fl(playerX + playerZ)`
at the player position after the movement of the tick, whatever that position
(negative or non-integral sums included); a tick that ends with
`gameOver = true` leaves the score unchanged. When the loops of `extendPath`
terminate the tick returns a state. -/
theorem score_update_rule (P : Platform) (D : ℚ → Prop) (fuel : Nat) (deltaTime : ℚ)
    (g g' : Game) (hr : Reachable P D g) (hu : updateGame P fuel deltaTime g = some g') :
    (g'.gameOver = false →
      g'.score = max g.maxDistanceTraveled ⌊roundFloat (g'.playerX + g'.playerZ)⌋ ∧
      g'.maxDistanceTraveled =
        max g.maxDistanceTraveled ⌊roundFloat (g'.playerX + g'.playerZ)⌋) ∧
    (g'.gameOver = true → g'.score = g.score) ∧
    (LoopTerminates P →
      ∃ fuel0 g₁, ∀ fuel, fuel0 ≤ fuel → updateGame P fuel deltaTime g = some g₁) := by
  refine ⟨?_, ?_, fun hP => updateGame_total P hP deltaTime g⟩
  · intro hgo'
    cases hgo : g.gameOver with
    | true =>
      rw [updateGame_of_gameOver P fuel deltaTime g hgo] at hu
      cases hu
      rw [hgo] at hgo'
      cases hgo'
    | false =>
      obtain ⟨m, hm, rfl⟩ := updateGame_eq P fuel deltaTime g g' hgo hu
      have hE := updateMovement_extends P fuel deltaTime _ m hm
      have h1 : m.score = g.score := hE.score
      have h2 : m.maxDistanceTraveled = g.maxDistanceTraveled := hE.maxDistanceTraveled
      obtain ⟨-, -, -, c4, c5⟩ := updateCamera_frame deltaTime (updateScore m)
      have hp := (updateScoreCamera_pose deltaTime m).1
      rw [hp.gameOver] at hgo'
      obtain ⟨a, b⟩ := (updateScore_rule m).1 hgo'
      rw [c4, c5, hp.playerX, hp.playerZ, b (by rw [h1, h2]; exact hr.score_eq), a, h2,
        max_truncToInt _ _ hr.maxDistance_nonneg]
      exact ⟨rfl, rfl⟩
  · intro hgo'
    cases hgo : g.gameOver with
    | true =>
      rw [updateGame_of_gameOver P fuel deltaTime g hgo] at hu
      cases hu
      rfl
    | false =>
      obtain ⟨m, hm, rfl⟩ := updateGame_eq P fuel deltaTime g g' hgo hu
      have hE := updateMovement_extends P fuel deltaTime _ m hm
      have h1 : m.score = g.score := hE.score
      obtain ⟨-, -, -, c4, -⟩ := updateCamera_frame deltaTime (updateScore m)
      have hp := (updateScoreCamera_pose deltaTime m).1
      rw [hp.gameOver] at hgo'
      rw [c4, (updateScore_rule m).2 hgo', h1]

theorem sampleMidJump_run :
    run samplePlatform 1 sampleJumpActions (reset samplePlatform Game.initial) =
      some sampleMidJump :=
  getD_of_isSome _ _ (by decide!)

theorem sampleMidJump_reachable :
    Reachable samplePlatform (fun d => 0 ≤ d ∧ d ≤ roundFloat (1 / 10)) sampleMidJump := by
  refine run_reachable samplePlatform _ 1 sampleJumpActions _ _ (Reachable.start Game.initial) ?_
    sampleMidJump_run
  intro a ha dt hdt
  subst hdt
  have hd : (0 : ℚ) ≤ roundFloat (1 / 10) ∧ roundFloat (1 / 10) ≤ roundFloat (1 / 10) :=
    ⟨by decide!, le_refl _⟩
  simp only [sampleJumpActions, List.cons_append, List.nil_append, List.mem_cons,
    List.mem_append, List.mem_replicate, List.mem_singleton] at ha
  rcases ha with h | ⟨-, h⟩ | h | h | h | h | h | h | h
  all_goals first
    | (cases h; done)
    | (cases h; exact hd)

theorem sampleNearCell_update :
    updateGame samplePlatform 1 (1677721 / 33554432) sampleMidJump = some sampleNearCell :=
  getD_of_isSome _ _ (by decide!)

theorem sampleNearCell_facts :
    sampleNearCell.gameOver = false ∧ sampleMidJump.maxDistanceTraveled = 5 ∧
    sampleNearCell.playerX = 5 ∧ sampleNearCell.playerZ = 16777215 / 16777216 ∧
    sampleNearCell.score = 6 ∧ sampleNearCell.maxDistanceTraveled = 6 := by
  decide!

/-- Claim C17 as computed, at the tick of `sampleNearCell`: the old maximum is
5 and the `float` sum `5 + 0.99999994f` is `6.0f`, so the score becomes 6. -/
theorem score_update_rule_witness :
    Reachable samplePlatform (fun d => 0 ≤ d ∧ d ≤ roundFloat (1 / 10)) sampleMidJump ∧
    updateGame samplePlatform 1 (1677721 / 33554432) sampleMidJump = some sampleNearCell ∧
    sampleNearCell.gameOver = false ∧
    sampleNearCell.score =
      max sampleMidJump.maxDistanceTraveled
        ⌊roundFloat (sampleNearCell.playerX + sampleNearCell.playerZ)⌋ ∧
    sampleNearCell.maxDistanceTraveled =
      max sampleMidJump.maxDistanceTraveled
        ⌊roundFloat (sampleNearCell.playerX + sampleNearCell.playerZ)⌋ :=
  ⟨sampleMidJump_reachable, sampleNearCell_update, sampleNearCell_facts.1,
    (score_update_rule samplePlatform _ 1 (1677721 / 33554432) sampleMidJump sampleNearCell
      sampleMidJump_reachable sampleNearCell_update).1 sampleNearCell_facts.1⟩

/-- Counterexample to claim C17 as written: `sampleMidJump` is reachable from
`reset()` with ticks of at most `0.1f`; the tick of `0.04999998f` that follows
ends with `gameOver = false` at `(5, 0.99999994f)`, where
`floor(playerX + playerZ) = 5` and the old maximum is 5, yet the score and the
maximum become 6: the `float` sum is `6.0f`. -/
theorem score_float_sum_counterexample :
    Reachable samplePlatform (fun d => 0 ≤ d ∧ d ≤ roundFloat (1 / 10)) sampleMidJump ∧
    (0 : ℚ) ≤ 1677721 / 33554432 ∧ (1677721 / 33554432 : ℚ) ≤ roundFloat (1 / 10) ∧
    updateGame samplePlatform 1 (1677721 / 33554432) sampleMidJump = some sampleNearCell ∧
    sampleNearCell.gameOver = false ∧
    max sampleMidJump.maxDistanceTraveled ⌊sampleNearCell.playerX + sampleNearCell.playerZ⌋ = 5 ∧
    sampleNearCell.score = 6 ∧ sampleNearCell.maxDistanceTraveled = 6 := by
  refine ⟨sampleMidJump_reachable, by norm_num, by decide!, sampleNearCell_update,
    sampleNearCell_facts.1, ?_, sampleNearCell_facts.2.2.2.2.1, sampleNearCell_facts.2.2.2.2.2⟩
  rw [sampleNearCell_facts.2.1, sampleNearCell_facts.2.2.1, sampleNearCell_facts.2.2.2.1]
  have : ⌊(5 : ℚ) + 16777215 / 16777216⌋ = 5 := by
    rw [Int.floor_eq_iff]
    constructor <;> norm_num
  rw [this]
  rfl

/-! ## Decay in `float` arithmetic -/

theorem sampleRollStart_facts :
    sampleRollStart.gameOver = false ∧ sampleRollStart.isRolling = true ∧
    sampleRollStart.isJumping = false ∧ sampleRollStart.rollProgress = 0 ∧
    sampleRollStart.rollDirection = 4 ∧ sampleRollStart.playerX = 0 ∧
    sampleRollStart.playerZ = 0 := by
  decide!

theorem sampleRollLate_facts :
    sampleRollLate.gameOver = false ∧ sampleRollLate.isRolling = true ∧
    sampleRollLate.isJumping = false ∧ sampleRollLate.rollProgress = 15099495 / 16777216 ∧
    sampleRollLate.rollDirection = 4 ∧ sampleRollLate.playerX = 0 ∧
    sampleRollLate.playerZ = 0 := by
  decide!

theorem sampleLateJump_facts :
    sampleLateJump.gameOver = false ∧ sampleLateJump.isJumping = true ∧
    sampleLateJump.jumpProgress = 13421773 / 16777216 ∧
    sampleLateJump.jumpStartX = 5 ∧ sampleLateJump.jumpStartZ = 0 ∧
    sampleLateJump.jumpDestX = 5 ∧ sampleLateJump.jumpDestZ = 2 := by
  decide!

end CrossyRoads
